import Mathlib

/-!
# Raw read path of `services/httpd` (`raw.go`, `rpc.go`)

A shallow embedding of the expression compiler (`GetReadRequest`, `exprToNode`,
`exprToNodeVisitor`), of the buffered result materializer (`GetReadResponse`) and of the
streaming one (`Server.Raw`).

Conventions of the embedding

* A Go interface or pointer value that may be `nil` is an `Option`.
* A Go `(value, error)` pair is an `Except Err`, or an `Outcome` where the function can
  also panic: a panic is a constructor of `Outcome` and of `MayPanic`, so that the
  `panic(...)` branches of the source stay visible.
* Libraries outside `src/` (`influxql`, `gogo/protobuf/types`, `prometheus`, the storage
  engine) are not re-implemented: what the code calls in them is a field of `Env` or
  `Ext`, and every theorem holds for every such environment.
* `int`/`int64` counters and timestamps are `Int`. The only arithmetic is `+ 1` on
  counters bounded by the number of samples read and a division by `1000000`, neither of
  which can leave the 64-bit range on data that fits in memory.
-/

namespace Httpd

/-! ## Errors and outcomes -/

/-- The `error` values built in `raw.go`, one constructor per `fmt.Errorf` call, and
the errors handed through from library calls. -/
inductive Err where
  /-- From `fmt.Errorf("db is empty")`. -/
  | dbIsEmpty
  /-- From `fmt.Errorf("measurement is empty")`. -/
  | measurementIsEmpty
  /-- From `fmt.Errorf("unsupported operator, %s", n.Op)`. -/
  | unsupportedOperator (op : String)
  /-- From `fmt.Errorf("unsupported expression %T", n)`. -/
  | unsupportedExpression (goType : String)
  /-- From `fmt.Errorf("raw can't read cursor, cursor_type: %s, series: %s", ...)`. -/
  | cantReadCursor (cursorType : String) (tags : List (String × String))
  /-- From `fmt.Errorf("unreachable: %T", cur)`. -/
  | unreachable (goType : String)
  /-- An error returned by `types.MarshalAny`, `influxql.ParseExpr` or
  `influxql.ConditionExpr`. -/
  | library (msg : String)
  deriving DecidableEq, Repr

/-- The result of a Go function returning `(value, error)` that may also panic. -/
inductive Outcome (α : Type) where
  /-- For `return val, nil`. -/
  | ok (val : α)
  /-- For `return nil, e`. -/
  | error (e : Err)
  /-- A run-time panic (explicit `panic(...)` or an index out of range). -/
  | panic (msg : String)
  deriving DecidableEq, Repr

/-! ## `influxql` expressions (the part of the AST the visitor inspects) -/

/-- The `influxql.Token` values that the parser puts in `BinaryExpr.Op` (the operators
between `operatorBeg` and `operatorEnd`); `other` is any remaining token. -/
inductive Token where
  | ADD | SUB | MUL | DIV | MOD | BITWISE_AND | BITWISE_OR | BITWISE_XOR
  | AND | OR
  | EQ | NEQ | EQREGEX | NEQREGEX | LT | LTE | GT | GTE
  | other (name : String)
  deriving DecidableEq, Repr

/-- The text `Token.String()` prints, used by `%s` in the unsupported-operator error. -/
def Token.String : Token → String
  | .ADD => "+" | .SUB => "-" | .MUL => "*" | .DIV => "/" | .MOD => "%"
  | .BITWISE_AND => "&" | .BITWISE_OR => "|" | .BITWISE_XOR => "^"
  | .AND => "AND" | .OR => "OR"
  | .EQ => "=" | .NEQ => "!=" | .EQREGEX => "=~" | .NEQREGEX => "!~"
  | .LT => "<" | .LTE => "<=" | .GT => ">" | .GTE => ">="
  | .other name => name

/-- A `float64`, kept as its IEEE-754 bit pattern: the code only copies such values. -/
structure Float64 where
  bits : Nat
  deriving DecidableEq, Repr

/-- The type `influxql.Expr`. Operands are `Option Expr` because the Go fields are
interface values that can be `nil`. What the visitor never reads is left out: the type
of a `VarRef` and the operands of the expression kinds `Visit` has no case for (it does
not descend into them). -/
inductive Expr where
  | BinaryExpr (Op : Token) (LHS RHS : Option Expr)
  | ParenExpr (Expr : Option Expr)
  | StringLiteral (Val : String)
  | NumberLiteral (Val : Float64)
  | IntegerLiteral (Val : Int)
  | UnsignedLiteral (Val : Nat)
  | VarRef (Val : String)
  /-- Field `Val` is the source text of the compiled regexp, what `n.Val.String()` returns. -/
  | RegexLiteral (Val : String)
  | BooleanLiteral (Val : Bool)
  | DurationLiteral (Val : Int)
  | TimeLiteral (Val : Int)
  | NilLiteral
  | Wildcard
  | Call (Name : String)
  | Distinct (Val : String)
  | ListLiteral (Vals : List String)
  | BoundParameter (Name : String)
  deriving Repr

/-- What `%T` prints for an expression. -/
def Expr.goType : Expr → String
  | .BinaryExpr .. => "*influxql.BinaryExpr"
  | .ParenExpr .. => "*influxql.ParenExpr"
  | .StringLiteral .. => "*influxql.StringLiteral"
  | .NumberLiteral .. => "*influxql.NumberLiteral"
  | .IntegerLiteral .. => "*influxql.IntegerLiteral"
  | .UnsignedLiteral .. => "*influxql.UnsignedLiteral"
  | .VarRef .. => "*influxql.VarRef"
  | .RegexLiteral .. => "*influxql.RegexLiteral"
  | .BooleanLiteral .. => "*influxql.BooleanLiteral"
  | .DurationLiteral .. => "*influxql.DurationLiteral"
  | .TimeLiteral .. => "*influxql.TimeLiteral"
  | .NilLiteral => "*influxql.NilLiteral"
  | .Wildcard => "*influxql.Wildcard"
  | .Call .. => "*influxql.Call"
  | .Distinct .. => "*influxql.Distinct"
  | .ListLiteral .. => "*influxql.ListLiteral"
  | .BoundParameter .. => "*influxql.BoundParameter"

/-! ## `datatypes` predicate nodes -/

/-- The enum `datatypes.Node_Type`. -/
inductive NodeType where
  | NodeTypeLogicalExpression
  | NodeTypeComparisonExpression
  | NodeTypeParenExpression
  | NodeTypeTagRef
  | NodeTypeLiteral
  | NodeTypeFieldRef
  deriving DecidableEq, Repr

/-- The enum `datatypes.Node_Comparison`. -/
inductive Node_Comparison where
  | ComparisonEqual
  | ComparisonNotEqual
  | ComparisonStartsWith
  | ComparisonRegex
  | ComparisonNotRegex
  | ComparisonLess
  | ComparisonLessEqual
  | ComparisonGreater
  | ComparisonGreaterEqual
  deriving DecidableEq, Repr

/-- The enum `datatypes.Node_Logical`. -/
inductive Node_Logical where
  | LogicalAnd
  | LogicalOr
  deriving DecidableEq, Repr

/-- The `oneof` field `Node.Value`; `none` is the unset field. -/
inductive NodeValue where
  | none
  | StringValue (v : String)
  | BooleanValue (v : Bool)
  | IntegerValue (v : Int)
  | UnsignedValue (v : Nat)
  | FloatValue (v : Float64)
  | RegexValue (v : String)
  | TagRefValue (v : String)
  | FieldRefValue (v : String)
  | Logical (v : Node_Logical)
  | Comparison (v : Node_Comparison)
  deriving DecidableEq, Repr

/-- The message `datatypes.Node`: a type tag, a value and the list of children. -/
inductive Node where
  | mk (NodeType : NodeType) (Value : NodeValue) (Children : List Node)
  deriving Repr

/-- Field `NodeType`. -/
def Node.NodeType : Node → Httpd.NodeType
  | .mk t _ _ => t

/-- Field `Value`. -/
def Node.Value : Node → NodeValue
  | .mk _ v _ => v

/-- Field `Children`. -/
def Node.Children : Node → List Node
  | .mk _ _ c => c

/-- The message `datatypes.Predicate`. -/
structure Predicate where
  Root : Node
  deriving Repr

/-! ## The visitor of `raw.go` -/

/-- The struct `exprToNodeVisitor`: the stack of built nodes (top at the end, as
`append` puts it) and the sticky error. -/
structure exprToNodeVisitor where
  nodes : List Node
  err : Option Err
  deriving Repr

/-- The result of a method that returns a value or panics. -/
inductive MayPanic (α : Type) where
  | ok (val : α)
  | panic (msg : String)
  deriving DecidableEq, Repr

/-- The method `pop`: panics on an empty stack, else removes and returns the last node. -/
def exprToNodeVisitor.pop (v : exprToNodeVisitor) : MayPanic (Node × exprToNodeVisitor) :=
  if h : v.nodes.length < 1 then
    .panic "exprToNodeVisitor: stack empty"
  else
    .ok (v.nodes[v.nodes.length - 1], { v with nodes := v.nodes.take (v.nodes.length - 1) })

/-- The method `pop2`: panics with fewer than two nodes, else removes the last two and
returns them as `(lhs, rhs)`, `rhs` being the topmost. -/
def exprToNodeVisitor.pop2 (v : exprToNodeVisitor) :
    MayPanic (Node × Node × exprToNodeVisitor) :=
  if h : v.nodes.length < 2 then
    .panic "exprToNodeVisitor: stack empty"
  else
    let rhs := v.nodes[v.nodes.length - 1]
    let lhs := v.nodes[v.nodes.length - 2]
    .ok (lhs, rhs, { v with nodes := v.nodes.take (v.nodes.length - 2) })

/-- The method `mapOpToComparison`; `none` is the `-1` of the `default` branch. -/
def mapOpToComparison (op : Token) : Option Node_Comparison :=
  match op with
  | .EQ => some .ComparisonEqual
  | .EQREGEX => some .ComparisonRegex
  | .NEQ => some .ComparisonNotEqual
  | .NEQREGEX => some .ComparisonNotRegex
  | .LT => some .ComparisonLess
  | .LTE => some .ComparisonLessEqual
  | .GT => some .ComparisonGreater
  | .GTE => some .ComparisonGreaterEqual
  | _ => none

/-- Append one node to the stack (`v.nodes = append(v.nodes, n)`). -/
def exprToNodeVisitor.push (v : exprToNodeVisitor) (n : Node) : exprToNodeVisitor :=
  { v with nodes := v.nodes ++ [n] }

/-- The tail of the `*influxql.BinaryExpr` case of `Visit`, after both operands were
walked without error: build the comparison or logical node, or record the error. -/
def exprToNodeVisitor.binaryNode (v : exprToNodeVisitor) (Op : Token) :
    MayPanic exprToNodeVisitor :=
  match mapOpToComparison Op with
  | some comp =>
    match v.pop2 with
    | .ok (lhs, rhs, v) =>
      .ok (v.push (Node.mk .NodeTypeComparisonExpression (.Comparison comp) [lhs, rhs]))
    | .panic msg => .panic msg
  | none =>
    if Op = .AND ∨ Op = .OR then
      let op : Node_Logical := if Op = .AND then .LogicalAnd else .LogicalOr
      match v.pop2 with
      | .ok (lhs, rhs, v) =>
        .ok (v.push (Node.mk .NodeTypeLogicalExpression (.Logical op) [lhs, rhs]))
      | .panic msg => .panic msg
    else
      .ok { v with err := some (.unsupportedOperator Op.String) }

/-- The tail of the `*influxql.ParenExpr` case of `Visit`, the statement
`v.nodes = append(v.nodes, ...Children: v.pop()...)`. The call `v.pop()` runs before
`v.nodes` is read (the Go compiler evaluates the calls of a statement before it loads its
variables), so the parenthesized node is appended to the shortened stack. -/
def exprToNodeVisitor.parenNode (v : exprToNodeVisitor) : MayPanic exprToNodeVisitor :=
  match v.pop with
  | .ok (child, v) => .ok (v.push (Node.mk .NodeTypeParenExpression .none [child]))
  | .panic msg => .panic msg

mutual
/-- The method `Visit`. It returns `nil` in every case, so `influxql.Walk` never descends
by itself: the operands are walked by the explicit `influxql.Walk(v, ...)` calls. -/
def exprToNodeVisitor.Visit (v : exprToNodeVisitor) : Expr → MayPanic exprToNodeVisitor
  | .BinaryExpr Op LHS RHS =>
    if v.err.isSome then .ok v
    else
      match Walk v LHS with
      | .panic msg => .panic msg
      | .ok v =>
        if v.err.isSome then .ok v
        else
          match Walk v RHS with
          | .panic msg => .panic msg
          | .ok v => if v.err.isSome then .ok v else v.binaryNode Op
  | .ParenExpr e =>
    match Walk v e with
    | .panic msg => .panic msg
    | .ok v => if v.err.isSome then .ok v else v.parenNode
  | .StringLiteral Val => .ok (v.push (Node.mk .NodeTypeLiteral (.StringValue Val) []))
  | .NumberLiteral Val => .ok (v.push (Node.mk .NodeTypeLiteral (.FloatValue Val) []))
  | .IntegerLiteral Val => .ok (v.push (Node.mk .NodeTypeLiteral (.IntegerValue Val) []))
  | .UnsignedLiteral Val => .ok (v.push (Node.mk .NodeTypeLiteral (.UnsignedValue Val) []))
  | .VarRef Val => .ok (v.push (Node.mk .NodeTypeTagRef (.TagRefValue Val) []))
  | .RegexLiteral Val => .ok (v.push (Node.mk .NodeTypeLiteral (.RegexValue Val) []))
  | n => .ok { v with err := some (.unsupportedExpression n.goType) }
/-- The function `influxql.Walk` for this visitor: nothing on a `nil` node, else one call
of `Visit` (whose result is always `nil`, which ends the walk of that node). -/
def Walk (v : exprToNodeVisitor) : Option Expr → MayPanic exprToNodeVisitor
  | none => .ok v
  | some node => exprToNodeVisitor.Visit v node
end

/-- The function `exprToNode`. `none` is the `nil` predicate returned for a `nil`
expression; `v.nodes[0]` panics when the stack is empty. -/
def exprToNode (expr : Option Expr) : Outcome (Option Predicate) :=
  match expr with
  | none => .ok none
  | some _ =>
    match Walk { nodes := [], err := none } expr with
    | .panic msg => .panic msg
    | .ok v =>
      match v.err with
      | some e => .error e
      | none =>
        match v.nodes with
        | root :: _ => .ok (some { Root := root })
        | [] => .panic "index out of range [0] with length 0"

/-! ## `GetReadRequest` -/

/-- The constant `measurementTagKey`. -/
def measurementTagKey : String := "_measurement"

/-- The constant `fieldTagKey`. -/
def fieldTagKey : String := "_field"

/-- The message `storage.ReadSource`. -/
structure ReadSource where
  Database : String
  RetentionPolicy : String
  deriving DecidableEq, Repr

/-- A protobuf `types.Any`, the result of `types.MarshalAny`. -/
structure Any where
  TypeUrl : String
  Value : List Nat
  deriving DecidableEq, Repr

/-- An `influxql.TimeRange`, observed through the two methods the code calls on it. -/
structure TimeRange where
  MinTimeNano : Int
  MaxTimeNano : Int
  deriving DecidableEq, Repr

/-- The message `datatypes.TimestampRange`. -/
structure TimestampRange where
  Start : Int
  End : Int
  deriving DecidableEq, Repr

/-- The message `datatypes.ReadFilterRequest`. -/
structure ReadFilterRequest where
  ReadSource : Any
  Range : TimestampRange
  Predicate : Option Predicate
  deriving Repr

/-- What `GetReadRequest` calls outside of `raw.go`. `ParseExpr` and `MarshalAny` return
`(value, error)`; `ConditionExpr expr now` returns the triple `(cond, timeRange, err)` of
`influxql.ConditionExpr(expr, &influxql.NowValuer` with `Now: now)`; `Now` is the reading
of `time.Now()` in this call. -/
structure Env where
  MarshalAny : ReadSource → Except String Any
  ParseExpr : String → Except String (Option Expr)
  Now : Int
  ConditionExpr : Option Expr → Int → Option Expr × TimeRange × Option String

/-- The library calls made by one run of `GetReadRequest`, in order. -/
inductive ExtCall where
  | MarshalAny (src : ReadSource)
  | ParseExpr (condition : String)
  | Now
  | ConditionExpr
  deriving DecidableEq, Repr

/-- The condition text `fmt.Sprintf("%s%s = '%s' and %s = '%s'", where, measurementTagKey,
measurement, fieldTagKey, field)`. -/
def conditionText (where_ measurement field : String) : String :=
  where_ ++ measurementTagKey ++ " = '" ++ measurement ++ "' and " ++ fieldTagKey ++
    " = '" ++ field ++ "'"

/-- The function `GetReadRequest`, returning the library calls it made together with its
result. The error of `ConditionExpr` is bound to `err` and overwritten by the next
assignment without being read, as in the source. -/
def GetReadRequestRun (env : Env) (db rp measurement field where_ : String) :
    List ExtCall × Outcome ReadFilterRequest :=
  if db = "" then ([], .error .dbIsEmpty)
  else if measurement = "" then ([], .error .measurementIsEmpty)
  else
    let field := if field = "" then "value" else field
    let where_ := if where_ ≠ "" then "(" ++ where_ ++ ") and " else where_
    let source : ReadSource := { Database := db, RetentionPolicy := rp }
    match env.MarshalAny source with
    | .error e => ([.MarshalAny source], .error (.library e))
    | .ok src =>
      let condition := conditionText where_ measurement field
      match env.ParseExpr condition with
      | .error e => ([.MarshalAny source, .ParseExpr condition], .error (.library e))
      | .ok expr =>
        let calls := [.MarshalAny source, .ParseExpr condition, .Now, .ConditionExpr]
        let now := env.Now
        let (cond, timeRange, _err) := env.ConditionExpr expr now
        match exprToNode cond with
        | .error e => (calls, .error e)
        | .panic msg => (calls, .panic msg)
        | .ok predicate =>
          (calls, .ok {
            ReadSource := src
            Range := { Start := timeRange.MinTimeNano, End := timeRange.MaxTimeNano }
            Predicate := predicate })

/-- The function `GetReadRequest`: the result of the run. -/
def GetReadRequest (env : Env) (db rp measurement field where_ : String) :
    Outcome ReadFilterRequest :=
  (GetReadRequestRun env db rp measurement field where_).2

/-! ## `GetReadResponse` -/

/-- The message `remote.Sample`. -/
structure Sample where
  Value : Float64
  TimestampMs : Int
  deriving DecidableEq, Repr

/-- The message `remote.LabelPair`. -/
structure LabelPair where
  Name : String
  Value : String
  deriving DecidableEq, Repr

/-- The message `remote.TimeSeries`. -/
structure TimeSeries where
  Labels : List LabelPair
  Samples : List Sample
  deriving DecidableEq, Repr

/-- The message `remote.QueryResult`. -/
structure QueryResult where
  Timeseries : List TimeSeries
  deriving DecidableEq, Repr

/-- The message `remote.ReadResponse`. -/
structure ReadResponse where
  Results : List QueryResult
  deriving DecidableEq, Repr

/-- The type `models.Tags`: key and value pairs. -/
abbrev Tags := List (String × String)

/-- One batch returned by `cur.Next()` (`tsdb.FloatArray`, `tsdb.IntegerArray`): the
parallel arrays `Timestamps` and `Values`, which have the same length, as the list of
their pairs. `a.Len()` is the length of this list. -/
abbrev CursorArray (α : Type) := List (Int × α)

/-- A `cursors.Cursor`, by concrete type. An array cursor is the list of batches its
successive `Next()` calls return; once the list is used up `Next()` returns an empty
batch. `other` stands for a type that is none of the five array cursors. -/
inductive Cursor where
  | FloatArrayCursor (batches : List (CursorArray Float64))
  | IntegerArrayCursor (batches : List (CursorArray Int))
  | UnsignedArrayCursor (batches : List (CursorArray Nat))
  | BooleanArrayCursor (batches : List (CursorArray Bool))
  | StringArrayCursor (batches : List (CursorArray String))
  | other (goType : String)
  deriving DecidableEq, Repr

/-- What one successful `rs.Next()` makes current: the value of `rs.Tags()` and of
`rs.Cursor()` (`none` is the `nil` cursor). -/
structure Series where
  Tags : Tags
  Cursor : Option Cursor
  deriving DecidableEq, Repr

/-- A `reads.ResultSet`: the series its successive `rs.Next()` calls step through. -/
abbrev ResultSet := List Series

/-- What the materializer calls outside of `src/`: the two helpers of package
`prometheus` and the conversion `float64(v)` of an `int64`. -/
structure Ext where
  RemoveInfluxSystemTags : Tags → Tags
  ModelTagsToLabelPairs : Tags → List LabelPair
  float64 : Int → Float64

/-- The value of `int64(time.Millisecond)`. -/
def millisecond : Int := 1000000

/-- Calls on cursors, by position of the series in the result set: `Cursor i` when
`rs.Cursor()` returned a cursor for series `i`, `Close i` for `cur.Close()` on it. -/
inductive CursorEvent where
  | Cursor (i : Nat)
  | Close (i : Nat)
  deriving DecidableEq, Repr

/-- The loop `for i, ts := range a.Timestamps`: count the point and append the sample
with the timestamp divided by `int64(time.Millisecond)` (Go division truncates toward
zero). `conv` is the identity for a float batch and `float64(...)` for an integer one. -/
def appendSamples {α : Type} (conv : α → Float64) :
    CursorArray α → List Sample → Int → List Sample × Int
  | [], samples, pointsNum => (samples, pointsNum)
  | (ts, value) :: rest, samples, pointsNum =>
    appendSamples conv rest
      (samples ++ [{ TimestampMs := ts.tdiv millisecond, Value := conv value }])
      (pointsNum + 1)

/-- The loop `for` with `a := cur.Next()` of the float and integer cases, which differ
only in `conv`: stop at the first empty batch, create the series at the first non-empty
one, append the samples of each batch. Returns `series` and `pointsNum`. -/
def drainCursor {α : Type} (conv : α → Float64) (labels : List LabelPair) :
    List (CursorArray α) → Option TimeSeries → Int → Option TimeSeries × Int
  | [], series, pointsNum => (series, pointsNum)
  | a :: rest, series, pointsNum =>
    if a.length = 0 then (series, pointsNum)
    else
      let series : TimeSeries :=
        match series with
        | none => { Labels := labels, Samples := [] }
        | some series => series
      let (samples, pointsNum) := appendSamples conv a series.Samples pointsNum
      drainCursor conv labels rest (some { series with Samples := samples }) pointsNum

/-- The variables of `GetReadResponse`: `resp.Results[0].Timeseries`, the two counters,
and the cursor calls made so far. -/
structure ReadState where
  Timeseries : List TimeSeries
  seriesNum : Int
  pointsNum : Int
  events : List CursorEvent
  deriving DecidableEq, Repr

/-- The code after a float or integer cursor was drained: `seriesNum++` and append when
there was data, then `cur.Close()`. -/
def ReadState.addSeries (st : ReadState) (i : Nat) (drained : Option TimeSeries × Int) :
    ReadState :=
  match drained.1 with
  | some series =>
    { Timeseries := st.Timeseries ++ [series], seriesNum := st.seriesNum + 1,
      pointsNum := drained.2, events := st.events ++ [.Close i] }
  | none => { st with pointsNum := drained.2, events := st.events ++ [.Close i] }

/-- The loop `for rs.Next()` of `GetReadResponse` over the series not yet visited, `i`
being the position of the first of them. Returns the final state and the error, `none`
for `return resp, nil`. -/
def readLoop (ext : Ext) (slimit limit : Int) : ResultSet → Nat → ReadState →
    ReadState × Option Err
  | [], _, st => (st, none)
  | s :: rest, i, st =>
    if slimit > 0 ∧ st.seriesNum ≥ slimit then (st, none)
    else if limit > 0 ∧ st.pointsNum ≥ limit then (st, none)
    else
      match s.Cursor with
      | none => readLoop ext slimit limit rest (i + 1) st
      | some cur =>
        let st := { st with events := st.events ++ [.Cursor i] }
        let tags := ext.RemoveInfluxSystemTags s.Tags
        match cur with
        | .FloatArrayCursor batches =>
          readLoop ext slimit limit rest (i + 1) (st.addSeries i
            (drainCursor id (ext.ModelTagsToLabelPairs tags) batches none st.pointsNum))
        | .IntegerArrayCursor batches =>
          readLoop ext slimit limit rest (i + 1) (st.addSeries i
            (drainCursor ext.float64 (ext.ModelTagsToLabelPairs tags) batches none
              st.pointsNum))
        | .UnsignedArrayCursor _ =>
          ({ st with events := st.events ++ [.Close i] }, some (.cantReadCursor "uint" tags))
        | .BooleanArrayCursor _ =>
          ({ st with events := st.events ++ [.Close i] }, some (.cantReadCursor "bool" tags))
        | .StringArrayCursor _ =>
          ({ st with events := st.events ++ [.Close i] },
            some (.cantReadCursor "string" tags))
        | .other goType => (st, some (.unreachable goType))

/-- The state in which `GetReadResponse` enters its loop. -/
def ReadState.init : ReadState :=
  { Timeseries := [], seriesNum := 0, pointsNum := 0, events := [] }

/-- The function `GetReadResponse`, with the cursor calls it made. `rs = none` is the
`nil` result set. -/
def GetReadResponseRun (ext : Ext) (rs : Option ResultSet) (slimit limit : Int) :
    List CursorEvent × Except Err ReadResponse :=
  match rs with
  | none => ([], .ok { Results := [{ Timeseries := [] }] })
  | some rs =>
    match readLoop ext slimit limit rs 0 ReadState.init with
    | (st, none) => (st.events, .ok { Results := [{ Timeseries := st.Timeseries }] })
    | (st, some e) => (st.events, .error e)

/-- The function `GetReadResponse`: the result of the run. -/
def GetReadResponse (ext : Ext) (rs : Option ResultSet) (slimit limit : Int) :
    Except Err ReadResponse :=
  (GetReadResponseRun ext rs slimit limit).2

/-! ## Notions used to state the properties of the compiler -/

mutual
/-- A well-formed expression: every binary expression has both operands and every
parenthesized expression has its operand. -/
def Expr.WellFormed : Expr → Bool
  | .BinaryExpr _ LHS RHS => WellFormedOperand LHS && WellFormedOperand RHS
  | .ParenExpr e => WellFormedOperand e
  | _ => true
/-- A present, well-formed operand. -/
def WellFormedOperand : Option Expr → Bool
  | none => false
  | some e => e.WellFormed
end

mutual
/-- The nesting depth of an expression: a binary or parenthesized expression is one level
above its deepest operand, every other expression is one level. -/
def Expr.depth : Expr → Nat
  | .BinaryExpr _ LHS RHS => 1 + max (operandDepth LHS) (operandDepth RHS)
  | .ParenExpr e => 1 + operandDepth e
  | _ => 1
/-- The depth of an operand, `0` when absent. -/
def operandDepth : Option Expr → Nat
  | none => 0
  | some e => e.depth
end

mutual
/-- The depth of a predicate tree: one more than the depth of its deepest child. -/
def Node.depth : Node → Nat
  | .mk _ _ Children => 1 + maxDepth Children
/-- The largest depth in a list of nodes, `0` for the empty list. -/
def maxDepth : List Node → Nat
  | [] => 0
  | n :: ns => max n.depth (maxDepth ns)
end

mutual
/-- All nodes of a predicate tree, the node itself first, then the nodes of each child
from left to right. -/
def Node.subnodes : Node → List Node
  | .mk t v Children => Node.mk t v Children :: subnodesOfList Children
/-- The nodes of the trees of a list, in order. -/
def subnodesOfList : List Node → List Node
  | [] => []
  | n :: ns => n.subnodes ++ subnodesOfList ns
end

/-- The arity rule of the data model for one node: two children for a comparison or
logical node, one for a parenthesized node, none for a literal or a tag reference. -/
def Node.arityOk (n : Node) : Prop :=
  match n.NodeType with
  | .NodeTypeComparisonExpression => n.Children.length = 2
  | .NodeTypeLogicalExpression => n.Children.length = 2
  | .NodeTypeParenExpression => n.Children.length = 1
  | .NodeTypeLiteral => n.Children.length = 0
  | .NodeTypeTagRef => n.Children.length = 0
  | .NodeTypeFieldRef => True

/-- The comparison kind the specification assigns to an operator: `=` Equal, `!=`
NotEqual, `=~` Regex, `!~` NotRegex, `<` Less, `<=` LessEqual, `>` Greater, `>=`
GreaterEqual; no other operator is a comparison. -/
def comparisonOf : Token → Option Node_Comparison
  | .EQ => some .ComparisonEqual
  | .NEQ => some .ComparisonNotEqual
  | .EQREGEX => some .ComparisonRegex
  | .NEQREGEX => some .ComparisonNotRegex
  | .LT => some .ComparisonLess
  | .LTE => some .ComparisonLessEqual
  | .GT => some .ComparisonGreater
  | .GTE => some .ComparisonGreaterEqual
  | .ADD | .SUB | .MUL | .DIV | .MOD | .BITWISE_AND | .BITWISE_OR | .BITWISE_XOR
  | .AND | .OR | .other _ => none

/-- The logical kind the specification assigns to an operator: `AND` And, `OR` Or. -/
def logicalOf : Token → Option Node_Logical
  | .AND => some .LogicalAnd
  | .OR => some .LogicalOr
  | _ => none

mutual
/-- The pure recursive translation `T` of the specification: a binary expression becomes
a comparison or logical node over `[T LHS, T RHS]`, a parenthesized expression a
parenthesized node over `[T e]`, a literal the corresponding literal node, a variable
reference a tag reference; everything else is an error. -/
def T : Expr → Except Err Node
  | .BinaryExpr Op LHS RHS =>
    match TOperand LHS with
    | .error e => .error e
    | .ok l =>
      match TOperand RHS with
      | .error e => .error e
      | .ok r =>
        match comparisonOf Op, logicalOf Op with
        | some comp, _ =>
          .ok (Node.mk .NodeTypeComparisonExpression (.Comparison comp) [l, r])
        | none, some op => .ok (Node.mk .NodeTypeLogicalExpression (.Logical op) [l, r])
        | none, none => .error (.unsupportedOperator Op.String)
  | .ParenExpr e =>
    match TOperand e with
    | .error e => .error e
    | .ok c => .ok (Node.mk .NodeTypeParenExpression .none [c])
  | .StringLiteral Val => .ok (Node.mk .NodeTypeLiteral (.StringValue Val) [])
  | .NumberLiteral Val => .ok (Node.mk .NodeTypeLiteral (.FloatValue Val) [])
  | .IntegerLiteral Val => .ok (Node.mk .NodeTypeLiteral (.IntegerValue Val) [])
  | .UnsignedLiteral Val => .ok (Node.mk .NodeTypeLiteral (.UnsignedValue Val) [])
  | .VarRef Val => .ok (Node.mk .NodeTypeTagRef (.TagRefValue Val) [])
  | .RegexLiteral Val => .ok (Node.mk .NodeTypeLiteral (.RegexValue Val) [])
  | n => .error (.unsupportedExpression n.goType)
/-- The translation of an operand; an absent operand has no translation. -/
def TOperand : Option Expr → Except Err Node
  | none => .error (.library "absent operand")
  | some e => T e
end

/-- The result `exprToNode` has to give on an expression, according to `T`. -/
def TResult (e : Expr) : Outcome (Option Predicate) :=
  match T e with
  | .ok root => .ok (some { Root := root })
  | .error err => .error err

mutual
/-- Whether an expression contains something the compiler has no translation for: a
binary expression whose operator is neither one of the eight comparisons nor `AND`/`OR`,
or an expression that is not binary, parenthesized, a string, number, integer, unsigned
or regex literal, or a variable reference. -/
def Expr.hasUnsupported : Expr → Bool
  | .BinaryExpr Op LHS RHS =>
    operandHasUnsupported LHS || operandHasUnsupported RHS ||
      ((comparisonOf Op).isNone && (logicalOf Op).isNone)
  | .ParenExpr e => operandHasUnsupported e
  | .StringLiteral _ => false
  | .NumberLiteral _ => false
  | .IntegerLiteral _ => false
  | .UnsignedLiteral _ => false
  | .VarRef _ => false
  | .RegexLiteral _ => false
  | _ => true
/-- The same for an operand; an absent operand contains nothing. -/
def operandHasUnsupported : Option Expr → Bool
  | none => false
  | some e => e.hasUnsupported
end

/-! ## Notions used to state the properties of the materializer -/

/-- The samples of the batches a cursor yields before its first empty batch, in batch
order, each timestamp divided by `int64(time.Millisecond)`. -/
def samplesOf {α : Type} (conv : α → Float64) (batches : List (CursorArray α)) :
    List Sample :=
  ((batches.takeWhile (fun a => a.length != 0)).flatten).map
    (fun p => { TimestampMs := p.1.tdiv millisecond, Value := conv p.2 })

/-- The time series of a series with a float or integer cursor: its labels and all of
its samples, or `none` when the cursor yields no sample (or there is no such cursor). -/
def Series.timeSeries (ext : Ext) (s : Series) : Option TimeSeries :=
  let labels := ext.ModelTagsToLabelPairs (ext.RemoveInfluxSystemTags s.Tags)
  match s.Cursor with
  | some (.FloatArrayCursor batches) =>
    if samplesOf id batches = [] then none
    else some { Labels := labels, Samples := samplesOf id batches }
  | some (.IntegerArrayCursor batches) =>
    if samplesOf ext.float64 batches = [] then none
    else some { Labels := labels, Samples := samplesOf ext.float64 batches }
  | _ => none

/-- A float or integer valued cursor. -/
def Cursor.isFloatOrInteger : Cursor → Bool
  | .FloatArrayCursor _ => true
  | .IntegerArrayCursor _ => true
  | _ => false

/-- A result set whose cursors are all float or integer valued. -/
def ResultSet.allFloatOrInteger (rs : ResultSet) : Prop :=
  ∀ s ∈ rs, ∀ cur, s.Cursor = some cur → cur.isFloatOrInteger = true

/-! ## Expressions and environments used as concrete inputs -/

/-- The expression `key = 'value'`. -/
def tagEquals (key value : String) : Expr :=
  .BinaryExpr .EQ (some (.VarRef key)) (some (.StringLiteral value))

/-- The expression `_measurement = 'm' AND _field = 'f'`. -/
def baseCondition (measurement field : String) : Expr :=
  .BinaryExpr .AND (some (tagEquals measurementTagKey measurement))
    (some (tagEquals fieldTagKey field))

/-- The expression `((w) AND _measurement = 'm') AND _field = 'f'`: `AND` associates to
the left. -/
def wrappedCondition (w : Expr) (measurement field : String) : Expr :=
  .BinaryExpr .AND
    (some (.BinaryExpr .AND (some (.ParenExpr (some w)))
      (some (tagEquals measurementTagKey measurement))))
    (some (tagEquals fieldTagKey field))

/-- The node `key = 'value'`: a Comparison-Equal over a tag reference and a string. -/
def equalsNode (key value : String) : Node :=
  .mk .NodeTypeComparisonExpression (.Comparison .ComparisonEqual)
    [.mk .NodeTypeTagRef (.TagRefValue key) [], .mk .NodeTypeLiteral (.StringValue value) []]

/-- A Logical-And node over two children. -/
def andNode (l r : Node) : Node :=
  .mk .NodeTypeLogicalExpression (.Logical .LogicalAnd) [l, r]

/-- A Parenthesized node over one child. -/
def parenNode (c : Node) : Node :=
  .mk .NodeTypeParenExpression .none [c]

/-- Whether a node is a Logical-And node. -/
def Node.isLogicalAnd (n : Node) : Bool :=
  n.NodeType = .NodeTypeLogicalExpression ∧ n.Value = .Logical .LogicalAnd

/-- Whether a node is a Comparison-Equal node. -/
def Node.isComparisonEqual (n : Node) : Bool :=
  n.NodeType = .NodeTypeComparisonExpression ∧ n.Value = .Comparison .ComparisonEqual

/-- The outcome "a request whose predicate has root `root`". -/
def hasRoot (r : Outcome ReadFilterRequest) (root : Node) : Prop :=
  ∃ rq p, r = .ok rq ∧ rq.Predicate = some p ∧ p.Root = root

/-- The unrestricted time range, from `influxql.MinTime` to `influxql.MaxTime`. -/
def fullRange : TimeRange :=
  { MinTimeNano := -9223372036854775806, MaxTimeNano := 9223372036854775806 }

/-- The expression `time != 0`. -/
def timeNotEqual : Expr :=
  .BinaryExpr .NEQ (some (.VarRef "time")) (some (.IntegerLiteral 0))

/-- A sample environment: it parses four condition texts, the way `influxql` does, and
rejects the others; splitting the condition reports an error on `time != 0` and returns
the other conditions, which mention no time, unchanged with the unrestricted range. -/
def sampleEnv : Env where
  MarshalAny := fun src =>
    .ok { TypeUrl := "storage.ReadSource", Value := src.Database.toList.map Char.toNat }
  ParseExpr := fun condition =>
    if condition = "_measurement = 'cpu' and _field = 'usage'" then
      .ok (some (baseCondition "cpu" "usage"))
    else if condition = "_measurement = 'cpu' and _field = 'value'" then
      .ok (some (baseCondition "cpu" "value"))
    else if condition = "(host = 'a') and _measurement = 'cpu' and _field = 'usage'" then
      .ok (some (wrappedCondition (tagEquals "host" "a") "cpu" "usage"))
    else if condition = "(time != 0) and _measurement = 'cpu' and _field = 'usage'" then
      .ok (some (wrappedCondition timeNotEqual "cpu" "usage"))
    else .error "unable to parse"
  Now := 1700000000000000000
  ConditionExpr := fun expr _ =>
    match expr with
    | some (.BinaryExpr .AND (some (.BinaryExpr .AND (some (.ParenExpr (some
        (.BinaryExpr .NEQ (some (.VarRef "time")) _)))) _)) _) =>
      (none, fullRange, some "invalid time comparison operator: !=")
    | _ => (expr, fullRange, none)

/-- The bit pattern of the `float64` nearest to an `int64` (ties to even): sign bit,
biased exponent, and the 52 bits below the leading one of the rounded magnitude. -/
def float64OfInt (v : Int) : Float64 :=
  if v = 0 then { bits := 0 }
  else
    let sign := if v < 0 then 2 ^ 63 else 0
    let m := v.natAbs
    let e := Nat.log2 m
    let q :=
      if e ≤ 52 then m * 2 ^ (52 - e)
      else
        let q := m / 2 ^ (e - 52)
        let r := m % 2 ^ (e - 52)
        let half := 2 ^ (e - 53)
        if r > half ∨ (r = half ∧ q % 2 = 1) then q + 1 else q
    { bits := sign + (e + 1023) * 2 ^ 52 + (q - 2 ^ 52) }

/-- A sample of the helpers, after section 6 of the specification: the labels are the
tags other than the two reserved keys, in tag order, and `float64` is the conversion to
the nearest float. -/
def sampleExt : Ext where
  RemoveInfluxSystemTags := fun tags =>
    tags.filter (fun t => t.1 != measurementTagKey && t.1 != fieldTagKey)
  ModelTagsToLabelPairs := fun tags => tags.map (fun t => { Name := t.1, Value := t.2 })
  float64 := float64OfInt

/-- A float batch with the given timestamps (in nanoseconds), all of value `0`. -/
def floatBatch (timestamps : List Int) : CursorArray Float64 :=
  timestamps.map (fun ts => (ts, { bits := 0 }))

/-- A result set of two float series, of 3 and 5 samples. -/
def twoSeries : ResultSet :=
  [ { Tags := [("_measurement", "cpu"), ("host", "a")],
      Cursor := some (.FloatArrayCursor
        [floatBatch [1000000, 2000000], floatBatch [3000000]]) },
    { Tags := [("_measurement", "cpu"), ("host", "b")],
      Cursor := some (.FloatArrayCursor
        [floatBatch [1000000, 2000000, 3000000, 4000000, 5000000]]) } ]

/-! ## `Server.Raw` (`rpc.go`) -/

/-- The message `remote.FilterRequest`, read through its getters. -/
structure FilterRequest where
  Db : String
  Rp : String
  Measurement : String
  Field : String
  Where : String
  Slimit : Int
  Limit : Int
  deriving DecidableEq, Repr

/-- The field `Store` of `Server`: `ReadFilter` returns `(rs, err)`, where `rs` may be
`nil` without an error. -/
structure Store where
  ReadFilter : ReadFilterRequest → Except String (Option ResultSet)

/-- The stream `remote.QueryTimeSeriesService_RawServer`: `Send` returns an error, or
`none` for `nil`. -/
structure RawServer where
  Send : TimeSeries → Option String

/-- What `Server.Raw` does to cursors, stream and result set, in order: `Cursor i` when
`rs.Cursor()` returned a cursor for series `i`, `Close i` for `cur.Close()` on it,
`Send series result` for a call `stream.Send(series)` and what it returned, and
`CloseResultSet` for the deferred `rs.Close()`. -/
inductive RawEvent where
  | Cursor (i : Nat)
  | Close (i : Nat)
  | Send (series : TimeSeries) (result : Option String)
  | CloseResultSet
  deriving DecidableEq, Repr

/-- The loop `for i, ts := range a.Timestamps` of `Server.Raw`: count the point, append
the sample, and leave by `goto ADD` (third component `true`) as soon as a positive
`limit` is reached. -/
def appendSamplesLimit {α : Type} (conv : α → Float64) (limit : Int) :
    CursorArray α → List Sample → Int → List Sample × Int × Bool
  | [], samples, pointsNum => (samples, pointsNum, false)
  | (ts, value) :: rest, samples, pointsNum =>
    let pointsNum := pointsNum + 1
    let samples := samples ++ [{ TimestampMs := ts.tdiv millisecond, Value := conv value }]
    if limit > 0 ∧ pointsNum ≥ limit then (samples, pointsNum, true)
    else appendSamplesLimit conv limit rest samples pointsNum

/-- The loop `for` with `a := cur.Next()` of the float and integer cases of `Server.Raw`,
which differ only in `conv`: it is left by `goto ADD`, at the first empty batch or when
the inner loop reached `limit`. Returns `series.Samples` and `pointsNum`. -/
def drainCursorLimit {α : Type} (conv : α → Float64) (limit : Int) :
    List (CursorArray α) → List Sample → Int → List Sample × Int
  | [], samples, pointsNum => (samples, pointsNum)
  | a :: rest, samples, pointsNum =>
    if a.length = 0 then (samples, pointsNum)
    else
      match appendSamplesLimit conv limit a samples pointsNum with
      | (samples, pointsNum, true) => (samples, pointsNum)
      | (samples, pointsNum, false) => drainCursorLimit conv limit rest samples pointsNum

/-- The variables of `Server.Raw`: the two counters and what was done so far. -/
structure RawState where
  seriesNum : Int
  pointsNum : Int
  events : List RawEvent
  deriving DecidableEq, Repr

/-- The code at the label `ADD`: when the series has samples, `seriesNum++` and
`stream.Send(series)`, whose result is not looked at. -/
def RawState.add (st : RawState) (stream : RawServer) (labels : List LabelPair)
    (drained : List Sample × Int) : RawState :=
  if drained.1.length > 0 then
    let series : TimeSeries := { Labels := labels, Samples := drained.1 }
    { seriesNum := st.seriesNum + 1, pointsNum := drained.2,
      events := st.events ++ [.Send series (stream.Send series)] }
  else { st with pointsNum := drained.2 }

/-- The loop `for rs.Next()` of `Server.Raw` over the series not yet visited, `i` being
the position of the first of them. Returns the final state and the returned error,
`none` for `return nil`. The float and integer cases reach `ADD` by `goto` only, past
`cur.Close()`. -/
def rawLoop (ext : Ext) (stream : RawServer) (slimit limit : Int) :
    ResultSet → Nat → RawState → RawState × Option Err
  | [], _, st => (st, none)
  | s :: rest, i, st =>
    match s.Cursor with
    | none => rawLoop ext stream slimit limit rest (i + 1) st
    | some cur =>
      let st := { st with events := st.events ++ [.Cursor i] }
      let tags := ext.RemoveInfluxSystemTags s.Tags
      let labels := ext.ModelTagsToLabelPairs tags
      if slimit > 0 ∧ st.seriesNum ≥ slimit then (st, none)
      else if limit > 0 ∧ st.pointsNum ≥ limit then (st, none)
      else
        match cur with
        | .FloatArrayCursor batches =>
          rawLoop ext stream slimit limit rest (i + 1)
            (st.add stream labels (drainCursorLimit id limit batches [] st.pointsNum))
        | .IntegerArrayCursor batches =>
          rawLoop ext stream slimit limit rest (i + 1)
            (st.add stream labels
              (drainCursorLimit ext.float64 limit batches [] st.pointsNum))
        | .UnsignedArrayCursor _ =>
          ({ st with events := st.events ++ [.Close i] }, some (.cantReadCursor "uint" tags))
        | .BooleanArrayCursor _ =>
          ({ st with events := st.events ++ [.Close i] }, some (.cantReadCursor "bool" tags))
        | .StringArrayCursor _ =>
          ({ st with events := st.events ++ [.Close i] },
            some (.cantReadCursor "string" tags))
        | .other goType => (st, some (.unreachable goType))

/-- The state in which `Server.Raw` enters its loop. -/
def RawState.init : RawState :=
  { seriesNum := 0, pointsNum := 0, events := [] }

/-- Lines 33 to 121 of `Server.Raw`, for the result set `rs` that `ReadFilter` returned
(`none` is `nil`): the deferred `rs.Close()` is registered for a result set that is not
`nil` only, and `rs.Next()` is called in either case, which on the `nil` interface is a
run-time panic. -/
def rawResultSet (ext : Ext) (stream : RawServer) (rs : Option ResultSet)
    (slimit limit : Int) : List RawEvent × Outcome Unit :=
  match rs with
  | none => ([], .panic "invalid memory address or nil pointer dereference")
  | some rs =>
    match rawLoop ext stream slimit limit rs 0 RawState.init with
    | (st, none) => (st.events ++ [.CloseResultSet], .ok ())
    | (st, some e) => (st.events ++ [.CloseResultSet], .error e)

/-- The method `Server.Raw`, with what it did to cursors, stream and result set. -/
def Server.RawRun (env : Env) (ext : Ext) (store : Store) (req : FilterRequest)
    (stream : RawServer) : List RawEvent × Outcome Unit :=
  match GetReadRequest env req.Db req.Rp req.Measurement req.Field req.Where with
  | .error e => ([], .error e)
  | .panic msg => ([], .panic msg)
  | .ok readRequest =>
    match store.ReadFilter readRequest with
    | .error e => ([], .error (.library e))
    | .ok rs => rawResultSet ext stream rs req.Slimit req.Limit

/-- The method `Server.Raw`: the returned error (`ok` for `nil`), or a panic. -/
def Server.Raw (env : Env) (ext : Ext) (store : Store) (req : FilterRequest)
    (stream : RawServer) : Outcome Unit :=
  (Server.RawRun env ext store req stream).2

/-- The series passed to `stream.Send`, in order. -/
def sentSeries : List RawEvent → List TimeSeries
  | [] => []
  | .Send series _ :: rest => series :: sentSeries rest
  | _ :: rest => sentSeries rest

/-! ## Notions used to state the properties of limits, materializer errors and visits -/

/-- The number of samples the buffered drain reads from a series: those of its time
series, `0` when it has none. -/
def Series.sampleCount (ext : Ext) (s : Series) : Nat :=
  match s.timeSeries ext with
  | some series => series.Samples.length
  | none => 0

/-- The number of samples in a list of series. -/
def ResultSet.sampleCount (ext : Ext) (rs : ResultSet) : Nat :=
  (rs.map (Series.sampleCount ext)).sum

/-- The number of series of a list that have a time series (float or integer valued,
with at least one sample). -/
def ResultSet.seriesCount (ext : Ext) (rs : ResultSet) : Nat :=
  (rs.filterMap (Series.timeSeries ext)).length

/-- Whether the series `before` use up a limit: `slimit` is positive and at least
`slimit` of them have samples, or `limit` is positive and they hold at least `limit`
samples. -/
def limitsReached (ext : Ext) (slimit limit : Int) (before : ResultSet) : Prop :=
  (slimit > 0 ∧ (ResultSet.seriesCount ext before : Int) ≥ slimit) ∨
  (limit > 0 ∧ (ResultSet.sampleCount ext before : Int) ≥ limit)

/-- A series whose cursor is float or integer valued and returns an empty batch at its
first `Next()`. -/
def Series.firstBatchEmpty (s : Series) : Bool :=
  match s.Cursor with
  | some (.FloatArrayCursor []) => true
  | some (.FloatArrayCursor (a :: _)) => a.length == 0
  | some (.IntegerArrayCursor []) => true
  | some (.IntegerArrayCursor (a :: _)) => a.length == 0
  | _ => false

/-- All the samples of a float or integer series: those of the batches its cursor yields
before its first empty batch, in order; none for any other series. -/
def Series.samples (ext : Ext) (s : Series) : List Sample :=
  match s.Cursor with
  | some (.FloatArrayCursor batches) => samplesOf id batches
  | some (.IntegerArrayCursor batches) => samplesOf ext.float64 batches
  | _ => []

/-- The labels of a series, as both paths compute them. -/
def Series.labels (ext : Ext) (s : Series) : List LabelPair :=
  ext.ModelTagsToLabelPairs (ext.RemoveInfluxSystemTags s.Tags)

/-- The part of the state of the buffered loop its result depends on: the series
accumulated and the two counters. -/
def ReadState.data (st : ReadState) : List TimeSeries × Int × Int :=
  (st.Timeseries, st.seriesNum, st.pointsNum)

/-- What `GetReadResponse` returns from the outcome of its loop: the error and the
series. -/
def readResult (r : ReadState × Option Err) : Option Err × List TimeSeries :=
  (r.2, r.1.Timeseries)

/-- The part of the state of the streaming loop its result depends on: the two counters,
with the series sent so far. -/
def RawState.data (st : RawState) : Int × Int × List TimeSeries :=
  (st.seriesNum, st.pointsNum, sentSeries st.events)

/-- What `Server.Raw` returns and sends, from the outcome of its loop. -/
def rawResult (r : RawState × Option Err) : Option Err × List TimeSeries :=
  (r.2, sentSeries r.1.events)

mutual
/-- The errors of the failing nodes of an expression, in post-order (left operand, right
operand, then the operator): an expression of an unsupported kind fails with the
unsupported-expression error, a binary expression whose operator is neither a comparison
nor `AND`/`OR` with the unsupported-operator error. -/
def Expr.failures : Expr → List Err
  | .BinaryExpr Op LHS RHS =>
    operandFailures LHS ++ operandFailures RHS ++
      (if (comparisonOf Op).isNone && (logicalOf Op).isNone then
        [.unsupportedOperator Op.String] else [])
  | .ParenExpr e => operandFailures e
  | .StringLiteral _ => []
  | .NumberLiteral _ => []
  | .IntegerLiteral _ => []
  | .UnsignedLiteral _ => []
  | .VarRef _ => []
  | .RegexLiteral _ => []
  | n => [.unsupportedExpression n.goType]
/-- The same for an operand; an absent operand has no node. -/
def operandFailures : Option Expr → List Err
  | none => []
  | some e => e.failures
end

mutual
/-- The calls of `Visit` made while `Visit` runs on a node from the visitor `v`, in
order: for each call, whether `v.err` was already set when it started, and the node. It
follows the control flow of `Visit`: a binary expression walks its left operand, and its
right operand only if no error is set after the left one; a parenthesized expression
walks its operand; no other node walks anything. -/
def exprToNodeVisitor.visitCalls (v : exprToNodeVisitor) : Expr → List (Bool × Expr)
  | .BinaryExpr Op LHS RHS =>
    (v.err.isSome, .BinaryExpr Op LHS RHS) ::
      (if v.err.isSome then []
        else
          walkCalls v LHS ++
            match Walk v LHS with
            | .panic _ => []
            | .ok v1 => if v1.err.isSome then [] else walkCalls v1 RHS)
  | .ParenExpr e => (v.err.isSome, .ParenExpr e) :: walkCalls v e
  | n => [(v.err.isSome, n)]
/-- The calls of `Visit` made by `influxql.Walk(v, node)`. -/
def walkCalls (v : exprToNodeVisitor) : Option Expr → List (Bool × Expr)
  | none => []
  | some node => exprToNodeVisitor.visitCalls v node
end

/-! ## Further concrete inputs -/

/-- A float series of 10 samples, in batches of 3, 3 and 4. -/
def tenSampleSeries : Series :=
  { Tags := [("_measurement", "cpu"), ("host", "a")],
    Cursor := some (.FloatArrayCursor
      [floatBatch [1000000, 2000000, 3000000], floatBatch [4000000, 5000000, 6000000],
        floatBatch [7000000, 8000000, 9000000, 10000000]]) }

/-- A result set of one float series of 10 samples. -/
def tenSamples : ResultSet :=
  [tenSampleSeries]

/-- A float series of 3 samples. -/
def floatSeries : Series :=
  { Tags := [("_measurement", "cpu"), ("host", "a")],
    Cursor := some (.FloatArrayCursor [floatBatch [1000000, 2000000, 3000000]]) }

/-- A boolean series. -/
def booleanSeries : Series :=
  { Tags := [("_measurement", "cpu"), ("host", "b")],
    Cursor := some (.BooleanArrayCursor [[(1000000, true)]]) }

/-- A float series whose cursor returns an empty batch at its first `Next()`. -/
def emptySeries : Series :=
  { Tags := [("_measurement", "cpu"), ("host", "c")],
    Cursor := some (.FloatArrayCursor [[], floatBatch [1000000]]) }

/-- A result set of a float series of 3 samples followed by a boolean series. -/
def floatThenBoolean : ResultSet :=
  [floatSeries, booleanSeries]

/-- A stream on which every `Send` succeeds. -/
def okStream : RawServer where
  Send := fun _ => none

/-- A stream on which every `Send` fails. -/
def brokenStream : RawServer where
  Send := fun _ => some "transport is closing"

/-- A store that answers every read with the result set `rs`. -/
def constStore (rs : Option ResultSet) : Store where
  ReadFilter := fun _ => .ok rs

/-- The request `db = "db"`, measurement `cpu`, field `usage`, no `where`, with the
given limits. -/
def cpuUsage (slimit limit : Int) : FilterRequest :=
  { Db := "db", Rp := "", Measurement := "cpu", Field := "usage", Where := "",
    Slimit := slimit, Limit := limit }

/-- The expression `time > 10 AND time < 5`. -/
def contradictoryTime : Expr :=
  .BinaryExpr .AND
    (some (.BinaryExpr .GT (some (.VarRef "time")) (some (.IntegerLiteral 10))))
    (some (.BinaryExpr .LT (some (.VarRef "time")) (some (.IntegerLiteral 5))))

/-- An environment for the condition `time > 10 AND time < 5`: as `influxql` does, it
parses the wrapped condition text, and splitting it gives the remaining condition
`_measurement = 'cpu' AND _field = 'usage'` with the time range from 11 (one nanosecond
after 10) to 4 (one nanosecond before 5). -/
def contradictoryEnv : Env where
  MarshalAny := sampleEnv.MarshalAny
  ParseExpr := fun condition =>
    if condition =
        "(time > 10 AND time < 5) and _measurement = 'cpu' and _field = 'usage'" then
      .ok (some (wrappedCondition contradictoryTime "cpu" "usage"))
    else .error "unable to parse"
  Now := sampleEnv.Now
  ConditionExpr := fun _ _ =>
    (some (baseCondition "cpu" "usage"), { MinTimeNano := 11, MaxTimeNano := 4 }, none)

/-! ## Notions used to state the properties of cursors, timestamps and aborts -/

/-- The nanosecond timestamps of the batches a cursor yields before its first empty
batch, in batch order. -/
def timestampsOf {α : Type} (batches : List (CursorArray α)) : List Int :=
  ((batches.takeWhile (fun a => a.length != 0)).flatten).map (fun p => p.1)

/-- The source timestamps of a float or integer series, in nanoseconds; none for any
other series. -/
def Series.timestamps (s : Series) : List Int :=
  match s.Cursor with
  | some (.FloatArrayCursor batches) => timestampsOf batches
  | some (.IntegerArrayCursor batches) => timestampsOf batches
  | _ => []

/-- A series for which `rs.Cursor()` returns a cursor. -/
def Series.hasCursor (s : Series) : Bool :=
  s.Cursor.isSome

/-- One of the five array cursor types of `tsdb`. -/
def Cursor.isArrayCursor : Cursor → Bool
  | .other _ => false
  | _ => true

/-- A result set whose cursors are all of one of the five array cursor types. -/
def ResultSet.allArrayCursors (rs : ResultSet) : Prop :=
  ∀ s ∈ rs, ∀ cur, s.Cursor = some cur → cur.isArrayCursor = true

/-- The cursor calls "obtain the cursor of series `i`, then close it", for the series at
the given positions, one after the other. -/
def obtainedAndClosed (positions : List Nat) : List CursorEvent :=
  positions.flatMap (fun i => [.Cursor i, .Close i])

/-- The total number of samples in a list of time series. -/
def totalSamples (series : List TimeSeries) : Nat :=
  (series.map (fun s => s.Samples.length)).sum

/-- The error raised for a series whose cursor is not float or integer valued: the name
of the unsupported kind with the tags of the series, or the unreachable error for a
cursor of unknown type. -/
def Series.abortError (ext : Ext) (s : Series) : Option Err :=
  match s.Cursor with
  | some (.UnsignedArrayCursor _) =>
    some (.cantReadCursor "uint" (ext.RemoveInfluxSystemTags s.Tags))
  | some (.BooleanArrayCursor _) =>
    some (.cantReadCursor "bool" (ext.RemoveInfluxSystemTags s.Tags))
  | some (.StringArrayCursor _) =>
    some (.cantReadCursor "string" (ext.RemoveInfluxSystemTags s.Tags))
  | some (.other goType) => some (.unreachable goType)
  | _ => none

/-! ## Concrete inputs with negative timestamps and absent cursors -/

/-- A float series with the timestamps -1000001, -1, 999999 and 1000000 ns. -/
def negativeSeries : Series :=
  { Tags := [("_measurement", "cpu"), ("host", "n")],
    Cursor := some (.FloatArrayCursor
      [floatBatch [-1000001, -1], floatBatch [999999, 1000000]]) }

/-- A series without a cursor. -/
def absentSeries : Series :=
  { Tags := [("_measurement", "cpu"), ("host", "none")], Cursor := none }

/-- The two series of 3 and 5 samples, with a series without a cursor in front of each
and one at the end. -/
def twoSeriesWithAbsent : ResultSet :=
  twoSeries.flatMap (fun s => [absentSeries, s]) ++ [absentSeries]

/-! ## Notions used to state which series can be cut short -/

/-- The messages for the series `srcs` when each of them is sent with all of its samples,
except the last one, which is sent with its first `k` samples. -/
def messagesCutLast (ext : Ext) : List Series → Nat → List TimeSeries
  | [], _ => []
  | [s], k => [{ Labels := s.labels ext, Samples := (s.samples ext).take k }]
  | s :: t :: rest, k =>
    { Labels := s.labels ext, Samples := s.samples ext } ::
      messagesCutLast ext (t :: rest) k

/-! ## The visitor and the pure translation -/

/-- Induction over expressions: the operands of a binary or parenthesized expression,
when present, satisfy the property. -/
theorem Expr.induction {P : Expr → Prop}
    (binary : ∀ Op LHS RHS, (∀ l, LHS = some l → P l) → (∀ r, RHS = some r → P r) →
      P (.BinaryExpr Op LHS RHS))
    (paren : ∀ e, (∀ x, e = some x → P x) → P (.ParenExpr e))
    (leaf : ∀ e, (∀ Op l r, e ≠ .BinaryExpr Op l r) → (∀ x, e ≠ .ParenExpr x) → P e) :
    ∀ e, P e := by
  intro e
  refine Expr.rec (motive_1 := P) (motive_2 := fun o => ∀ x, o = some x → P x)
    ?_ ?_ ?_ ?_ ?_ ?_ ?_ ?_ ?_ ?_ ?_ ?_ ?_ ?_ ?_ ?_ ?_ ?_ ?_ e
  · intro Op LHS RHS hl hr; exact binary Op LHS RHS hl hr
  · intro e h; exact paren e h
  all_goals first
    | (intro x h; cases h)
    | (intro v hv x h; cases h; exact hv)
    | (intros; apply leaf <;> intros <;> simp)

theorem pop_append (s : List Node) (a : Node) (err : Option Err) :
    exprToNodeVisitor.pop { nodes := s ++ [a], err := err } =
      .ok (a, { nodes := s, err := err }) := by
  simp [exprToNodeVisitor.pop]

theorem pop2_append (s : List Node) (a b : Node) (err : Option Err) :
    exprToNodeVisitor.pop2 { nodes := s ++ [a, b], err := err } =
      .ok (a, b, { nodes := s, err := err }) := by
  simp only [exprToNodeVisitor.pop2]
  have hlen : ¬ (s ++ [a, b]).length < 2 := by simp
  rw [dif_neg hlen]
  have h1 : (s ++ [a, b]).length - 2 = s.length := by simp
  have h2 : (s ++ [a, b]).length - 1 = s.length + 1 := by simp
  simp only [h1, h2]
  congr 2
  · rw [List.getElem_append_right (by omega)]; simp
  · congr 1
    · rw [List.getElem_append_right (by omega)]; simp
    · simp

theorem pop2_length (v v' : exprToNodeVisitor) (l r : Node)
    (h : v.pop2 = .ok (l, r, v')) : v'.nodes.length + 2 = v.nodes.length ∧ v'.err = v.err := by
  unfold exprToNodeVisitor.pop2 at h
  split at h
  · cases h
  · simp only [MayPanic.ok.injEq, Prod.mk.injEq] at h
    obtain ⟨-, -, rfl⟩ := h
    simp
    omega

theorem pop_length (v v' : exprToNodeVisitor) (c : Node)
    (h : v.pop = .ok (c, v')) : v'.nodes.length + 1 = v.nodes.length ∧ v'.err = v.err := by
  unfold exprToNodeVisitor.pop at h
  split at h
  · cases h
  · simp only [MayPanic.ok.injEq, Prod.mk.injEq] at h
    obtain ⟨-, rfl⟩ := h
    simp
    omega

theorem binaryNode_append (s : List Node) (l r : Node) (Op : Token) :
    exprToNodeVisitor.binaryNode { nodes := s ++ [l, r], err := none } Op =
      match comparisonOf Op, logicalOf Op with
      | some comp, _ => .ok ⟨s ++
          [Node.mk .NodeTypeComparisonExpression (.Comparison comp) [l, r]], none⟩
      | none, some op => .ok ⟨s ++
          [Node.mk .NodeTypeLogicalExpression (.Logical op) [l, r]], none⟩
      | none, none => .ok ⟨s ++ [l, r], some (.unsupportedOperator Op.String)⟩ := by
  cases Op <;>
    simp [exprToNodeVisitor.binaryNode, mapOpToComparison, comparisonOf, logicalOf,
      pop2_append, exprToNodeVisitor.push]

/-- On a well-formed expression, from a stack `s` and no error, `Visit` appends `T e` to
the stack when `T e` is a node, and records the error of `T e` otherwise. -/
theorem Visit_wellFormed (e : Expr) : e.WellFormed = true → ∀ s : List Node,
    (∀ n, T e = .ok n →
      exprToNodeVisitor.Visit { nodes := s, err := none } e =
        .ok { nodes := s ++ [n], err := none }) ∧
    (∀ err, T e = .error err →
      ∃ s', exprToNodeVisitor.Visit { nodes := s, err := none } e =
        .ok { nodes := s', err := some err }) := by
  induction e using Expr.induction with
  | binary Op LHS RHS ihl ihr =>
    intro hwf s
    cases LHS with
    | none => simp [Expr.WellFormed, WellFormedOperand] at hwf
    | some l =>
      cases RHS with
      | none => simp [Expr.WellFormed, WellFormedOperand] at hwf
      | some r =>
        simp only [Expr.WellFormed, WellFormedOperand, Bool.and_eq_true] at hwf
        have hl := ihl l rfl hwf.1 s
        simp only [T, TOperand, exprToNodeVisitor.Visit, Walk]
        cases hTl : T l with
        | error el =>
          obtain ⟨s1, h1⟩ := hl.2 el hTl
          simp [h1]
        | ok nl =>
          have h1 := hl.1 nl hTl
          have hr := ihr r rfl hwf.2 (s ++ [nl])
          cases hTr : T r with
          | error er =>
            obtain ⟨s2, h2⟩ := hr.2 er hTr
            simp [h1, h2]
          | ok nr =>
            have h2 := hr.1 nr hTr
            simp only [h1, h2, Option.isSome_none, Bool.false_eq_true, if_false,
              List.append_assoc, List.singleton_append, binaryNode_append]
            cases hc : comparisonOf Op with
            | some comp => simp
            | none =>
              cases hlg : logicalOf Op with
              | some op => simp
              | none => simp
  | paren x ih =>
    intro hwf s
    cases x with
    | none => simp [Expr.WellFormed, WellFormedOperand] at hwf
    | some c =>
      simp only [Expr.WellFormed, WellFormedOperand] at hwf
      have hc := ih c rfl hwf s
      simp only [T, TOperand, exprToNodeVisitor.Visit, Walk]
      cases hTc : T c with
      | error ec =>
        obtain ⟨s1, h1⟩ := hc.2 ec hTc
        simp [h1]
      | ok nc =>
        have h1 := hc.1 nc hTc
        simp [h1, exprToNodeVisitor.parenNode, pop_append, exprToNodeVisitor.push]
  | leaf e hb hp =>
    intro _ s
    cases e <;> simp [T, exprToNodeVisitor.Visit, exprToNodeVisitor.push] at hb hp ⊢

theorem binaryNode_length (v v' : exprToNodeVisitor) (Op : Token)
    (h : v.binaryNode Op = .ok v') (hv' : v'.err = none) :
    v'.nodes.length + 1 = v.nodes.length := by
  unfold exprToNodeVisitor.binaryNode at h
  cases hp : v.pop2 with
  | panic msg =>
    rw [hp] at h
    cases hc : mapOpToComparison Op with
    | some c => simp [hc] at h
    | none =>
      simp only [hc] at h
      split at h
      · simp at h
      · cases h; simp at hv'
  | ok val =>
    obtain ⟨lhs, rhs, v2⟩ := val
    have hl := pop2_length _ _ _ _ hp
    rw [hp] at h
    cases hc : mapOpToComparison Op with
    | some c =>
      simp only [hc, MayPanic.ok.injEq] at h
      subst h
      simp [exprToNodeVisitor.push]
      omega
    | none =>
      simp only [hc] at h
      split at h
      · simp only [MayPanic.ok.injEq] at h
        subst h
        simp [exprToNodeVisitor.push]
        omega
      · cases h; simp at hv'

theorem parenNode_length (v v' : exprToNodeVisitor) (h : v.parenNode = .ok v') :
    v'.nodes.length = v.nodes.length := by
  unfold exprToNodeVisitor.parenNode at h
  split at h
  · rename_i c v2 hp
    have := pop_length _ _ _ hp
    cases h
    simp [exprToNodeVisitor.push]
    omega
  · cases h

theorem visitor_eta (v : exprToNodeVisitor) (h : v.err = none) :
    v = { nodes := v.nodes, err := none } := by
  cases v; simp_all

/-- From a stack `s` and no error, a visit that ends without error leaves at most one
node more than `s` had, and no node more when the expression is not well-formed. -/
theorem Visit_length (e : Expr) : ∀ (s : List Node) (v' : exprToNodeVisitor),
    exprToNodeVisitor.Visit { nodes := s, err := none } e = .ok v' → v'.err = none →
    v'.nodes.length ≤ s.length + 1 ∧ (e.WellFormed = false → v'.nodes.length ≤ s.length) := by
  induction e using Expr.induction with
  | binary Op LHS RHS ihl ihr =>
    intro s v' h hv'
    have walk : ∀ (o : Option Expr), (∀ x, o = some x → ∀ (s : List Node)
        (v' : exprToNodeVisitor),
        exprToNodeVisitor.Visit { nodes := s, err := none } x = .ok v' → v'.err = none →
        v'.nodes.length ≤ s.length + 1 ∧
          (x.WellFormed = false → v'.nodes.length ≤ s.length)) →
        ∀ (s : List Node) (v' : exprToNodeVisitor),
        Walk { nodes := s, err := none } o = .ok v' → v'.err = none →
        v'.nodes.length ≤ s.length + 1 ∧
          (WellFormedOperand o = false → v'.nodes.length ≤ s.length) := by
      intro o ih s v' h hv'
      cases o with
      | none => simp only [Walk, MayPanic.ok.injEq] at h; subst h; simp
      | some x => simpa [Walk, WellFormedOperand] using ih x rfl s v' h hv'
    simp only [exprToNodeVisitor.Visit, Option.isSome_none, Bool.false_eq_true,
      if_false] at h
    cases h1 : Walk { nodes := s, err := none } LHS with
    | panic msg => simp [h1] at h
    | ok v1 =>
      simp only [h1] at h
      cases he1 : v1.err with
      | some e1 => simp [he1] at h; subst h; simp [he1] at hv'
      | none =>
        simp only [he1, Option.isSome_none, Bool.false_eq_true, if_false] at h
        have l1 := walk LHS ihl s v1 h1 he1
        rw [visitor_eta v1 he1] at h
        cases h2 : Walk { nodes := v1.nodes, err := none } RHS with
        | panic msg => simp [h2] at h
        | ok v2 =>
          simp only [h2] at h
          cases he2 : v2.err with
          | some e2 => simp [he2] at h; subst h; simp [he2] at hv'
          | none =>
            simp only [he2, Option.isSome_none, Bool.false_eq_true, if_false] at h
            have l2 := walk RHS ihr v1.nodes v2 h2 he2
            have l3 := binaryNode_length v2 v' Op h hv'
            refine ⟨by omega, ?_⟩
            intro hwf
            simp only [Expr.WellFormed, Bool.and_eq_false_iff] at hwf
            rcases hwf with hwf | hwf
            · have := l1.2 hwf; omega
            · have := l2.2 hwf; omega
  | paren x ih =>
    intro s v' h hv'
    simp only [exprToNodeVisitor.Visit] at h
    cases x with
    | none =>
      simp only [Walk, Option.isSome_none, Bool.false_eq_true, if_false] at h
      have := parenNode_length _ _ h
      simp at this
      simp [this]
    | some c =>
      simp only [Walk] at h
      cases h1 : exprToNodeVisitor.Visit { nodes := s, err := none } c with
      | panic msg => simp [h1] at h
      | ok v1 =>
        simp only [h1] at h
        cases he1 : v1.err with
        | some e1 => simp [he1] at h; subst h; simp [he1] at hv'
        | none =>
          simp only [he1, Option.isSome_none, Bool.false_eq_true, if_false] at h
          have l1 := ih c rfl s v1 h1 he1
          have l2 := parenNode_length _ _ h
          refine ⟨by omega, ?_⟩
          intro hwf
          simp only [Expr.WellFormed, WellFormedOperand] at hwf
          have := l1.2 hwf
          omega
  | leaf e hb hp =>
    intro s v' h hv'
    cases e <;>
      simp [exprToNodeVisitor.Visit, exprToNodeVisitor.push, Expr.WellFormed] at hb hp h ⊢ <;>
      subst h <;> simp at hv' ⊢

/-- On a well-formed expression `exprToNode` returns what `T` prescribes. -/
theorem exprToNode_wellFormed (e : Expr) (hwf : e.WellFormed = true) :
    exprToNode (some e) = TResult e := by
  have h := Visit_wellFormed e hwf []
  unfold exprToNode TResult
  simp only [Walk]
  cases hT : T e with
  | ok n => simp [h.1 n hT]
  | error err =>
    obtain ⟨s', hs⟩ := h.2 err hT
    simp [hs]

/-- Only a well-formed expression can be translated without error. -/
theorem exprToNode_ok_wellFormed (e : Expr) (p : Option Predicate)
    (h : exprToNode (some e) = .ok p) : e.WellFormed = true := by
  by_contra hwf
  simp only [Bool.not_eq_true] at hwf
  unfold exprToNode at h
  simp only [Walk] at h
  cases hv : exprToNodeVisitor.Visit { nodes := [], err := none } e with
  | panic msg => simp [hv] at h
  | ok v =>
    simp only [hv] at h
    cases he : v.err with
    | some e1 => simp [he] at h
    | none =>
      have hl := (Visit_length e [] v hv he).2 hwf
      simp only [he] at h
      cases hn : v.nodes with
      | nil => simp [hn] at h
      | cons a t => simp [hn] at hl

/-- A successful translation returns the predicate whose root is `T e`. -/
theorem exprToNode_ok (expr : Option Expr) (p : Predicate)
    (h : exprToNode expr = .ok (some p)) :
    ∃ e, expr = some e ∧ e.WellFormed = true ∧ T e = .ok p.Root := by
  cases expr with
  | none => simp [exprToNode] at h
  | some e =>
    have hwf := exprToNode_ok_wellFormed e _ h
    refine ⟨e, rfl, hwf, ?_⟩
    rw [exprToNode_wellFormed e hwf] at h
    unfold TResult at h
    cases hT : T e with
    | error err => simp [hT] at h
    | ok n =>
      simp only [hT, Outcome.ok.injEq, Option.some.injEq] at h
      rw [← h]

/-- Every node of `T e` obeys the arity rule. -/
theorem T_arity (e : Expr) : ∀ root, T e = .ok root → ∀ n ∈ root.subnodes, n.arityOk := by
  induction e using Expr.induction with
  | binary Op LHS RHS ihl ihr =>
    intro root h n hn
    cases LHS with
    | none => simp [T, TOperand] at h
    | some l =>
      cases RHS with
      | none => cases hl : T l <;> simp [T, TOperand, hl] at h
      | some r =>
        simp only [T, TOperand] at h
        cases hl : T l with
        | error el => simp [hl] at h
        | ok nl =>
          cases hr : T r with
          | error er => simp [hl, hr] at h
          | ok nr =>
            have al := ihl l rfl nl hl
            have ar := ihr r rfl nr hr
            simp only [hl, hr] at h
            cases hc : comparisonOf Op with
            | some comp =>
              simp only [hc, Except.ok.injEq] at h
              subst h
              simp only [Node.subnodes, subnodesOfList, List.append_nil, List.mem_cons,
                List.mem_append] at hn
              rcases hn with rfl | hn | hn
              · simp [Node.arityOk, Node.NodeType, Node.Children]
              · exact al n hn
              · exact ar n hn
            | none =>
              cases hlg : logicalOf Op with
              | none => simp [hc, hlg] at h
              | some op =>
                simp only [hc, hlg, Except.ok.injEq] at h
                subst h
                simp only [Node.subnodes, subnodesOfList, List.append_nil, List.mem_cons,
                  List.mem_append] at hn
                rcases hn with rfl | hn | hn
                · simp [Node.arityOk, Node.NodeType, Node.Children]
                · exact al n hn
                · exact ar n hn
  | paren x ih =>
    intro root h n hn
    cases x with
    | none => simp [T, TOperand] at h
    | some c =>
      simp only [T, TOperand] at h
      cases hc : T c with
      | error ec => simp [hc] at h
      | ok nc =>
        simp only [hc, Except.ok.injEq] at h
        subst h
        simp only [Node.subnodes, subnodesOfList, List.append_nil, List.mem_cons] at hn
        rcases hn with rfl | hn
        · simp [Node.arityOk, Node.NodeType, Node.Children]
        · exact ih c rfl nc hc n hn
  | leaf e hb hp =>
    intro root h n hn
    cases e <;> simp [T] at hb hp h <;> subst h <;>
      simp [Node.subnodes, subnodesOfList] at hn <;> subst hn <;>
      simp [Node.arityOk, Node.NodeType, Node.Children]

/-- The tree `T e` is as deep as `e` is nested. -/
theorem T_depth (e : Expr) : ∀ root, T e = .ok root → root.depth = e.depth := by
  induction e using Expr.induction with
  | binary Op LHS RHS ihl ihr =>
    intro root h
    cases LHS with
    | none => simp [T, TOperand] at h
    | some l =>
      cases RHS with
      | none => cases hl : T l <;> simp [T, TOperand, hl] at h
      | some r =>
        simp only [T, TOperand] at h
        cases hl : T l with
        | error el => simp [hl] at h
        | ok nl =>
          cases hr : T r with
          | error er => simp [hl, hr] at h
          | ok nr =>
            have dl := ihl l rfl nl hl
            have dr := ihr r rfl nr hr
            simp only [hl, hr] at h
            cases hc : comparisonOf Op with
            | some comp =>
              simp only [hc, Except.ok.injEq] at h
              subst h
              simp [Node.depth, maxDepth, Expr.depth, operandDepth, dl, dr]
            | none =>
              cases hlg : logicalOf Op with
              | none => simp [hc, hlg] at h
              | some op =>
                simp only [hc, hlg, Except.ok.injEq] at h
                subst h
                simp [Node.depth, maxDepth, Expr.depth, operandDepth, dl, dr]
  | paren x ih =>
    intro root h
    cases x with
    | none => simp [T, TOperand] at h
    | some c =>
      simp only [T, TOperand] at h
      cases hc : T c with
      | error ec => simp [hc] at h
      | ok nc =>
        simp only [hc, Except.ok.injEq] at h
        subst h
        simp [Node.depth, maxDepth, Expr.depth, operandDepth, ih c rfl nc hc]
  | leaf e hb hp =>
    intro root h
    cases e <;> simp [T] at hb hp h <;> subst h <;>
      simp [Node.depth, maxDepth, Expr.depth]

/-- On a well-formed expression `T` fails exactly when the expression contains
something unsupported. -/
theorem T_error_iff (e : Expr) : e.WellFormed = true →
    ((∃ err, T e = .error err) ↔ e.hasUnsupported = true) := by
  induction e using Expr.induction with
  | binary Op LHS RHS ihl ihr =>
    intro hwf
    cases LHS with
    | none => simp [Expr.WellFormed, WellFormedOperand] at hwf
    | some l =>
      cases RHS with
      | none => simp [Expr.WellFormed, WellFormedOperand] at hwf
      | some r =>
        simp only [Expr.WellFormed, WellFormedOperand, Bool.and_eq_true] at hwf
        have il := ihl l rfl hwf.1
        have ir := ihr r rfl hwf.2
        simp only [T, TOperand, Expr.hasUnsupported, operandHasUnsupported,
          Bool.or_eq_true, Bool.and_eq_true]
        cases hl : T l with
        | error el =>
          have : l.hasUnsupported = true := il.1 ⟨el, hl⟩
          simp [this]
        | ok nl =>
          have hl' : ¬ l.hasUnsupported = true := by
            intro hu
            obtain ⟨err, he⟩ := il.2 hu
            simp [hl] at he
          cases hr : T r with
          | error er =>
            have : r.hasUnsupported = true := ir.1 ⟨er, hr⟩
            simp [this]
          | ok nr =>
            have hr' : ¬ r.hasUnsupported = true := by
              intro hu
              obtain ⟨err, he⟩ := ir.2 hu
              simp [hr] at he
            cases hc : comparisonOf Op with
            | some comp => simp [hl', hr']
            | none =>
              cases hlg : logicalOf Op with
              | none => simp
              | some op => simp [hl', hr']
  | paren x ih =>
    intro hwf
    cases x with
    | none => simp [Expr.WellFormed, WellFormedOperand] at hwf
    | some c =>
      simp only [Expr.WellFormed, WellFormedOperand] at hwf
      have ic := ih c rfl hwf
      simp only [T, TOperand, Expr.hasUnsupported, operandHasUnsupported]
      cases hc : T c with
      | error ec =>
        have : c.hasUnsupported = true := ic.1 ⟨ec, hc⟩
        simp [this]
      | ok nc =>
        have hc' : ¬ c.hasUnsupported = true := by
          intro hu
          obtain ⟨err, he⟩ := ic.2 hu
          simp [hc] at he
        simp [hc']
  | leaf e hb hp =>
    intro _
    cases e <;> simp [T, Expr.hasUnsupported] at hb hp ⊢

/-! ## The compiler: `GetReadRequest` and `exprToNode` -/

/-- C1: whatever the other arguments and the environment are (a `where` that does not
parse included), `GetReadRequest` with `db = ""` returns the missing-database error and
no request, having made no library call at all (no marshalling, no parsing); and with a
non-empty `db` and `measurement = ""` it returns the missing-measurement error, again
before any library call. -/
theorem C1_validation_before_parsing (env : Env) (db rp measurement field where_ : String) :
    GetReadRequestRun env "" rp measurement field where_ = ([], .error .dbIsEmpty) ∧
    GetReadRequest env "" rp measurement field where_ = .error .dbIsEmpty ∧
    (db ≠ "" →
      GetReadRequestRun env db rp "" field where_ = ([], .error .measurementIsEmpty) ∧
      GetReadRequest env db rp "" field where_ = .error .measurementIsEmpty) := by
  refine ⟨by simp [GetReadRequestRun], by simp [GetReadRequest, GetReadRequestRun], ?_⟩
  intro hdb
  simp [GetReadRequest, GetReadRequestRun, hdb]

/-- C1 at a concrete input: empty `db` with an unparsable `where`, and `db = "db"` with
an empty measurement. -/
theorem C1_validation_before_parsing_witness :
    GetReadRequestRun sampleEnv "" "rp" "" "usage" "((" = ([], .error .dbIsEmpty) ∧
    GetReadRequestRun sampleEnv "db" "rp" "" "usage" "((" =
      ([], .error .measurementIsEmpty) :=
  ⟨(C1_validation_before_parsing sampleEnv "db" "rp" "" "usage" "((").1,
    ((C1_validation_before_parsing sampleEnv "db" "rp" "" "usage" "((").2.2
      (by decide)).1⟩

/-- The request of a run in which marshalling and parsing succeed. -/
theorem GetReadRequest_eq (env : Env) (db rp measurement field where_ : String)
    (src : Any) (expr : Option Expr)
    (hdb : db ≠ "") (hm : measurement ≠ "")
    (hmarshal : env.MarshalAny { Database := db, RetentionPolicy := rp } = .ok src)
    (hparse : env.ParseExpr (conditionText
      (if where_ ≠ "" then "(" ++ where_ ++ ") and " else where_) measurement
      (if field = "" then "value" else field)) = .ok expr) :
    GetReadRequest env db rp measurement field where_ =
      match exprToNode (env.ConditionExpr expr env.Now).1 with
      | .error e => .error e
      | .panic msg => .panic msg
      | .ok predicate => .ok {
          ReadSource := src
          Range := { Start := (env.ConditionExpr expr env.Now).2.1.MinTimeNano,
                     End := (env.ConditionExpr expr env.Now).2.1.MaxTimeNano }
          Predicate := predicate } := by
  simp only [GetReadRequest, GetReadRequestRun, hdb, hm, if_false, hmarshal, hparse]
  cases exprToNode (env.ConditionExpr expr env.Now).1 <;> rfl

/-- The two-clause condition translates to the And of the two Equal nodes. -/
theorem exprToNode_baseCondition (measurement field : String) :
    exprToNode (some (baseCondition measurement field)) =
      .ok (some (Predicate.mk (andNode (equalsNode measurementTagKey measurement)
        (equalsNode fieldTagKey field)))) := rfl

/-- C2, as stated, fails where validation and defaulting step in: with an empty
measurement there is no predicate at all (the call is rejected), and with an empty field
the second clause compares `_field` with `"value"`, not with the empty string. -/
theorem C2_counterexample :
    GetReadRequest sampleEnv "db" "" "" "usage" "" = .error .measurementIsEmpty ∧
    ¬ hasRoot (GetReadRequest sampleEnv "db" "" "" "usage" "")
      (andNode (equalsNode "_measurement" "") (equalsNode "_field" "usage")) ∧
    hasRoot (GetReadRequest sampleEnv "db" "" "cpu" "" "")
      (andNode (equalsNode "_measurement" "cpu") (equalsNode "_field" "value")) ∧
    ¬ hasRoot (GetReadRequest sampleEnv "db" "" "cpu" "" "")
      (andNode (equalsNode "_measurement" "cpu") (equalsNode "_field" "")) := by
  have h1 : GetReadRequest sampleEnv "db" "" "" "usage" "" = .error .measurementIsEmpty :=
    rfl
  have h2 : GetReadRequest sampleEnv "db" "" "cpu" "" "" = .ok {
      ReadSource := { TypeUrl := "storage.ReadSource", Value := [100, 98] }
      Range := { Start := fullRange.MinTimeNano, End := fullRange.MaxTimeNano }
      Predicate := some (Predicate.mk
        (andNode (equalsNode "_measurement" "cpu") (equalsNode "_field" "value"))) } := rfl
  refine ⟨h1, ?_, ⟨_, _, h2, rfl, rfl⟩, ?_⟩
  · rintro ⟨rq, p, h, -, -⟩
    rw [h1] at h
    cases h
  · rintro ⟨rq, p, h, hp, hr⟩
    rw [h2] at h
    cases h
    cases hp
    simp [andNode, equalsNode] at hr

/-- C2, amended: for a non-empty `db`, a non-empty measurement `m` and any field `f`,
with `f1` standing for `f`, or for `"value"` when `f` is empty: if marshalling succeeds,
the parser returns for the text `_measurement = 'm' and _field = 'f1'` the expression
`_measurement = 'm' AND _field = 'f1'`, and splitting the condition returns that
expression unchanged, then compiling with an empty `where` gives a request whose
predicate root is the Logical-And node with exactly the two children
Equal(TagRef `_measurement`, String `m`) and Equal(TagRef `_field`, String `f1`), in
this order. -/
theorem C2_empty_where_root (env : Env) (db rp m f : String) (src : Any) (tr : TimeRange)
    (err : Option String) (hdb : db ≠ "") (hm : m ≠ "")
    (hmarshal : env.MarshalAny { Database := db, RetentionPolicy := rp } = .ok src)
    (hparse : env.ParseExpr
        ("_measurement = '" ++ m ++ "' and _field = '" ++ (if f = "" then "value" else f)
          ++ "'") =
      .ok (some (baseCondition m (if f = "" then "value" else f))))
    (hcond : env.ConditionExpr (some (baseCondition m (if f = "" then "value" else f)))
        env.Now =
      (some (baseCondition m (if f = "" then "value" else f)), tr, err)) :
    hasRoot (GetReadRequest env db rp m f "")
      (Node.mk .NodeTypeLogicalExpression (.Logical .LogicalAnd)
        [Node.mk .NodeTypeComparisonExpression (.Comparison .ComparisonEqual)
          [Node.mk .NodeTypeTagRef (.TagRefValue "_measurement") [],
           Node.mk .NodeTypeLiteral (.StringValue m) []],
         Node.mk .NodeTypeComparisonExpression (.Comparison .ComparisonEqual)
          [Node.mk .NodeTypeTagRef (.TagRefValue "_field") [],
           Node.mk .NodeTypeLiteral (.StringValue (if f = "" then "value" else f)) []]]) := by
  have htext : conditionText "" m (if f = "" then "value" else f) =
      "_measurement = '" ++ m ++ "' and _field = '" ++ (if f = "" then "value" else f)
          ++ "'" := by
    simp [conditionText, measurementTagKey, fieldTagKey, String.append_assoc]
  have h := GetReadRequest_eq env db rp m f "" src _ hdb hm hmarshal
    (by simpa [htext] using hparse)
  rw [h, hcond]
  simp only [exprToNode_baseCondition]
  exact ⟨_, _, rfl, rfl, rfl⟩

/-- C2 amended, at `m = "cpu"`, `f = "usage"`. -/
theorem C2_empty_where_root_witness :
    hasRoot (GetReadRequest sampleEnv "db" "" "cpu" "usage" "")
      (andNode (equalsNode "_measurement" "cpu") (equalsNode "_field" "usage")) :=
  C2_empty_where_root sampleEnv "db" "" "cpu" "usage"
    { TypeUrl := "storage.ReadSource", Value := [100, 98] } fullRange none
    (by decide) (by decide) rfl rfl rfl

/-- C3: for `where = "host = 'a'"`, measurement `cpu` and field `usage`, when the parser
returns the expression `((host = 'a') AND _measurement = 'cpu') AND _field = 'usage'`
for the condition text and splitting the condition returns it unchanged, the predicate
is the three-way conjunction: its root is And(And(Paren(host = 'a'), _measurement =
'cpu'), _field = 'usage'), it has exactly two Logical-And nodes and exactly three
Comparison-Equal nodes, which are, from left to right, `host = 'a'`, `_measurement =
'cpu'` and `_field = 'usage'`, and the user's clause is the only child of a
Parenthesized node. -/
theorem C3_three_way_conjunction (env : Env) (db rp : String) (src : Any) (tr : TimeRange)
    (err : Option String) (hdb : db ≠ "")
    (hmarshal : env.MarshalAny { Database := db, RetentionPolicy := rp } = .ok src)
    (hparse : env.ParseExpr "(host = 'a') and _measurement = 'cpu' and _field = 'usage'" =
      .ok (some (wrappedCondition (tagEquals "host" "a") "cpu" "usage")))
    (hcond : env.ConditionExpr (some (wrappedCondition (tagEquals "host" "a") "cpu" "usage"))
        env.Now =
      (some (wrappedCondition (tagEquals "host" "a") "cpu" "usage"), tr, err)) :
    ∃ rq p, GetReadRequest env db rp "cpu" "usage" "host = 'a'" = .ok rq ∧
      rq.Predicate = some p ∧
      p.Root = andNode
        (andNode (parenNode (equalsNode "host" "a")) (equalsNode "_measurement" "cpu"))
        (equalsNode "_field" "usage") ∧
      (p.Root.subnodes.filter Node.isLogicalAnd).length = 2 ∧
      (p.Root.subnodes.filter Node.isComparisonEqual).length = 3 ∧
      p.Root.subnodes.filter Node.isComparisonEqual =
        [equalsNode "host" "a", equalsNode "_measurement" "cpu",
          equalsNode "_field" "usage"] ∧
      parenNode (equalsNode "host" "a") ∈ p.Root.subnodes := by
  have h := GetReadRequest_eq env db rp "cpu" "usage" "host = 'a'" src _ hdb (by decide)
    hmarshal (by
      have ht : conditionText (if "host = 'a'" ≠ "" then "(" ++ "host = 'a'" ++ ") and "
          else "host = 'a'") "cpu" (if "usage" = "" then "value" else "usage") =
          "(host = 'a') and _measurement = 'cpu' and _field = 'usage'" := by decide
      rw [ht]; exact hparse)
  rw [h, hcond]
  have he : exprToNode (some (wrappedCondition (tagEquals "host" "a") "cpu" "usage")) =
      .ok (some (Predicate.mk (andNode
        (andNode (parenNode (equalsNode "host" "a")) (equalsNode "_measurement" "cpu"))
        (equalsNode "_field" "usage")))) := rfl
  simp only [he]
  refine ⟨_, _, rfl, rfl, rfl, ?_, ?_, ?_, ?_⟩
  · decide
  · decide
  · simp [andNode, parenNode, equalsNode, Node.subnodes, subnodesOfList, List.filter,
      Node.isComparisonEqual, Node.NodeType, Node.Value]
  · simp [andNode, parenNode, equalsNode, Node.subnodes, subnodesOfList]

/-- C3 in the sample environment. -/
theorem C3_three_way_conjunction_witness :
    ∃ rq p, GetReadRequest sampleEnv "db" "" "cpu" "usage" "host = 'a'" = .ok rq ∧
      rq.Predicate = some p ∧
      p.Root = andNode
        (andNode (parenNode (equalsNode "host" "a")) (equalsNode "_measurement" "cpu"))
        (equalsNode "_field" "usage") :=
  have h := C3_three_way_conjunction sampleEnv "db" ""
    { TypeUrl := "storage.ReadSource", Value := [100, 98] } fullRange none
    (by decide) rfl rfl rfl
  match h with
  | ⟨rq, p, h1, h2, h3, _⟩ => ⟨rq, p, h1, h2, h3⟩

/-- C4: in the predicate tree of every successful `exprToNode`, each node of type
Comparison or Logical has exactly two children, each Parenthesized node exactly one, and
each Literal or Tag Reference node none. -/
theorem C4_node_arity (expr : Option Expr) (p : Predicate)
    (h : exprToNode expr = .ok (some p)) :
    ∀ n ∈ p.Root.subnodes,
      ((n.NodeType = .NodeTypeComparisonExpression ∨
        n.NodeType = .NodeTypeLogicalExpression) → n.Children.length = 2) ∧
      (n.NodeType = .NodeTypeParenExpression → n.Children.length = 1) ∧
      ((n.NodeType = .NodeTypeLiteral ∨ n.NodeType = .NodeTypeTagRef) →
        n.Children.length = 0) := by
  obtain ⟨e, -, -, hT⟩ := exprToNode_ok expr p h
  intro n hn
  have ha := T_arity e p.Root hT n hn
  unfold Node.arityOk at ha
  refine ⟨?_, ?_, ?_⟩
  · rintro (ht | ht) <;> simpa [ht] using ha
  · intro ht; simpa [ht] using ha
  · rintro (ht | ht) <;> simpa [ht] using ha

/-- C4 on the expression `((host = 'a') AND _measurement = 'cpu') AND _field = 'usage'`
and its predicate. -/
theorem C4_node_arity_witness :
    exprToNode (some (wrappedCondition (tagEquals "host" "a") "cpu" "usage")) =
      .ok (some (Predicate.mk (andNode
        (andNode (parenNode (equalsNode "host" "a")) (equalsNode "_measurement" "cpu"))
        (equalsNode "_field" "usage")))) ∧
    ∀ n ∈ (andNode
        (andNode (parenNode (equalsNode "host" "a")) (equalsNode "_measurement" "cpu"))
        (equalsNode "_field" "usage")).subnodes,
      ((n.NodeType = .NodeTypeComparisonExpression ∨
        n.NodeType = .NodeTypeLogicalExpression) → n.Children.length = 2) ∧
      (n.NodeType = .NodeTypeParenExpression → n.Children.length = 1) ∧
      ((n.NodeType = .NodeTypeLiteral ∨ n.NodeType = .NodeTypeTagRef) →
        n.Children.length = 0) :=
  ⟨rfl, C4_node_arity (some (wrappedCondition (tagEquals "host" "a") "cpu" "usage"))
    (Predicate.mk (andNode
      (andNode (parenNode (equalsNode "host" "a")) (equalsNode "_measurement" "cpu"))
      (equalsNode "_field" "usage"))) rfl⟩

/-- C5: the predicate tree of a successful `exprToNode` is exactly as deep as the source
expression is nested. -/
theorem C5_depth (e : Expr) (p : Predicate) (h : exprToNode (some e) = .ok (some p)) :
    p.Root.depth = e.depth := by
  obtain ⟨e1, he, -, hT⟩ := exprToNode_ok (some e) p h
  cases he
  exact T_depth e p.Root hT

/-- C5 on `((host = 'a') AND _measurement = 'cpu') AND _field = 'usage'`: expression and
predicate tree are both 5 levels deep. -/
theorem C5_depth_witness :
    exprToNode (some (wrappedCondition (tagEquals "host" "a") "cpu" "usage")) =
      .ok (some (Predicate.mk (andNode
        (andNode (parenNode (equalsNode "host" "a")) (equalsNode "_measurement" "cpu"))
        (equalsNode "_field" "usage")))) ∧
    (andNode (andNode (parenNode (equalsNode "host" "a")) (equalsNode "_measurement" "cpu"))
      (equalsNode "_field" "usage")).depth =
      (wrappedCondition (tagEquals "host" "a") "cpu" "usage").depth ∧
    (wrappedCondition (tagEquals "host" "a") "cpu" "usage").depth = 5 :=
  ⟨rfl, C5_depth (wrappedCondition (tagEquals "host" "a") "cpu" "usage")
    (Predicate.mk (andNode
      (andNode (parenNode (equalsNode "host" "a")) (equalsNode "_measurement" "cpu"))
      (equalsNode "_field" "usage"))) rfl, by decide⟩

/-- C6: on every well-formed expression the stack-based visitor returns what the pure
recursive translation `T` returns: the predicate rooted at `T e`, or the error of `T e`. -/
theorem C6_visitor_refines_T (e : Expr) (hwf : e.WellFormed = true) :
    exprToNode (some e) =
      match T e with
      | .ok root => .ok (some { Root := root })
      | .error err => .error err :=
  exprToNode_wellFormed e hwf

/-- C6 on `((host = 'a') AND _measurement = 'cpu') AND _field = 'usage'`. -/
theorem C6_visitor_refines_T_witness :
    (wrappedCondition (tagEquals "host" "a") "cpu" "usage").WellFormed = true ∧
    exprToNode (some (wrappedCondition (tagEquals "host" "a") "cpu" "usage")) =
      match T (wrappedCondition (tagEquals "host" "a") "cpu" "usage") with
      | .ok root => .ok (some { Root := root })
      | .error err => .error err :=
  ⟨by decide, C6_visitor_refines_T _ (by decide)⟩

/-- C7, as stated, fails on an expression with an absent operand: `AND` with no left
operand contains nothing unsupported, yet `exprToNode` neither returns an error nor a
predicate: `pop2` finds one node on the stack and panics. -/
theorem C7_counterexample :
    (Expr.BinaryExpr .AND none (some (.VarRef "x"))).hasUnsupported = false ∧
    exprToNode (some (.BinaryExpr .AND none (some (.VarRef "x")))) =
      .panic "exprToNodeVisitor: stack empty" ∧
    ¬ ∃ p, exprToNode (some (.BinaryExpr .AND none (some (.VarRef "x")))) = .ok p := by
  have h : exprToNode (some (.BinaryExpr .AND none (some (.VarRef "x")))) =
      .panic "exprToNodeVisitor: stack empty" := rfl
  refine ⟨rfl, h, ?_⟩
  rintro ⟨p, hp⟩
  rw [h] at hp
  cases hp

/-- C7, amended: on every expression whose binary and parenthesized expressions have all
their operands, `exprToNode` returns an error if and only if the expression contains a
binary expression whose operator is neither a comparison nor `AND`/`OR`, or an expression
of an unsupported kind; and when it contains none, `exprToNode` returns a predicate. -/
theorem C7_fails_iff_unsupported (e : Expr) (hwf : e.WellFormed = true) :
    ((∃ err, exprToNode (some e) = .error err) ↔ e.hasUnsupported = true) ∧
    (e.hasUnsupported = false → ∃ p, exprToNode (some e) = .ok (some p)) := by
  have hT := T_error_iff e hwf
  rw [exprToNode_wellFormed e hwf]
  unfold TResult
  constructor
  · rw [← hT]
    cases h : T e with
    | ok n => simp
    | error err => simp
  · intro hu
    cases h : T e with
    | ok n => exact ⟨_, rfl⟩
    | error err =>
      have := hT.1 ⟨err, h⟩
      simp [hu] at this

/-- C7 amended, on `_measurement = 'cpu' AND true`: it contains a boolean literal, and
the translation returns the unsupported-expression error. -/
theorem C7_fails_iff_unsupported_witness :
    (Expr.BinaryExpr .AND (some (tagEquals "_measurement" "cpu"))
      (some (.BooleanLiteral true))).WellFormed = true ∧
    ∃ err, exprToNode (some (.BinaryExpr .AND (some (tagEquals "_measurement" "cpu"))
      (some (.BooleanLiteral true)))) = .error err :=
  ⟨by decide, (C7_fails_iff_unsupported _ (by decide)).1.2 (by decide)⟩

/-- C8: the error of the condition-splitting step is dropped. When marshalling and
parsing succeed and `influxql.ConditionExpr` reports an error (returning no condition),
`GetReadRequest` returns a request, with no predicate and with whatever time range came
with the error, and no error. -/
theorem C8_condition_error_dropped (env : Env) (db rp measurement field where_ : String)
    (src : Any) (expr : Option Expr) (tr : TimeRange) (msg : String)
    (hdb : db ≠ "") (hm : measurement ≠ "")
    (hmarshal : env.MarshalAny { Database := db, RetentionPolicy := rp } = .ok src)
    (hparse : env.ParseExpr (conditionText
      (if where_ ≠ "" then "(" ++ where_ ++ ") and " else where_) measurement
      (if field = "" then "value" else field)) = .ok expr)
    (hcond : env.ConditionExpr expr env.Now = (none, tr, some msg)) :
    GetReadRequest env db rp measurement field where_ =
      .ok { ReadSource := src,
            Range := { Start := tr.MinTimeNano, End := tr.MaxTimeNano },
            Predicate := none } := by
  rw [GetReadRequest_eq env db rp measurement field where_ src expr hdb hm hmarshal hparse,
    hcond]
  rfl

/-- C8 in the sample environment, for `where = "time != 0"`, on which splitting the
condition reports `invalid time comparison operator: !=`. -/
theorem C8_condition_error_dropped_witness :
    sampleEnv.ConditionExpr (some (wrappedCondition timeNotEqual "cpu" "usage"))
        sampleEnv.Now =
      (none, fullRange, some "invalid time comparison operator: !=") ∧
    GetReadRequest sampleEnv "db" "" "cpu" "usage" "time != 0" =
      .ok { ReadSource := { TypeUrl := "storage.ReadSource", Value := [100, 98] },
            Range := { Start := -9223372036854775806, End := 9223372036854775806 },
            Predicate := none } :=
  ⟨rfl, C8_condition_error_dropped sampleEnv "db" "" "cpu" "usage" "time != 0" _ _ _ _
    (by decide) (by decide) rfl rfl rfl⟩

/-! ## The buffered materializer: `GetReadResponse` -/

theorem appendSamples_eq {α : Type} (conv : α → Float64) (a : CursorArray α) :
    ∀ (samples : List Sample) (pointsNum : Int),
    appendSamples conv a samples pointsNum =
      (samples ++ a.map (fun p => { TimestampMs := p.1.tdiv millisecond, Value := conv p.2 }),
        pointsNum + a.length) := by
  induction a with
  | nil => intro samples pointsNum; simp [appendSamples]
  | cons x rest ih =>
    intro samples pointsNum
    obtain ⟨ts, value⟩ := x
    simp only [appendSamples, ih, List.map_cons, List.append_assoc, List.singleton_append,
      List.length_cons, Nat.cast_add, Nat.cast_one]
    congr 1
    omega

theorem samplesOf_nil {α : Type} (conv : α → Float64) :
    samplesOf conv ([] : List (CursorArray α)) = [] := by
  simp [samplesOf]

theorem samplesOf_cons_empty {α : Type} (conv : α → Float64) (a : CursorArray α)
    (rest : List (CursorArray α)) (h : a.length = 0) : samplesOf conv (a :: rest) = [] := by
  simp [samplesOf, List.takeWhile, h]

theorem samplesOf_cons {α : Type} (conv : α → Float64) (a : CursorArray α)
    (rest : List (CursorArray α)) (h : ¬ a.length = 0) :
    samplesOf conv (a :: rest) =
      a.map (fun p => { TimestampMs := p.1.tdiv millisecond, Value := conv p.2 }) ++
        samplesOf conv rest := by
  have h1 : (a.length != 0) = true := by simpa using h
  simp [samplesOf, List.takeWhile_cons, h1]

/-- For a cursor none of whose batches is empty, `samplesOf` is every sample of every
batch. -/
theorem samplesOf_of_nonempty {α : Type} (conv : α → Float64)
    (batches : List (CursorArray α)) (h : ∀ a ∈ batches, a ≠ []) :
    samplesOf conv batches = batches.flatten.map
      (fun p => { TimestampMs := p.1.tdiv millisecond, Value := conv p.2 }) := by
  have : batches.takeWhile (fun a => a.length != 0) = batches := by
    rw [List.takeWhile_eq_self_iff]
    intro a ha
    have := h a ha
    simpa using this
  simp [samplesOf, this]

/-- Draining into an existing series appends the samples the cursor yields. -/
theorem drainCursor_some {α : Type} (conv : α → Float64) (labels : List LabelPair)
    (batches : List (CursorArray α)) : ∀ (series : TimeSeries) (pointsNum : Int),
    drainCursor conv labels batches (some series) pointsNum =
      (some { series with Samples := series.Samples ++ samplesOf conv batches },
        pointsNum + (samplesOf conv batches).length) := by
  induction batches with
  | nil => intro series pointsNum; simp [drainCursor, samplesOf_nil]
  | cons a rest ih =>
    intro series pointsNum
    by_cases h : a.length = 0
    · simp [drainCursor, h, samplesOf_cons_empty conv a rest h]
    · simp only [drainCursor, h, if_false, appendSamples_eq, ih, samplesOf_cons conv a rest h,
        List.append_assoc, List.length_append, List.length_map, Nat.cast_add]
      congr 1
      omega

/-- Draining a cursor from scratch gives the series of all its samples, or no series
when it yields none, and counts the samples. -/
theorem drainCursor_none {α : Type} (conv : α → Float64) (labels : List LabelPair)
    (batches : List (CursorArray α)) (pointsNum : Int) :
    drainCursor conv labels batches none pointsNum =
      (if samplesOf conv batches = [] then none
        else some { Labels := labels, Samples := samplesOf conv batches },
        pointsNum + (samplesOf conv batches).length) := by
  cases batches with
  | nil => simp [drainCursor, samplesOf_nil]
  | cons a rest =>
    by_cases h : a.length = 0
    · simp [drainCursor, h, samplesOf_cons_empty conv a rest h]
    · have hne : a ≠ [] := by
        intro ha; simp [ha] at h
      simp only [drainCursor, h, if_false, appendSamples_eq, drainCursor_some,
        samplesOf_cons conv a rest h, List.nil_append, List.append_assoc,
        List.length_append, List.length_map, Nat.cast_add]
      simp only [List.append_eq_nil, List.map_eq_nil_iff, hne, false_and, if_false]
      congr 1
      omega

/-- With a positive `slimit` and no `limit`, over float and integer cursors, the loop
ends without error and appends the first series with data, up to `slimit` in all. -/
theorem readLoop_slimit (ext : Ext) (slimit limit : Int) (hs : 0 < slimit)
    (hl : limit ≤ 0) : ∀ (rs : ResultSet) (i : Nat) (st : ReadState),
    ResultSet.allFloatOrInteger rs → st.seriesNum = st.Timeseries.length →
    (readLoop ext slimit limit rs i st).2 = none ∧
    (readLoop ext slimit limit rs i st).1.Timeseries =
      st.Timeseries ++
        (rs.filterMap (Series.timeSeries ext)).take (slimit - st.seriesNum).toNat := by
  intro rs
  induction rs with
  | nil => intro i st _ _; simp [readLoop]
  | cons s rest ih =>
    intro i st hall hnum
    have hrest : ResultSet.allFloatOrInteger rest := fun x hx => hall x (List.mem_cons_of_mem _ hx)
    have hlim : ¬ (limit > 0 ∧ st.pointsNum ≥ limit) := by omega
    by_cases hfull : slimit > 0 ∧ st.seriesNum ≥ slimit
    · have h0 : (slimit - st.seriesNum).toNat = 0 := by omega
      simp [readLoop, hfull, h0]
    · simp only [readLoop, hfull, hlim, if_false]
      have step : ∀ (drained : Option TimeSeries × Int) (st0 : ReadState),
          st0.Timeseries = st.Timeseries → st0.seriesNum = st.seriesNum →
          drained.1 = Series.timeSeries ext s →
          (readLoop ext slimit limit rest (i + 1) (st0.addSeries i drained)).2 = none ∧
          (readLoop ext slimit limit rest (i + 1) (st0.addSeries i drained)).1.Timeseries =
            st.Timeseries ++ ((s :: rest).filterMap (Series.timeSeries ext)).take
              (slimit - st.seriesNum).toNat := by
        intro drained st0 h1 h2 h3
        cases hd : drained.1 with
        | none =>
          have hst : (st0.addSeries i drained).Timeseries = st.Timeseries ∧
              (st0.addSeries i drained).seriesNum = st.seriesNum := by
            simp [ReadState.addSeries, hd, h1, h2]
          have := ih (i + 1) (st0.addSeries i drained) hrest (by rw [hst.1, hst.2, hnum])
          rw [hst.1, hst.2] at this
          rw [List.filterMap_cons, ← h3, hd]
          exact this
        | some series =>
          have hst : (st0.addSeries i drained).Timeseries = st.Timeseries ++ [series] ∧
              (st0.addSeries i drained).seriesNum = st.seriesNum + 1 := by
            simp [ReadState.addSeries, hd, h1, h2]
          have := ih (i + 1) (st0.addSeries i drained) hrest (by
            rw [hst.1, hst.2, hnum]; simp)
          rw [hst.1, hst.2] at this
          rw [List.filterMap_cons, ← h3, hd]
          have hk : (slimit - st.seriesNum).toNat =
              (slimit - (st.seriesNum + 1)).toNat + 1 := by omega
          rw [hk, List.take_succ_cons]
          simpa using this
      cases hc : s.Cursor with
      | none =>
        have hts : Series.timeSeries ext s = none := by simp [Series.timeSeries, hc]
        simp only [List.filterMap_cons, hts]
        exact ih (i + 1) st hrest hnum
      | some cur =>
        have hsup := hall s (List.mem_cons_self _ _) cur hc
        cases cur with
        | FloatArrayCursor batches =>
          simp only
          apply step
          · rfl
          · rfl
          · simp only [drainCursor_none, Series.timeSeries, hc]
        | IntegerArrayCursor batches =>
          simp only
          apply step
          · rfl
          · rfl
          · simp only [drainCursor_none, Series.timeSeries, hc]
        | UnsignedArrayCursor b => simp [Cursor.isFloatOrInteger] at hsup
        | BooleanArrayCursor b => simp [Cursor.isFloatOrInteger] at hsup
        | StringArrayCursor b => simp [Cursor.isFloatOrInteger] at hsup
        | other t => simp [Cursor.isFloatOrInteger] at hsup

/-- C9: a successful `GetReadResponse` returns a response with exactly one query result,
whatever the result set and the limits; for the absent result set and for the result set
with no series it succeeds and that query result has no time series. -/
theorem C9_one_query_result (ext : Ext) (rs : Option ResultSet) (slimit limit : Int) :
    (∀ resp, GetReadResponse ext rs slimit limit = .ok resp → resp.Results.length = 1) ∧
    GetReadResponse ext none slimit limit = .ok { Results := [{ Timeseries := [] }] } ∧
    GetReadResponse ext (some []) slimit limit =
      .ok { Results := [{ Timeseries := [] }] } := by
  refine ⟨?_, rfl, rfl⟩
  intro resp h
  cases rs with
  | none =>
    simp only [GetReadResponse, GetReadResponseRun, Except.ok.injEq] at h
    subst h; rfl
  | some rs =>
    simp only [GetReadResponse, GetReadResponseRun] at h
    cases hr : readLoop ext slimit limit rs 0 ReadState.init with
    | mk st e =>
      cases e with
      | none =>
        simp only [hr, Except.ok.injEq] at h
        subst h; rfl
      | some e => simp [hr] at h

/-- C9 on the result set of two series, with `slimit = 1`. -/
theorem C9_one_query_result_witness :
    ∃ resp, GetReadResponse sampleExt (some twoSeries) 1 0 = .ok resp ∧
      resp.Results.length = 1 :=
  ⟨_, rfl, (C9_one_query_result sampleExt (some twoSeries) 1 0).1 _ rfl⟩

/-- C10: with a positive `slimit` and `limit ≤ 0`, over a result set whose cursors are
all float or integer valued, the buffered drain succeeds and returns exactly the first
`slimit` series that have at least one sample (all of them if there are fewer), in
result-set order, each with all of its samples. -/
theorem C10_slimit_truncates_series (ext : Ext) (rs : ResultSet) (slimit limit : Int)
    (hs : 0 < slimit) (hl : limit ≤ 0) (hall : ResultSet.allFloatOrInteger rs) :
    GetReadResponse ext (some rs) slimit limit =
      .ok { Results := [{ Timeseries :=
        (rs.filterMap (Series.timeSeries ext)).take slimit.toNat }] } := by
  have h := readLoop_slimit ext slimit limit hs hl rs 0 ReadState.init hall rfl
  simp only [GetReadResponse, GetReadResponseRun]
  cases hr : readLoop ext slimit limit rs 0 ReadState.init with
  | mk st e =>
    rw [hr] at h
    obtain ⟨h1, h2⟩ := h
    simp only at h1 h2
    subst h1
    simp only [h2, ReadState.init, List.nil_append, sub_zero]

/-- C10 on two series of 3 and 5 samples with `slimit = 1` and `limit = 0`: the result is
the first series alone, with its 3 samples. -/
theorem C10_slimit_truncates_series_witness :
    GetReadResponse sampleExt (some twoSeries) 1 0 =
      .ok { Results := [{ Timeseries := [{
        Labels := [{ Name := "host", Value := "a" }],
        Samples := [{ TimestampMs := 1, Value := { bits := 0 } },
                    { TimestampMs := 2, Value := { bits := 0 } },
                    { TimestampMs := 3, Value := { bits := 0 } }] }] }] } :=
  (C10_slimit_truncates_series sampleExt twoSeries 1 0 (by decide) (by decide)
    (by simp [ResultSet.allFloatOrInteger, twoSeries, Cursor.isFloatOrInteger])).trans
    rfl

/-! ## The buffered materializer: limits and unsupported cursors -/

theorem seriesCount_cons (ext : Ext) (s : Series) (rest : ResultSet) :
    ResultSet.seriesCount ext (s :: rest) =
      (s.timeSeries ext).toList.length + ResultSet.seriesCount ext rest := by
  unfold ResultSet.seriesCount
  cases h : s.timeSeries ext with
  | none => simp [List.filterMap_cons, h]
  | some series => simp [List.filterMap_cons, h]; omega

theorem sampleCount_cons (ext : Ext) (s : Series) (rest : ResultSet) :
    ResultSet.sampleCount ext (s :: rest) =
      s.sampleCount ext + ResultSet.sampleCount ext rest := by
  simp [ResultSet.sampleCount]

/-- One iteration of the buffered loop on a float or integer series, when no limit is
reached: the time series of the series, if any, is appended and counted. -/
theorem readLoop_cons_drained (ext : Ext) (slimit limit : Int) (s : Series)
    (rest : ResultSet) (i : Nat) (st : ReadState) (cur : Cursor)
    (hc : s.Cursor = some cur) (hsup : cur.isFloatOrInteger = true)
    (hs : ¬ (slimit > 0 ∧ st.seriesNum ≥ slimit))
    (hl : ¬ (limit > 0 ∧ st.pointsNum ≥ limit)) :
    readLoop ext slimit limit (s :: rest) i st =
      readLoop ext slimit limit rest (i + 1)
        { Timeseries := st.Timeseries ++ (s.timeSeries ext).toList,
          seriesNum := st.seriesNum + (s.timeSeries ext).toList.length,
          pointsNum := st.pointsNum + s.sampleCount ext,
          events := st.events ++ [.Cursor i, .Close i] } := by
  cases cur with
  | FloatArrayCursor batches =>
    simp only [readLoop, hs, hl, if_false, hc, drainCursor_none, ReadState.addSeries,
      Series.timeSeries, Series.sampleCount]
    by_cases hempty : samplesOf id batches = [] <;> simp [hempty]
  | IntegerArrayCursor batches =>
    simp only [readLoop, hs, hl, if_false, hc, drainCursor_none, ReadState.addSeries,
      Series.timeSeries, Series.sampleCount]
    by_cases hempty : samplesOf ext.float64 batches = [] <;> simp [hempty]
  | UnsignedArrayCursor b => simp [Cursor.isFloatOrInteger] at hsup
  | BooleanArrayCursor b => simp [Cursor.isFloatOrInteger] at hsup
  | StringArrayCursor b => simp [Cursor.isFloatOrInteger] at hsup
  | other t => simp [Cursor.isFloatOrInteger] at hsup

/-- An unsupported cursor, or one of an unknown type, ends the buffered loop with an
error when it is reached. -/
theorem readLoop_cons_unsupported (ext : Ext) (slimit limit : Int) (s : Series)
    (rest : ResultSet) (i : Nat) (st : ReadState) (cur : Cursor)
    (hc : s.Cursor = some cur) (hsup : cur.isFloatOrInteger = false)
    (hs : ¬ (slimit > 0 ∧ st.seriesNum ≥ slimit))
    (hl : ¬ (limit > 0 ∧ st.pointsNum ≥ limit)) :
    (readLoop ext slimit limit (s :: rest) i st).2 ≠ none := by
  cases cur with
  | FloatArrayCursor b => simp [Cursor.isFloatOrInteger] at hsup
  | IntegerArrayCursor b => simp [Cursor.isFloatOrInteger] at hsup
  | UnsignedArrayCursor b => simp [readLoop, hs, hl, hc]
  | BooleanArrayCursor b => simp [readLoop, hs, hl, hc]
  | StringArrayCursor b => simp [readLoop, hs, hl, hc]
  | other t => simp [readLoop, hs, hl, hc]

/-- When the series before a boolean series do not use up a limit, the buffered loop
ends with an error. -/
theorem readLoop_boolean (ext : Ext) (slimit limit : Int) (b : Series)
    (batches : List (CursorArray Bool)) (after : ResultSet)
    (hb : b.Cursor = some (.BooleanArrayCursor batches)) :
    ∀ (before : ResultSet) (i : Nat) (st : ReadState),
    ¬ (slimit > 0 ∧ st.seriesNum + (ResultSet.seriesCount ext before : Int) ≥ slimit) →
    ¬ (limit > 0 ∧ st.pointsNum + (ResultSet.sampleCount ext before : Int) ≥ limit) →
    (readLoop ext slimit limit (before ++ b :: after) i st).2 ≠ none := by
  intro before
  induction before with
  | nil =>
    intro i st hs hl
    simp only [ResultSet.seriesCount, ResultSet.sampleCount, List.filterMap_nil,
      List.length_nil, List.map_nil, List.sum_nil, Nat.cast_zero, add_zero] at hs hl
    exact readLoop_cons_unsupported ext slimit limit b after i st _ hb rfl hs hl
  | cons s rest ih =>
    intro i st hs hl
    rw [seriesCount_cons] at hs
    rw [sampleCount_cons] at hl
    have hs0 : ¬ (slimit > 0 ∧ st.seriesNum ≥ slimit) := by
      push_cast at hs; omega
    have hl0 : ¬ (limit > 0 ∧ st.pointsNum ≥ limit) := by
      push_cast at hl; omega
    rw [List.cons_append]
    cases hc : s.Cursor with
    | none =>
      have hts : s.timeSeries ext = none := by simp [Series.timeSeries, hc]
      have hcnt : s.sampleCount ext = 0 := by simp [Series.sampleCount, hts]
      simp only [readLoop, hs0, hl0, if_false, hc]
      apply ih
      · simpa [hts] using hs
      · simpa [hcnt] using hl
    | some cur =>
      cases hsup : cur.isFloatOrInteger with
      | false => exact readLoop_cons_unsupported ext slimit limit s _ i st cur hc hsup hs0 hl0
      | true =>
        rw [readLoop_cons_drained ext slimit limit s _ i st cur hc hsup hs0 hl0]
        apply ih
        · simp only; push_cast at hs ⊢; omega
        · simp only; push_cast at hl ⊢; omega

/-- C11, as stated, fails when a limit ends the loop first: with `slimit = 1` the float
series before the boolean one already fills the limit, the boolean cursor is never
looked at, and the call returns a response with that one series. -/
theorem C11_counterexample :
    (∃ b ∈ floatThenBoolean, ∃ batches, b.Cursor = some (.BooleanArrayCursor batches)) ∧
    GetReadResponse sampleExt (some floatThenBoolean) 1 0 =
      .ok { Results := [{ Timeseries := [{
        Labels := [{ Name := "host", Value := "a" }],
        Samples := [{ TimestampMs := 1, Value := { bits := 0 } },
                    { TimestampMs := 2, Value := { bits := 0 } },
                    { TimestampMs := 3, Value := { bits := 0 } }] }] }] } ∧
    ¬ ∃ e, GetReadResponse sampleExt (some floatThenBoolean) 1 0 = .error e := by
  refine ⟨⟨_, List.mem_cons_of_mem _ (List.mem_cons_self _ _), _, rfl⟩, rfl, ?_⟩
  rintro ⟨e, he⟩
  cases he

/-- C11, amended: for every result set with a boolean-valued series, and every `slimit`
and `limit` that the series before it do not use up (`slimit ≤ 0` or fewer than `slimit`
of them have samples, and `limit ≤ 0` or they hold fewer than `limit` samples), the
buffered drain fails with an error and returns no response. -/
theorem C11_boolean_cursor_fails (ext : Ext) (before after : ResultSet) (b : Series)
    (batches : List (CursorArray Bool)) (slimit limit : Int)
    (hb : b.Cursor = some (.BooleanArrayCursor batches))
    (hlim : ¬ limitsReached ext slimit limit before) :
    ∃ e, GetReadResponse ext (some (before ++ b :: after)) slimit limit = .error e := by
  have h := readLoop_boolean ext slimit limit b batches after hb before 0 ReadState.init
    (by simp only [ReadState.init, zero_add]; exact fun h => hlim (Or.inl h))
    (by simp only [ReadState.init, zero_add]; exact fun h => hlim (Or.inr h))
  simp only [GetReadResponse, GetReadResponseRun]
  cases hr : readLoop ext slimit limit (before ++ b :: after) 0 ReadState.init with
  | mk st e =>
    cases e with
    | none => simp [hr] at h
    | some e => exact ⟨e, rfl⟩

/-- C11 amended, on the float series followed by the boolean series with no limits. -/
theorem C11_boolean_cursor_fails_witness :
    ¬ limitsReached sampleExt 0 0 [floatSeries] ∧
    ∃ e, GetReadResponse sampleExt (some floatThenBoolean) 0 0 = .error e :=
  ⟨by simp [limitsReached],
    C11_boolean_cursor_fails sampleExt [floatSeries] [] booleanSeries
      [[(1000000, true)]] 0 0 rfl (by simp [limitsReached])⟩

/-- With no positive limit, over float and integer cursors, the buffered loop ends
without error and appends every series with data. -/
theorem readLoop_unlimited (ext : Ext) (slimit limit : Int) (hs : slimit ≤ 0)
    (hl : limit ≤ 0) : ∀ (rs : ResultSet) (i : Nat) (st : ReadState),
    ResultSet.allFloatOrInteger rs →
    (readLoop ext slimit limit rs i st).2 = none ∧
    (readLoop ext slimit limit rs i st).1.Timeseries =
      st.Timeseries ++ rs.filterMap (Series.timeSeries ext) := by
  intro rs
  induction rs with
  | nil => intro i st _; simp [readLoop]
  | cons s rest ih =>
    intro i st hall
    have hrest : ResultSet.allFloatOrInteger rest :=
      fun x hx => hall x (List.mem_cons_of_mem _ hx)
    have hs0 : ¬ (slimit > 0 ∧ st.seriesNum ≥ slimit) := by omega
    have hl0 : ¬ (limit > 0 ∧ st.pointsNum ≥ limit) := by omega
    cases hc : s.Cursor with
    | none =>
      have hts : s.timeSeries ext = none := by simp [Series.timeSeries, hc]
      simp only [readLoop, hs0, hl0, if_false, hc, List.filterMap_cons, hts]
      exact ih (i + 1) st hrest
    | some cur =>
      have hsup := hall s (List.mem_cons_self _ _) cur hc
      rw [readLoop_cons_drained ext slimit limit s rest i st cur hc hsup hs0 hl0]
      refine ⟨(ih _ _ hrest).1, ?_⟩
      rw [(ih _ _ hrest).2]
      cases hts : s.timeSeries ext <;> simp [List.filterMap_cons, hts]

/-- C17: for `slimit ≤ 0` and `limit ≤ 0`, over a result set whose cursors are all float
or integer valued, the buffered drain returns every series that has at least one sample,
in result-set order, each with all of its samples; and any other non-positive values of
the two limits give the same result. -/
theorem C17_nonpositive_limits_unlimited (ext : Ext) (rs : ResultSet) (slimit limit : Int)
    (hs : slimit ≤ 0) (hl : limit ≤ 0) (hall : ResultSet.allFloatOrInteger rs) :
    GetReadResponse ext (some rs) slimit limit =
      .ok { Results := [{ Timeseries := rs.filterMap (Series.timeSeries ext) }] } ∧
    ∀ slimit1 limit1 : Int, slimit1 ≤ 0 → limit1 ≤ 0 →
      GetReadResponse ext (some rs) slimit1 limit1 =
        GetReadResponse ext (some rs) slimit limit := by
  have key : ∀ a b : Int, a ≤ 0 → b ≤ 0 → GetReadResponse ext (some rs) a b =
      .ok { Results := [{ Timeseries := rs.filterMap (Series.timeSeries ext) }] } := by
    intro a b ha hb
    have h := readLoop_unlimited ext a b ha hb rs 0 ReadState.init hall
    simp only [GetReadResponse, GetReadResponseRun]
    cases hr : readLoop ext a b rs 0 ReadState.init with
    | mk st e =>
      rw [hr] at h
      obtain ⟨h1, h2⟩ := h
      simp only at h1 h2
      subst h1
      simp only [h2, ReadState.init, List.nil_append]
  refine ⟨key slimit limit hs hl, ?_⟩
  intro a b ha hb
  rw [key a b ha hb, key slimit limit hs hl]

/-- C17 on the two series of 3 and 5 samples, with `slimit = 0` and `limit = -1`: both
series are returned, with 3 and 5 samples. -/
theorem C17_nonpositive_limits_unlimited_witness :
    ResultSet.allFloatOrInteger twoSeries ∧
    GetReadResponse sampleExt (some twoSeries) 0 (-1) =
      .ok { Results := [{ Timeseries :=
        twoSeries.filterMap (Series.timeSeries sampleExt) }] } ∧
    ((twoSeries.filterMap (Series.timeSeries sampleExt)).map
      (fun series => series.Samples.length)) = [3, 5] :=
  ⟨by simp [ResultSet.allFloatOrInteger, twoSeries, Cursor.isFloatOrInteger],
    (C17_nonpositive_limits_unlimited sampleExt twoSeries 0 (-1) (by decide) (by decide)
      (by simp [ResultSet.allFloatOrInteger, twoSeries, Cursor.isFloatOrInteger])).1,
    by decide⟩

/-- C18: for every environment (hence the same parser and the same "now"), `db`, `rp`,
measurement and `where`, `GetReadRequest` with `field = ""` makes the same library calls
and returns the same outcome as with `field = "value"`: the same error, or the same
request (source, time range and predicate). -/
theorem C18_field_defaults_to_value (env : Env) (db rp measurement where_ : String) :
    GetReadRequestRun env db rp measurement "" where_ =
      GetReadRequestRun env db rp measurement "value" where_ ∧
    GetReadRequest env db rp measurement "" where_ =
      GetReadRequest env db rp measurement "value" where_ := by
  have h : GetReadRequestRun env db rp measurement "" where_ =
      GetReadRequestRun env db rp measurement "value" where_ := by
    simp [GetReadRequestRun]
  exact ⟨h, by simp only [GetReadRequest, h]⟩

/-- C19, as stated, fails: for `where = "time > 10 AND time < 5"` the condition splits
into the range from 11 to 4, and the returned request has `Start = 11` and `End = 4`. -/
theorem C19_counterexample :
    ∃ rq, GetReadRequest contradictoryEnv "db" "" "cpu" "usage" "time > 10 AND time < 5" =
        .ok rq ∧
      rq.Range = { Start := 11, End := 4 } ∧ ¬ rq.Range.Start ≤ rq.Range.End :=
  ⟨_, rfl, rfl, by decide⟩

/-- C19, amended: every request returned by `GetReadRequest` carries, unchanged, the
time range that splitting the parsed condition produced: `Start` is its minimum and
`End` its maximum. Hence `Start ≤ End` holds exactly when that range has its minimum
below or at its maximum. -/
theorem C19_range_is_copied (env : Env) (db rp measurement field where_ : String)
    (rq : ReadFilterRequest)
    (h : GetReadRequest env db rp measurement field where_ = .ok rq) :
    ∃ expr, env.ParseExpr (conditionText
        (if where_ ≠ "" then "(" ++ where_ ++ ") and " else where_) measurement
        (if field = "" then "value" else field)) = .ok expr ∧
      rq.Range.Start = (env.ConditionExpr expr env.Now).2.1.MinTimeNano ∧
      rq.Range.End = (env.ConditionExpr expr env.Now).2.1.MaxTimeNano ∧
      (rq.Range.Start ≤ rq.Range.End ↔
        (env.ConditionExpr expr env.Now).2.1.MinTimeNano ≤
          (env.ConditionExpr expr env.Now).2.1.MaxTimeNano) := by
  by_cases hdb : db = ""
  · simp [GetReadRequest, GetReadRequestRun, hdb] at h
  by_cases hm : measurement = ""
  · simp [GetReadRequest, GetReadRequestRun, hdb, hm] at h
  cases hmarshal : env.MarshalAny { Database := db, RetentionPolicy := rp } with
  | error e => simp [GetReadRequest, GetReadRequestRun, hdb, hm, hmarshal] at h
  | ok src =>
    cases hparse : env.ParseExpr (conditionText
        (if where_ ≠ "" then "(" ++ where_ ++ ") and " else where_) measurement
        (if field = "" then "value" else field)) with
    | error e =>
      simp only [GetReadRequest, GetReadRequestRun, hdb, hm, if_false, hmarshal,
        hparse] at h
      cases h
    | ok expr =>
      rw [GetReadRequest_eq env db rp measurement field where_ src expr hdb hm hmarshal
        hparse] at h
      refine ⟨expr, rfl, ?_⟩
      cases hn : exprToNode (env.ConditionExpr expr env.Now).1 with
      | error e => simp [hn] at h
      | panic msg => simp [hn] at h
      | ok predicate =>
        simp only [hn, Outcome.ok.injEq] at h
        subst h
        exact ⟨rfl, rfl, Iff.rfl⟩

/-- C19 amended, on `where = "time > 10 AND time < 5"`. -/
theorem C19_range_is_copied_witness :
    ∃ expr, contradictoryEnv.ParseExpr
        "(time > 10 AND time < 5) and _measurement = 'cpu' and _field = 'usage'" =
        .ok expr ∧
      (contradictoryEnv.ConditionExpr expr contradictoryEnv.Now).2.1.MinTimeNano = 11 ∧
      (contradictoryEnv.ConditionExpr expr contradictoryEnv.Now).2.1.MaxTimeNano = 4 :=
  match C19_range_is_copied contradictoryEnv "db" "" "cpu" "usage" "time > 10 AND time < 5"
    _ rfl with
  | ⟨expr, h1, _, _, _⟩ => ⟨expr, h1, rfl, rfl⟩

/-! ## The visitor: order of errors and of visits -/

theorem binaryNode_err (v v' : exprToNodeVisitor) (Op : Token) (hv : v.err = none)
    (h : v.binaryNode Op = .ok v') :
    v'.err = if (comparisonOf Op).isNone && (logicalOf Op).isNone then
      some (.unsupportedOperator Op.String) else none := by
  unfold exprToNodeVisitor.binaryNode at h
  cases hp : v.pop2 with
  | panic msg =>
    rw [hp] at h
    cases Op <;> simp [mapOpToComparison, comparisonOf, logicalOf] at h ⊢ <;>
      (cases h; simp)
  | ok val =>
    obtain ⟨lhs, rhs, v2⟩ := val
    have hl := (pop2_length _ _ _ _ hp).2
    rw [hp] at h
    cases Op <;> simp [mapOpToComparison, comparisonOf, logicalOf] at h ⊢ <;>
      (cases h; simp [exprToNodeVisitor.push, hl, hv])

theorem parenNode_err (v v' : exprToNodeVisitor) (h : v.parenNode = .ok v') :
    v'.err = v.err := by
  unfold exprToNodeVisitor.parenNode at h
  cases hp : v.pop with
  | panic msg => simp [hp] at h
  | ok val =>
    obtain ⟨c, v2⟩ := val
    have hl := (pop_length _ _ _ hp).2
    simp only [hp, MayPanic.ok.injEq] at h
    subst h
    simp [exprToNodeVisitor.push, hl]

/-- From no error, a visit that does not panic ends with the error of the first failing
node in post-order, or with none when no node fails. -/
theorem Visit_err (e : Expr) : ∀ (s : List Node) (v' : exprToNodeVisitor),
    exprToNodeVisitor.Visit { nodes := s, err := none } e = .ok v' →
    v'.err = e.failures.head? := by
  induction e using Expr.induction with
  | binary Op LHS RHS ihl ihr =>
    intro s v' h
    have walk : ∀ (o : Option Expr), (∀ x, o = some x → ∀ (s : List Node)
        (v' : exprToNodeVisitor),
        exprToNodeVisitor.Visit { nodes := s, err := none } x = .ok v' →
        v'.err = x.failures.head?) →
        ∀ (s : List Node) (v' : exprToNodeVisitor),
        Walk { nodes := s, err := none } o = .ok v' →
        v'.err = (operandFailures o).head? := by
      intro o ih s v' h
      cases o with
      | none => simp only [Walk, MayPanic.ok.injEq] at h; subst h; simp [operandFailures]
      | some x => simpa [Walk, operandFailures] using ih x rfl s v' h
    simp only [exprToNodeVisitor.Visit, Option.isSome_none, Bool.false_eq_true,
      if_false] at h
    simp only [Expr.failures, List.append_assoc, List.head?_append]
    cases h1 : Walk { nodes := s, err := none } LHS with
    | panic msg => simp [h1] at h
    | ok v1 =>
      simp only [h1] at h
      have e1 := walk LHS ihl s v1 h1
      cases he1 : v1.err with
      | some err1 =>
        simp only [he1, Option.isSome_some, if_true, MayPanic.ok.injEq] at h
        subst h
        rw [he1] at e1
        simp [he1, ← e1]
      | none =>
        simp only [he1, Option.isSome_none, Bool.false_eq_true, if_false] at h
        rw [he1] at e1
        rw [visitor_eta v1 he1] at h
        cases h2 : Walk { nodes := v1.nodes, err := none } RHS with
        | panic msg => simp [h2] at h
        | ok v2 =>
          simp only [h2] at h
          have e2 := walk RHS ihr v1.nodes v2 h2
          cases he2 : v2.err with
          | some err2 =>
            simp only [he2, Option.isSome_some, if_true, MayPanic.ok.injEq] at h
            subst h
            rw [he2] at e2
            simp [he2, ← e1, ← e2]
          | none =>
            simp only [he2, Option.isSome_none, Bool.false_eq_true, if_false] at h
            rw [he2] at e2
            rw [binaryNode_err v2 v' Op he2 h]
            simp only [← e1, ← e2, Option.none_or]
            split <;> simp
  | paren x ih =>
    intro s v' h
    simp only [exprToNodeVisitor.Visit] at h
    simp only [Expr.failures]
    cases x with
    | none =>
      simp only [Walk, Option.isSome_none, Bool.false_eq_true, if_false] at h
      simp [parenNode_err _ _ h, operandFailures]
    | some c =>
      simp only [Walk] at h
      cases h1 : exprToNodeVisitor.Visit { nodes := s, err := none } c with
      | panic msg => simp [h1] at h
      | ok v1 =>
        simp only [h1] at h
        have e1 := ih c rfl s v1 h1
        cases he1 : v1.err with
        | some err1 =>
          simp only [he1, Option.isSome_some, if_true, MayPanic.ok.injEq] at h
          subst h
          simpa [operandFailures] using e1
        | none =>
          simp only [he1, Option.isSome_none, Bool.false_eq_true, if_false] at h
          rw [parenNode_err _ _ h]
          simpa [operandFailures] using e1
  | leaf e hb hp =>
    intro s v' h
    cases e <;>
      simp [exprToNodeVisitor.Visit, exprToNodeVisitor.push, Expr.failures] at hb hp h ⊢ <;>
      subst h <;> simp [Expr.goType]

/-- From no error, every call of `Visit` starts with no error set. -/
theorem visitCalls_no_error (e : Expr) : ∀ (s : List Node),
    ∀ c ∈ exprToNodeVisitor.visitCalls { nodes := s, err := none } e, c.1 = false := by
  induction e using Expr.induction with
  | binary Op LHS RHS ihl ihr =>
    intro s c hc
    have walk : ∀ (o : Option Expr), (∀ x, o = some x → ∀ (s : List Node),
        ∀ c ∈ exprToNodeVisitor.visitCalls { nodes := s, err := none } x, c.1 = false) →
        ∀ (s : List Node), ∀ c ∈ walkCalls { nodes := s, err := none } o, c.1 = false := by
      intro o ih s c hc
      cases o with
      | none => simp [walkCalls] at hc
      | some x => exact ih x rfl s c (by simpa [walkCalls] using hc)
    simp only [exprToNodeVisitor.visitCalls, Option.isSome_none, Bool.false_eq_true,
      if_false, List.mem_cons, List.mem_append] at hc
    rcases hc with rfl | hc | hc
    · rfl
    · exact walk LHS ihl s c hc
    · cases h1 : Walk { nodes := s, err := none } LHS with
      | panic msg => simp [h1] at hc
      | ok v1 =>
        simp only [h1] at hc
        cases he1 : v1.err with
        | some err1 => simp [he1] at hc
        | none =>
          simp only [he1, Option.isSome_none, Bool.false_eq_true, if_false] at hc
          rw [visitor_eta v1 he1] at hc
          exact walk RHS ihr v1.nodes c hc
  | paren x ih =>
    intro s c hc
    simp only [exprToNodeVisitor.visitCalls, Option.isSome_none, List.mem_cons] at hc
    rcases hc with rfl | hc
    · rfl
    · cases x with
      | none => simp [walkCalls] at hc
      | some y => exact ih y rfl s c (by simpa [walkCalls] using hc)
  | leaf e hb hp =>
    intro s c hc
    cases e <;> simp [exprToNodeVisitor.visitCalls] at hb hp hc <;> simp [hc]

/-- C20: when `exprToNode` returns an error, it is the error of the first failing node
in post-order (left operand, right operand, then the operator), and no call of `Visit`
is made once an error is set: every visit of the walk starts with no error recorded. -/
theorem C20_first_error_wins (e : Expr) (err : Err)
    (h : exprToNode (some e) = .error err) :
    e.failures.head? = some err ∧
    ∀ c ∈ exprToNodeVisitor.visitCalls { nodes := [], err := none } e, c.1 = false := by
  refine ⟨?_, visitCalls_no_error e []⟩
  unfold exprToNode at h
  simp only [Walk] at h
  cases hv : exprToNodeVisitor.Visit { nodes := [], err := none } e with
  | panic msg => simp [hv] at h
  | ok v =>
    have he := Visit_err e [] v hv
    simp only [hv] at h
    cases hve : v.err with
    | some e1 =>
      simp only [hve, Outcome.error.injEq] at h
      rw [← he, hve, h]
    | none =>
      simp only [hve] at h
      cases hn : v.nodes <;> simp [hn] at h

/-- C20 on `true + NULL`, a binary expression with an unsupported operator and two
operands of unsupported kinds: the error is that of the left operand, and the visits are
those of the binary expression and of its left operand; the right operand is not
visited. -/
theorem C20_first_error_wins_witness :
    exprToNode (some (.BinaryExpr .ADD (some (.BooleanLiteral true)) (some .NilLiteral))) =
      .error (.unsupportedExpression "*influxql.BooleanLiteral") ∧
    (Expr.BinaryExpr .ADD (some (.BooleanLiteral true)) (some .NilLiteral)).failures.head? =
      some (.unsupportedExpression "*influxql.BooleanLiteral") ∧
    exprToNodeVisitor.visitCalls { nodes := [], err := none }
        (.BinaryExpr .ADD (some (.BooleanLiteral true)) (some .NilLiteral)) =
      [(false, .BinaryExpr .ADD (some (.BooleanLiteral true)) (some .NilLiteral)),
        (false, .BooleanLiteral true)] :=
  ⟨rfl, (C20_first_error_wins
    (.BinaryExpr .ADD (some (.BooleanLiteral true)) (some .NilLiteral))
    (.unsupportedExpression "*influxql.BooleanLiteral") rfl).1, rfl⟩

/-! ## The streaming path: `Server.Raw` -/

theorem sentSeries_append (a b : List RawEvent) :
    sentSeries (a ++ b) = sentSeries a ++ sentSeries b := by
  induction a with
  | nil => rfl
  | cons x rest ih => cases x <;> simp [sentSeries, ih]

/-- Below a positive `limit`, the inner loop appends the samples of the batch up to the
number still allowed, and reports whether it reached the limit. -/
theorem appendSamplesLimit_eq {α : Type} (conv : α → Float64) (limit : Int)
    (hlimit : 0 < limit) (a : CursorArray α) :
    ∀ (samples : List Sample) (pointsNum : Int), pointsNum < limit →
    appendSamplesLimit conv limit a samples pointsNum =
      (samples ++ (a.map (fun p =>
          { TimestampMs := p.1.tdiv millisecond, Value := conv p.2 })).take
          (limit - pointsNum).toNat,
        pointsNum + min (a.length : Int) (limit - pointsNum),
        decide (limit - pointsNum ≤ (a.length : Int))) := by
  induction a with
  | nil =>
    intro samples pointsNum hp
    have : ¬ limit - pointsNum ≤ 0 := by omega
    simp [appendSamplesLimit, this]
    omega
  | cons x rest ih =>
    intro samples pointsNum hp
    obtain ⟨ts, value⟩ := x
    simp only [appendSamplesLimit]
    by_cases hlast : limit > 0 ∧ pointsNum + 1 ≥ limit
    · have hk : (limit - pointsNum).toNat = 1 := by omega
      simp only [hlast, and_self, if_true, hk, List.map_cons, List.take_succ_cons,
        List.take_zero, List.length_cons, Nat.cast_add, Nat.cast_one]
      refine Prod.ext rfl (Prod.ext ?_ ?_)
      · simp only; omega
      · simp only; symm; rw [decide_eq_true_iff]; omega
    · have hp1 : pointsNum + 1 < limit := by omega
      have hk : (limit - pointsNum).toNat = (limit - (pointsNum + 1)).toNat + 1 := by omega
      simp only [hlast, if_false, ih _ _ hp1, hk, List.map_cons, List.take_succ_cons,
        List.append_assoc, List.singleton_append, List.length_cons, Nat.cast_add,
        Nat.cast_one]
      refine Prod.ext rfl (Prod.ext ?_ ?_)
      · simp only; omega
      · simp only; rw [decide_eq_decide]; omega

/-- Below a positive `limit`, draining a cursor appends its samples up to the number
still allowed. -/
theorem drainCursorLimit_eq {α : Type} (conv : α → Float64) (limit : Int)
    (hlimit : 0 < limit) (batches : List (CursorArray α)) :
    ∀ (samples : List Sample) (pointsNum : Int), pointsNum < limit →
    drainCursorLimit conv limit batches samples pointsNum =
      (samples ++ (samplesOf conv batches).take (limit - pointsNum).toNat,
        pointsNum + min ((samplesOf conv batches).length : Int) (limit - pointsNum)) := by
  induction batches with
  | nil =>
    intro samples pointsNum hp
    simp [drainCursorLimit, samplesOf_nil]
    omega
  | cons a rest ih =>
    intro samples pointsNum hp
    by_cases h : a.length = 0
    · simp [drainCursorLimit, h, samplesOf_cons_empty conv a rest h]
      omega
    · simp only [drainCursorLimit, h, if_false, appendSamplesLimit_eq conv limit hlimit a _ _ hp,
        samplesOf_cons conv a rest h]
      have hml : (a.map (fun p : Int × α =>
          Sample.mk (conv p.2) (p.1.tdiv millisecond))).length = a.length := by
        rw [List.length_map]
      generalize a.map (fun p : Int × α =>
          Sample.mk (conv p.2) (p.1.tdiv millisecond)) = m at hml ⊢
      by_cases hfull : limit - pointsNum ≤ (a.length : Int)
      · have hlen : (limit - pointsNum).toNat ≤ m.length := by omega
        simp only [hfull, decide_True, List.take_append_of_le_length hlen]
        refine Prod.ext rfl ?_
        simp only [List.length_append, Nat.cast_add]
        omega
      · have hp1 : pointsNum + (a.length : Int) < limit := by omega
        have hmin : min (a.length : Int) (limit - pointsNum) = a.length := by omega
        have hlen : m.length ≤ (limit - pointsNum).toNat := by omega
        have hk : (limit - pointsNum).toNat - m.length =
            (limit - (pointsNum + (a.length : Int))).toNat := by omega
        simp only [hfull, decide_False, hmin, List.take_of_length_le hlen, ih _ _ hp1,
          List.take_append_eq_append_take, hk, List.append_assoc]
        refine Prod.ext rfl ?_
        simp only [List.length_append, Nat.cast_add]
        omega

/-- C12: on the streaming path with a positive `limit`, for a result set of a single
float or integer series that has at least `limit` samples, in batches of any sizes, and
for every `slimit`: exactly one series is sent, it holds exactly the first `limit`
samples of the series, in order, and the call returns without error. -/
theorem C12_stream_limit_single_series (ext : Ext) (stream : RawServer) (s : Series)
    (cur : Cursor) (slimit limit : Int) (hl : 0 < limit) (hc : s.Cursor = some cur)
    (hsup : cur.isFloatOrInteger = true) (hn : limit ≤ (s.samples ext).length) :
    sentSeries (rawResultSet ext stream (some [s]) slimit limit).1 =
      [{ Labels := s.labels ext, Samples := (s.samples ext).take limit.toNat }] ∧
    ((s.samples ext).take limit.toNat).length = limit.toNat ∧
    (rawResultSet ext stream (some [s]) slimit limit).2 = .ok () := by
  have hs0 : ¬ (slimit > 0 ∧ (0 : Int) ≥ slimit) := by omega
  have hl0 : ¬ (limit > 0 ∧ (0 : Int) ≥ limit) := by omega
  have hl1 : ¬ limit ≤ 0 := by omega
  have hlen : ((s.samples ext).take limit.toNat).length = limit.toNat := by
    rw [List.length_take]; omega
  have hpos : ((s.samples ext).take limit.toNat).length > 0 := by omega
  refine ⟨?_, hlen, ?_⟩ <;>
  · cases cur with
    | FloatArrayCursor batches =>
      have hsam : s.samples ext = samplesOf id batches := by simp [Series.samples, hc]
      rw [hsam] at hpos hn
      have hne : 0 < (samplesOf id batches).length := by omega
      simp [rawResultSet, rawLoop, RawState.init, hc, hs0, hl0,
        drainCursorLimit_eq id limit hl batches [] 0 hl, RawState.add, hpos,
        sentSeries, Series.labels, hsam, hl, hne, hl1]
    | IntegerArrayCursor batches =>
      have hsam : s.samples ext = samplesOf ext.float64 batches := by
        simp [Series.samples, hc]
      rw [hsam] at hpos hn
      have hne : 0 < (samplesOf ext.float64 batches).length := by omega
      simp [rawResultSet, rawLoop, RawState.init, hc, hs0, hl0,
        drainCursorLimit_eq ext.float64 limit hl batches [] 0 hl, RawState.add, hpos,
        sentSeries, Series.labels, hsam, hl, hne, hl1]
    | UnsignedArrayCursor b => simp [Cursor.isFloatOrInteger] at hsup
    | BooleanArrayCursor b => simp [Cursor.isFloatOrInteger] at hsup
    | StringArrayCursor b => simp [Cursor.isFloatOrInteger] at hsup
    | other t => simp [Cursor.isFloatOrInteger] at hsup

/-- C12 on one series of 10 samples with `limit = 4`: one message, with the first 4
samples. -/
theorem C12_stream_limit_single_series_witness :
    (tenSampleSeries.samples sampleExt).length = 10 ∧
    sentSeries (rawResultSet sampleExt okStream (some tenSamples) 0 4).1 =
      [{ Labels := [{ Name := "host", Value := "a" }],
         Samples := [{ TimestampMs := 1, Value := { bits := 0 } },
                     { TimestampMs := 2, Value := { bits := 0 } },
                     { TimestampMs := 3, Value := { bits := 0 } },
                     { TimestampMs := 4, Value := { bits := 0 } }] }] :=
  ⟨by decide,
    (C12_stream_limit_single_series sampleExt okStream tenSampleSeries _ 0 4 (by decide)
      rfl rfl (by decide)).1.trans (by decide)⟩

/-- C13 fails on the code: a float cursor is obtained and never closed. For one series
of 10 samples and `limit = 4` the call returns after the cursor call, the send and the
closing of the result set, with no `Close` of cursor 0 (the `goto ADD` passes over
`cur.Close()`); and with `slimit = 1` the cursor of the second series is obtained, the
call returns at the `slimit` test, and that cursor is not closed either. -/
theorem C13_stream_cursor_not_closed :
    (rawResultSet sampleExt okStream (some tenSamples) 0 4).1 =
      [.Cursor 0,
        .Send { Labels := [{ Name := "host", Value := "a" }],
                Samples := [{ TimestampMs := 1, Value := { bits := 0 } },
                            { TimestampMs := 2, Value := { bits := 0 } },
                            { TimestampMs := 3, Value := { bits := 0 } },
                            { TimestampMs := 4, Value := { bits := 0 } }] } none,
        .CloseResultSet] ∧
    RawEvent.Close 0 ∉ (rawResultSet sampleExt okStream (some tenSamples) 0 4).1 ∧
    (rawResultSet sampleExt okStream (some twoSeries) 1 0).1 =
      [.Cursor 0,
        .Send { Labels := [{ Name := "host", Value := "a" }],
                Samples := [{ TimestampMs := 1, Value := { bits := 0 } },
                            { TimestampMs := 2, Value := { bits := 0 } },
                            { TimestampMs := 3, Value := { bits := 0 } }] } none,
        .Cursor 1, .CloseResultSet] ∧
    RawEvent.Close 1 ∉ (rawResultSet sampleExt okStream (some twoSeries) 1 0).1 := by
  refine ⟨by decide, by decide, by decide, by decide⟩

/-- C15 fails on the code: when `ReadFilter` returns the `nil` result set and no error,
`Server.Raw` calls `rs.Next()` on it and panics, for every request that compiles, every
stream and all limits. -/
theorem C15_nil_result_set_panics (ext : Ext) (stream : RawServer) (slimit limit : Int) :
    rawResultSet ext stream none slimit limit =
      ([], .panic "invalid memory address or nil pointer dereference") ∧
    Server.RawRun sampleEnv ext (constStore none) (cpuUsage slimit limit) stream =
      ([], .panic "invalid memory address or nil pointer dereference") := by
  exact ⟨rfl, rfl⟩

/-! ## What the results of the two loops depend on -/

theorem sentSeries_snoc_cursor (ev : List RawEvent) (i : Nat) :
    sentSeries (ev ++ [.Cursor i]) = sentSeries ev := by
  simp [sentSeries_append, sentSeries]

theorem sentSeries_snoc_close (ev : List RawEvent) (i : Nat) :
    sentSeries (ev ++ [.Close i]) = sentSeries ev := by
  simp [sentSeries_append, sentSeries]

theorem sentSeries_snoc_send (ev : List RawEvent) (series : TimeSeries)
    (r : Option String) : sentSeries (ev ++ [.Send series r]) = sentSeries ev ++ [series] := by
  simp [sentSeries_append, sentSeries]

/-- The code at `ADD` changes the counters and the series sent in a way that does not
depend on the stream nor on the other events. -/
theorem RawState.add_data (st st1 : RawState) (stream stream1 : RawServer)
    (labels : List LabelPair) (drained : List Sample × Int) (h : st.data = st1.data) :
    (st.add stream labels drained).data = (st1.add stream1 labels drained).data := by
  simp only [RawState.data, Prod.mk.injEq] at h
  obtain ⟨h1, h2, h3⟩ := h
  unfold RawState.add
  split
  · simp [RawState.data, sentSeries_snoc_send, h1, h3]
  · simp [RawState.data, h1, h3]

/-- If the streaming loop gives the same result on two lists of series from states with
the same data, it still does after one more series is put in front of both. -/
theorem rawLoop_congr_cons (ext : Ext) (stream stream1 : RawServer) (slimit limit : Int)
    (rs1 rs2 : ResultSet)
    (H : ∀ (i j : Nat) (st st1 : RawState), st.data = st1.data →
      rawResult (rawLoop ext stream slimit limit rs1 i st) =
        rawResult (rawLoop ext stream1 slimit limit rs2 j st1)) :
    ∀ (x : Series) (i j : Nat) (st st1 : RawState), st.data = st1.data →
      rawResult (rawLoop ext stream slimit limit (x :: rs1) i st) =
        rawResult (rawLoop ext stream1 slimit limit (x :: rs2) j st1) := by
  intro x i j st st1 h
  have h' := h
  simp only [RawState.data, Prod.mk.injEq] at h'
  obtain ⟨h1, h2, h3⟩ := h'
  have hc : ({ st with events := st.events ++ [.Cursor i] } : RawState).data =
      ({ st1 with events := st1.events ++ [.Cursor j] } : RawState).data := by
    simp [RawState.data, sentSeries_snoc_cursor, h1, h2, h3]
  cases hcur : x.Cursor with
  | none => simp only [rawLoop, hcur]; exact H _ _ _ _ h
  | some cur =>
    simp only [rawLoop, hcur, h1, h2]
    split
    · simp [rawResult, sentSeries_snoc_cursor, h3]
    · split
      · simp [rawResult, sentSeries_snoc_cursor, h3]
      · cases cur with
        | FloatArrayCursor batches =>
          simp only
          apply H
          have := RawState.add_data _ _ stream stream1
            (ext.ModelTagsToLabelPairs (ext.RemoveInfluxSystemTags x.Tags))
            (drainCursorLimit id limit batches [] st1.pointsNum) hc
          simpa [h1, h2] using this
        | IntegerArrayCursor batches =>
          simp only
          apply H
          have := RawState.add_data _ _ stream stream1
            (ext.ModelTagsToLabelPairs (ext.RemoveInfluxSystemTags x.Tags))
            (drainCursorLimit ext.float64 limit batches [] st1.pointsNum) hc
          simpa [h1, h2] using this
        | UnsignedArrayCursor b =>
          simp [rawResult, sentSeries_append, sentSeries, h3]
        | BooleanArrayCursor b =>
          simp [rawResult, sentSeries_append, sentSeries, h3]
        | StringArrayCursor b =>
          simp [rawResult, sentSeries_append, sentSeries, h3]
        | other t => simp [rawResult, sentSeries_snoc_cursor, h3]

/-- The result of the streaming loop depends on the state through its data only, and
neither on the position nor on what `Send` returns. -/
theorem rawLoop_data (ext : Ext) (stream stream1 : RawServer) (slimit limit : Int)
    (rs : ResultSet) : ∀ (i j : Nat) (st st1 : RawState), st.data = st1.data →
    rawResult (rawLoop ext stream slimit limit rs i st) =
      rawResult (rawLoop ext stream1 slimit limit rs j st1) := by
  induction rs with
  | nil =>
    intro i j st st1 h
    simp only [RawState.data, Prod.mk.injEq] at h
    simp [rawLoop, rawResult, h.2.2]
  | cons x rest ih =>
    intro i j st st1 h
    exact rawLoop_congr_cons ext stream stream1 slimit limit rest rest ih x i j st st1 h

/-- Two lists of series on which the streaming loop agrees still agree after the same
series are put in front of both. -/
theorem rawLoop_congr_append (ext : Ext) (stream stream1 : RawServer) (slimit limit : Int)
    (rs1 rs2 : ResultSet)
    (H : ∀ (i j : Nat) (st st1 : RawState), st.data = st1.data →
      rawResult (rawLoop ext stream slimit limit rs1 i st) =
        rawResult (rawLoop ext stream1 slimit limit rs2 j st1)) :
    ∀ (before : ResultSet) (i j : Nat) (st st1 : RawState), st.data = st1.data →
      rawResult (rawLoop ext stream slimit limit (before ++ rs1) i st) =
        rawResult (rawLoop ext stream1 slimit limit (before ++ rs2) j st1) := by
  intro before
  induction before with
  | nil => exact H
  | cons x rest ih =>
    intro i j st st1 h
    exact rawLoop_congr_cons ext stream stream1 slimit limit _ _ ih x i j st st1 h

/-- Once a limit is reached the streaming loop sends nothing more and returns no
error. -/
theorem rawLoop_reached (ext : Ext) (stream : RawServer) (slimit limit : Int)
    (rs : ResultSet) : ∀ (i : Nat) (st : RawState),
    (slimit > 0 ∧ st.seriesNum ≥ slimit) ∨ (limit > 0 ∧ st.pointsNum ≥ limit) →
    rawResult (rawLoop ext stream slimit limit rs i st) = (none, sentSeries st.events) := by
  induction rs with
  | nil => intro i st _; simp [rawLoop, rawResult]
  | cons x rest ih =>
    intro i st h
    cases hcur : x.Cursor with
    | none => simp only [rawLoop, hcur]; exact ih _ _ h
    | some cur =>
      simp only [rawLoop, hcur]
      rcases h with h | h
      · simp [h, rawResult, sentSeries_snoc_cursor]
      · split
        · simp [rawResult, sentSeries_snoc_cursor]
        · simp [h, rawResult, sentSeries_snoc_cursor]

/-- A float or integer series whose first batch is empty can be left out of the list the
streaming loop runs on. -/
theorem rawLoop_skip_empty (ext : Ext) (stream : RawServer) (slimit limit : Int)
    (s0 : Series) (h0 : s0.firstBatchEmpty = true) (rest : ResultSet) :
    ∀ (i j : Nat) (st st1 : RawState), st.data = st1.data →
    rawResult (rawLoop ext stream slimit limit (s0 :: rest) i st) =
      rawResult (rawLoop ext stream slimit limit rest j st1) := by
  intro i j st st1 h
  have h' := h
  simp only [RawState.data, Prod.mk.injEq] at h'
  obtain ⟨h1, h2, h3⟩ := h'
  have key : ∀ (α : Type) (conv : α → Float64) (batches : List (CursorArray α)),
      (batches = [] ∨ ∃ a t, batches = a :: t ∧ a.length = 0) →
      rawResult (if slimit > 0 ∧ st.seriesNum ≥ slimit then
          (({ st with events := st.events ++ [.Cursor i] } : RawState), none)
        else if limit > 0 ∧ st.pointsNum ≥ limit then
          (({ st with events := st.events ++ [.Cursor i] } : RawState), none)
        else rawLoop ext stream slimit limit rest (i + 1)
          (({ st with events := st.events ++ [.Cursor i] } : RawState).add stream
            (ext.ModelTagsToLabelPairs (ext.RemoveInfluxSystemTags s0.Tags))
            (drainCursorLimit conv limit batches [] st.pointsNum))) =
      rawResult (rawLoop ext stream slimit limit rest j st1) := by
    intro α conv batches hb
    have hd : drainCursorLimit conv limit batches [] st.pointsNum = ([], st.pointsNum) := by
      rcases hb with rfl | ⟨a, t, rfl, ha⟩
      · rfl
      · simp [drainCursorLimit, ha]
    by_cases hs : slimit > 0 ∧ st.seriesNum ≥ slimit
    · rw [if_pos hs, rawLoop_reached ext stream slimit limit rest j st1
        (Or.inl (by rw [← h1]; exact hs))]
      simp [rawResult, sentSeries_snoc_cursor, h3]
    · rw [if_neg hs]
      by_cases hl : limit > 0 ∧ st.pointsNum ≥ limit
      · rw [if_pos hl, rawLoop_reached ext stream slimit limit rest j st1
          (Or.inr (by rw [← h2]; exact hl))]
        simp [rawResult, sentSeries_snoc_cursor, h3]
      · rw [if_neg hl, hd]
        apply rawLoop_data
        simp [RawState.add, RawState.data, sentSeries_snoc_cursor, h1, h2, h3]
  unfold Series.firstBatchEmpty at h0
  cases hcur : s0.Cursor with
  | none => simp [hcur] at h0
  | some cur =>
    cases cur with
    | FloatArrayCursor batches =>
      simp only [rawLoop, hcur]
      apply key
      cases batches with
      | nil => exact Or.inl rfl
      | cons a t => exact Or.inr ⟨a, t, rfl, by simpa [hcur] using h0⟩
    | IntegerArrayCursor batches =>
      simp only [rawLoop, hcur]
      apply key
      cases batches with
      | nil => exact Or.inl rfl
      | cons a t => exact Or.inr ⟨a, t, rfl, by simpa [hcur] using h0⟩
    | UnsignedArrayCursor b => simp [hcur] at h0
    | BooleanArrayCursor b => simp [hcur] at h0
    | StringArrayCursor b => simp [hcur] at h0
    | other t => simp [hcur] at h0

/-- Appending a drained series changes the data of the buffered state in a way that does
not depend on the position nor on the events. -/
theorem ReadState.addSeries_data (st st1 : ReadState) (i j : Nat)
    (drained : Option TimeSeries × Int) (h : st.data = st1.data) :
    (st.addSeries i drained).data = (st1.addSeries j drained).data := by
  simp only [ReadState.data, Prod.mk.injEq] at h
  obtain ⟨h1, h2, h3⟩ := h
  unfold ReadState.addSeries
  cases drained.1 <;> simp [ReadState.data, h1, h2]

/-- If the buffered loop gives the same result on two lists of series from states with
the same data, it still does after one more series is put in front of both. -/
theorem readLoop_congr_cons (ext : Ext) (slimit limit : Int) (rs1 rs2 : ResultSet)
    (H : ∀ (i j : Nat) (st st1 : ReadState), st.data = st1.data →
      readResult (readLoop ext slimit limit rs1 i st) =
        readResult (readLoop ext slimit limit rs2 j st1)) :
    ∀ (x : Series) (i j : Nat) (st st1 : ReadState), st.data = st1.data →
      readResult (readLoop ext slimit limit (x :: rs1) i st) =
        readResult (readLoop ext slimit limit (x :: rs2) j st1) := by
  intro x i j st st1 h
  have h' := h
  simp only [ReadState.data, Prod.mk.injEq] at h'
  obtain ⟨h1, h2, h3⟩ := h'
  have hc : ({ st with events := st.events ++ [.Cursor i] } : ReadState).data =
      ({ st1 with events := st1.events ++ [.Cursor j] } : ReadState).data := by
    simp [ReadState.data, h1, h2, h3]
  simp only [readLoop, h2, h3]
  split
  · simp [readResult, h1]
  · split
    · simp [readResult, h1]
    · cases hcur : x.Cursor with
      | none => simp only; exact H _ _ _ _ h
      | some cur =>
        cases cur with
        | FloatArrayCursor batches =>
          simp only
          apply H
          exact ReadState.addSeries_data _ _ i j _ (by simpa [h2, h3] using hc)
        | IntegerArrayCursor batches =>
          simp only
          apply H
          exact ReadState.addSeries_data _ _ i j _ (by simpa [h2, h3] using hc)
        | UnsignedArrayCursor b => simp [readResult, h1]
        | BooleanArrayCursor b => simp [readResult, h1]
        | StringArrayCursor b => simp [readResult, h1]
        | other t => simp [readResult, h1]

/-- The result of the buffered loop depends on the state through its data only, and not
on the position. -/
theorem readLoop_data (ext : Ext) (slimit limit : Int) (rs : ResultSet) :
    ∀ (i j : Nat) (st st1 : ReadState), st.data = st1.data →
    readResult (readLoop ext slimit limit rs i st) =
      readResult (readLoop ext slimit limit rs j st1) := by
  induction rs with
  | nil =>
    intro i j st st1 h
    simp only [ReadState.data, Prod.mk.injEq] at h
    simp [readLoop, readResult, h.1]
  | cons x rest ih =>
    intro i j st st1 h
    exact readLoop_congr_cons ext slimit limit rest rest ih x i j st st1 h

/-- Two lists of series on which the buffered loop agrees still agree after the same
series are put in front of both. -/
theorem readLoop_congr_append (ext : Ext) (slimit limit : Int) (rs1 rs2 : ResultSet)
    (H : ∀ (i j : Nat) (st st1 : ReadState), st.data = st1.data →
      readResult (readLoop ext slimit limit rs1 i st) =
        readResult (readLoop ext slimit limit rs2 j st1)) :
    ∀ (before : ResultSet) (i j : Nat) (st st1 : ReadState), st.data = st1.data →
      readResult (readLoop ext slimit limit (before ++ rs1) i st) =
        readResult (readLoop ext slimit limit (before ++ rs2) j st1) := by
  intro before
  induction before with
  | nil => exact H
  | cons x rest ih =>
    intro i j st st1 h
    exact readLoop_congr_cons ext slimit limit _ _ ih x i j st st1 h

/-- Once a limit is reached the buffered loop returns what it has. -/
theorem readLoop_reached (ext : Ext) (slimit limit : Int) (rs : ResultSet) (i : Nat)
    (st : ReadState)
    (h : (slimit > 0 ∧ st.seriesNum ≥ slimit) ∨ (limit > 0 ∧ st.pointsNum ≥ limit)) :
    readResult (readLoop ext slimit limit rs i st) = (none, st.Timeseries) := by
  cases rs with
  | nil => simp [readLoop, readResult]
  | cons x rest =>
    simp only [readLoop]
    rcases h with h | h
    · simp [h, readResult]
    · split
      · simp [readResult]
      · simp [h, readResult]

/-- A float or integer series whose first batch is empty can be left out of the list the
buffered loop runs on. -/
theorem readLoop_skip_empty (ext : Ext) (slimit limit : Int) (s0 : Series)
    (h0 : s0.firstBatchEmpty = true) (rest : ResultSet) :
    ∀ (i j : Nat) (st st1 : ReadState), st.data = st1.data →
    readResult (readLoop ext slimit limit (s0 :: rest) i st) =
      readResult (readLoop ext slimit limit rest j st1) := by
  intro i j st st1 h
  have h' := h
  simp only [ReadState.data, Prod.mk.injEq] at h'
  obtain ⟨h1, h2, h3⟩ := h'
  by_cases hs : slimit > 0 ∧ st.seriesNum ≥ slimit
  · rw [readLoop_reached ext slimit limit _ i st (Or.inl hs),
      readLoop_reached ext slimit limit _ j st1 (Or.inl (by rw [← h2]; exact hs)), h1]
  by_cases hl : limit > 0 ∧ st.pointsNum ≥ limit
  · rw [readLoop_reached ext slimit limit _ i st (Or.inr hl),
      readLoop_reached ext slimit limit _ j st1 (Or.inr (by rw [← h3]; exact hl)), h1]
  have key : ∀ (α : Type) (conv : α → Float64) (labels : List LabelPair)
      (batches : List (CursorArray α)),
      (batches = [] ∨ ∃ a t, batches = a :: t ∧ a.length = 0) →
      readResult (readLoop ext slimit limit rest (i + 1)
        (({ st with events := st.events ++ [.Cursor i] } : ReadState).addSeries i
          (drainCursor conv labels batches none st.pointsNum))) =
      readResult (readLoop ext slimit limit rest j st1) := by
    intro α conv labels batches hb
    have hd : drainCursor conv labels batches none st.pointsNum = (none, st.pointsNum) := by
      rcases hb with rfl | ⟨a, t, rfl, ha⟩
      · rfl
      · simp [drainCursor, ha]
    rw [hd]
    apply readLoop_data
    simp [ReadState.addSeries, ReadState.data, h1, h2, h3]
  unfold Series.firstBatchEmpty at h0
  cases hcur : s0.Cursor with
  | none => simp [hcur] at h0
  | some cur =>
    cases cur with
    | FloatArrayCursor batches =>
      simp only [readLoop, hs, hl, if_false, hcur]
      apply key
      cases batches with
      | nil => exact Or.inl rfl
      | cons a t => exact Or.inr ⟨a, t, rfl, by simpa [hcur] using h0⟩
    | IntegerArrayCursor batches =>
      simp only [readLoop, hs, hl, if_false, hcur]
      apply key
      cases batches with
      | nil => exact Or.inl rfl
      | cons a t => exact Or.inr ⟨a, t, rfl, by simpa [hcur] using h0⟩
    | UnsignedArrayCursor b => simp [hcur] at h0
    | BooleanArrayCursor b => simp [hcur] at h0
    | StringArrayCursor b => simp [hcur] at h0
    | other t => simp [hcur] at h0

/-- The series the buffered loop accumulates all have samples. -/
theorem readLoop_nonempty (ext : Ext) (slimit limit : Int) (rs : ResultSet) :
    ∀ (i : Nat) (st : ReadState), (∀ series ∈ st.Timeseries, series.Samples ≠ []) →
    ∀ series ∈ (readLoop ext slimit limit rs i st).1.Timeseries, series.Samples ≠ [] := by
  induction rs with
  | nil => intro i st h; simpa [readLoop] using h
  | cons x rest ih =>
    intro i st h
    have add : ∀ (α : Type) (conv : α → Float64) (labels : List LabelPair)
        (batches : List (CursorArray α)) (st0 : ReadState),
        st0.Timeseries = st.Timeseries →
        ∀ series ∈ (st0.addSeries i
          (drainCursor conv labels batches none st0.pointsNum)).Timeseries,
          series.Samples ≠ [] := by
      intro α conv labels batches st0 hst series hmem
      rw [drainCursor_none] at hmem
      unfold ReadState.addSeries at hmem
      by_cases he : samplesOf conv batches = []
      · simp only [he, if_true] at hmem
        exact h series (by simpa [hst] using hmem)
      · simp only [he, if_false, List.mem_append, List.mem_singleton, hst] at hmem
        rcases hmem with hmem | rfl
        · exact h series hmem
        · exact he
    simp only [readLoop]
    split
    · exact h
    · split
      · exact h
      · cases hcur : x.Cursor with
        | none => simp only; exact ih _ _ h
        | some cur =>
          cases cur with
          | FloatArrayCursor batches =>
            simp only
            exact ih _ _ (add _ id _ batches _ rfl)
          | IntegerArrayCursor batches =>
            simp only
            exact ih _ _ (add _ ext.float64 _ batches _ rfl)
          | UnsignedArrayCursor b => simpa using h
          | BooleanArrayCursor b => simpa using h
          | StringArrayCursor b => simpa using h
          | other t => simpa using h

/-- The series the streaming loop sends all have samples. -/
theorem rawLoop_nonempty (ext : Ext) (stream : RawServer) (slimit limit : Int)
    (rs : ResultSet) : ∀ (i : Nat) (st : RawState),
    (∀ series ∈ sentSeries st.events, series.Samples ≠ []) →
    ∀ series ∈ sentSeries (rawLoop ext stream slimit limit rs i st).1.events,
      series.Samples ≠ [] := by
  induction rs with
  | nil => intro i st h; simpa [rawLoop] using h
  | cons x rest ih =>
    intro i st h
    have add : ∀ (labels : List LabelPair) (drained : List Sample × Int),
        ∀ series ∈ sentSeries (({ st with events := st.events ++ [.Cursor i] } :
          RawState).add stream labels drained).events, series.Samples ≠ [] := by
      intro labels drained series hmem
      unfold RawState.add at hmem
      split at hmem
      · rename_i hpos
        simp only [sentSeries_snoc_send, sentSeries_snoc_cursor, List.mem_append,
          List.mem_singleton] at hmem
        rcases hmem with hmem | rfl
        · exact h series hmem
        · intro hnil
          simp only at hnil
          simp [hnil] at hpos
      · simp only [sentSeries_snoc_cursor] at hmem
        exact h series hmem
    cases hcur : x.Cursor with
    | none => simp only [rawLoop, hcur]; exact ih _ _ h
    | some cur =>
      simp only [rawLoop, hcur]
      split
      · simpa [sentSeries_snoc_cursor] using h
      · split
        · simpa [sentSeries_snoc_cursor] using h
        · cases cur with
          | FloatArrayCursor batches => simp only; exact ih _ _ (add _ _)
          | IntegerArrayCursor batches => simp only; exact ih _ _ (add _ _)
          | UnsignedArrayCursor b => simpa [sentSeries_append, sentSeries] using h
          | BooleanArrayCursor b => simpa [sentSeries_append, sentSeries] using h
          | StringArrayCursor b => simpa [sentSeries_append, sentSeries] using h
          | other t => simpa [sentSeries_append, sentSeries] using h

/-- The result of `GetReadResponse` on a result set, from the result of its loop. -/
theorem GetReadResponse_eq (ext : Ext) (rs : ResultSet) (slimit limit : Int) :
    GetReadResponse ext (some rs) slimit limit =
      match readResult (readLoop ext slimit limit rs 0 ReadState.init) with
      | (none, series) => .ok { Results := [{ Timeseries := series }] }
      | (some e, _) => .error e := by
  simp only [GetReadResponse, GetReadResponseRun, readResult]
  cases hr : readLoop ext slimit limit rs 0 ReadState.init with
  | mk st e => cases e <;> rfl

/-- What `Server.Raw` sends and returns on a result set, from the result of its loop. -/
theorem rawResultSet_eq (ext : Ext) (stream : RawServer) (rs : ResultSet)
    (slimit limit : Int) :
    sentSeries (rawResultSet ext stream (some rs) slimit limit).1 =
      (rawResult (rawLoop ext stream slimit limit rs 0 RawState.init)).2 ∧
    (rawResultSet ext stream (some rs) slimit limit).2 =
      match (rawResult (rawLoop ext stream slimit limit rs 0 RawState.init)).1 with
      | none => .ok ()
      | some e => .error e := by
  simp only [rawResultSet, rawResult]
  cases hr : rawLoop ext stream slimit limit rs 0 RawState.init with
  | mk st e => cases e <;> simp [sentSeries_append, sentSeries]

/-- C16: no empty series is emitted. Every time series of a successful buffered result
and every series sent on the streaming path has at least one sample, for every result
set, `slimit` and `limit`; and a float or integer series whose cursor returns an empty
batch first contributes nothing and is not counted: leaving it out of the result set
changes neither the buffered result nor what the streaming path sends and returns. -/
theorem C16_no_empty_series (ext : Ext) (stream : RawServer) (rs : Option ResultSet)
    (slimit limit : Int) (before after : ResultSet) (s0 : Series)
    (h0 : s0.firstBatchEmpty = true) :
    (∀ resp, GetReadResponse ext rs slimit limit = .ok resp →
      ∀ q ∈ resp.Results, ∀ series ∈ q.Timeseries, series.Samples ≠ []) ∧
    (∀ series ∈ sentSeries (rawResultSet ext stream rs slimit limit).1,
      series.Samples ≠ []) ∧
    GetReadResponse ext (some (before ++ s0 :: after)) slimit limit =
      GetReadResponse ext (some (before ++ after)) slimit limit ∧
    sentSeries (rawResultSet ext stream (some (before ++ s0 :: after)) slimit limit).1 =
      sentSeries (rawResultSet ext stream (some (before ++ after)) slimit limit).1 ∧
    (rawResultSet ext stream (some (before ++ s0 :: after)) slimit limit).2 =
      (rawResultSet ext stream (some (before ++ after)) slimit limit).2 := by
  refine ⟨?_, ?_, ?_, ?_, ?_⟩
  · intro resp h q hq series hs
    cases rs with
    | none =>
      simp only [GetReadResponse, GetReadResponseRun, Except.ok.injEq] at h
      subst h
      simp only [List.mem_singleton] at hq
      subst hq
      simp at hs
    | some rs =>
      have hne := readLoop_nonempty ext slimit limit rs 0 ReadState.init
        (by simp [ReadState.init])
      simp only [GetReadResponse, GetReadResponseRun] at h
      cases hr : readLoop ext slimit limit rs 0 ReadState.init with
      | mk st e =>
        rw [hr] at h hne
        cases e with
        | some e => simp at h
        | none =>
          simp only [Except.ok.injEq] at h
          subst h
          simp only [List.mem_singleton] at hq
          subst hq
          exact hne series hs
  · intro series hs
    cases rs with
    | none => simp [rawResultSet, sentSeries] at hs
    | some rs =>
      rw [(rawResultSet_eq ext stream rs slimit limit).1] at hs
      exact rawLoop_nonempty ext stream slimit limit rs 0 RawState.init
        (by simp [RawState.init, sentSeries]) series hs
  · rw [GetReadResponse_eq, GetReadResponse_eq,
      readLoop_congr_append ext slimit limit (s0 :: after) after
        (readLoop_skip_empty ext slimit limit s0 h0 after) before 0 0 _ _ rfl]
  · rw [(rawResultSet_eq ext stream _ slimit limit).1,
      (rawResultSet_eq ext stream _ slimit limit).1,
      rawLoop_congr_append ext stream stream slimit limit (s0 :: after) after
        (rawLoop_skip_empty ext stream slimit limit s0 h0 after) before 0 0 _ _ rfl]
  · rw [(rawResultSet_eq ext stream _ slimit limit).2,
      (rawResultSet_eq ext stream _ slimit limit).2,
      rawLoop_congr_append ext stream stream slimit limit (s0 :: after) after
        (rawLoop_skip_empty ext stream slimit limit s0 h0 after) before 0 0 _ _ rfl]

/-- C16 with a series whose first batch is empty in front of the two series of 3 and 5
samples, and `slimit = 1`: the result is still the series of 3 samples, on both paths. -/
theorem C16_no_empty_series_witness :
    emptySeries.firstBatchEmpty = true ∧
    GetReadResponse sampleExt (some (emptySeries :: twoSeries)) 1 0 =
      GetReadResponse sampleExt (some twoSeries) 1 0 ∧
    (sentSeries (rawResultSet sampleExt okStream (some (emptySeries :: twoSeries)) 1 0).1).map
      (fun series => series.Samples.length) = [3] :=
  ⟨rfl,
    (C16_no_empty_series sampleExt okStream (some twoSeries) 1 0 [] twoSeries emptySeries
      rfl).2.2.1,
    by decide⟩

/-- On float and integer cursors the streaming loop never calls `cur.Close()`. -/
theorem rawLoop_no_close (ext : Ext) (stream : RawServer) (slimit limit : Int)
    (rs : ResultSet) : ∀ (i : Nat) (st : RawState), ResultSet.allFloatOrInteger rs →
    ∀ k, RawEvent.Close k ∈ (rawLoop ext stream slimit limit rs i st).1.events →
      RawEvent.Close k ∈ st.events := by
  induction rs with
  | nil => intro i st _ k h; simpa [rawLoop] using h
  | cons x rest ih =>
    intro i st hall k h
    have hrest : ResultSet.allFloatOrInteger rest :=
      fun y hy => hall y (List.mem_cons_of_mem _ hy)
    have add : ∀ (labels : List LabelPair) (drained : List Sample × Int),
        RawEvent.Close k ∈ (({ st with events := st.events ++ [.Cursor i] } :
          RawState).add stream labels drained).events → RawEvent.Close k ∈ st.events := by
      intro labels drained hmem
      unfold RawState.add at hmem
      split at hmem <;> simpa using hmem
    cases hcur : x.Cursor with
    | none => simp only [rawLoop, hcur] at h; exact ih _ _ hrest k h
    | some cur =>
      have hsup := hall x (List.mem_cons_self _ _) cur hcur
      simp only [rawLoop, hcur] at h
      split at h
      · simpa using h
      · split at h
        · simpa using h
        · cases cur with
          | FloatArrayCursor batches => exact add _ _ (ih _ _ hrest k h)
          | IntegerArrayCursor batches => exact add _ _ (ih _ _ hrest k h)
          | UnsignedArrayCursor b => simp [Cursor.isFloatOrInteger] at hsup
          | BooleanArrayCursor b => simp [Cursor.isFloatOrInteger] at hsup
          | StringArrayCursor b => simp [Cursor.isFloatOrInteger] at hsup
          | other t => simp [Cursor.isFloatOrInteger] at hsup

/-- C14 fails on the code: what `stream.Send` returns is never looked at. On every
result set and with all limits, `Server.Raw` returns on any stream what it returns on a
stream whose `Send` never fails; and on a stream whose every `Send` fails it calls
`Send`, gets the error, and returns `nil`. -/
theorem C14_send_error_dropped (ext : Ext) (stream : RawServer) (rs : ResultSet)
    (slimit limit : Int) :
    (rawResultSet ext stream (some rs) slimit limit).2 =
      (rawResultSet ext okStream (some rs) slimit limit).2 ∧
    Server.RawRun sampleEnv sampleExt (constStore (some twoSeries)) (cpuUsage 1 0)
        brokenStream =
      ([.Cursor 0,
        .Send { Labels := [{ Name := "host", Value := "a" }],
                Samples := [{ TimestampMs := 1, Value := { bits := 0 } },
                            { TimestampMs := 2, Value := { bits := 0 } },
                            { TimestampMs := 3, Value := { bits := 0 } }] }
          (some "transport is closing"),
        .Cursor 1, .CloseResultSet], .ok ()) ∧
    Server.Raw sampleEnv sampleExt (constStore (some twoSeries)) (cpuUsage 1 0)
        brokenStream = .ok () := by
  refine ⟨?_, rfl, rfl⟩
  rw [(rawResultSet_eq ext stream rs slimit limit).2,
    (rawResultSet_eq ext okStream rs slimit limit).2,
    rawLoop_data ext stream okStream slimit limit rs 0 0 _ _ rfl]

/-! ## The visitor: stack discipline -/

/-- C21: visiting a well-formed expression from a stack `s` with no error set does not
panic and ends either with the error set, or with no error and the stack `s` followed by
exactly one new node; hence a successful `exprToNode` leaves exactly one node on the
stack it started empty, and that node is the root it returns. -/
theorem C21_stack_discipline (e : Expr) (hwf : e.WellFormed = true) :
    (∀ s : List Node, ∃ v1, exprToNodeVisitor.Visit { nodes := s, err := none } e = .ok v1 ∧
      ((∃ err, v1.err = some err) ∨ (v1.err = none ∧ ∃ n, v1.nodes = s ++ [n]))) ∧
    (∀ p, exprToNode (some e) = .ok (some p) →
      exprToNodeVisitor.Visit { nodes := [], err := none } e =
        .ok { nodes := [p.Root], err := none }) := by
  constructor
  · intro s
    have h := Visit_wellFormed e hwf s
    cases hT : T e with
    | ok n => exact ⟨_, h.1 n hT, Or.inr ⟨rfl, n, rfl⟩⟩
    | error err =>
      obtain ⟨s1, hs1⟩ := h.2 err hT
      exact ⟨_, hs1, Or.inl ⟨err, rfl⟩⟩
  · intro p hp
    obtain ⟨e1, he1, -, hT⟩ := exprToNode_ok (some e) p hp
    cases he1
    simpa using (Visit_wellFormed e hwf []).1 p.Root hT

/-- C21 on `((host = 'a') AND _measurement = 'cpu') AND _field = 'usage'`: from the
empty stack the visit ends with the single node that `exprToNode` returns as root. -/
theorem C21_stack_discipline_witness :
    (wrappedCondition (tagEquals "host" "a") "cpu" "usage").WellFormed = true ∧
    exprToNodeVisitor.Visit { nodes := [], err := none }
        (wrappedCondition (tagEquals "host" "a") "cpu" "usage") =
      .ok { nodes := [andNode
        (andNode (parenNode (equalsNode "host" "a")) (equalsNode "_measurement" "cpu"))
        (equalsNode "_field" "usage")], err := none } :=
  ⟨by decide,
    (C21_stack_discipline (wrappedCondition (tagEquals "host" "a") "cpu" "usage")
      (by decide)).2
      (Predicate.mk (andNode
        (andNode (parenNode (equalsNode "host" "a")) (equalsNode "_measurement" "cpu"))
        (equalsNode "_field" "usage"))) rfl⟩

/-- C22: on a well-formed expression, from any stack and whether the translation
succeeds or fails, the visit does not panic (`pop` and `pop2` always find the nodes they
take), `exprToNode` does not panic, and when no error was recorded the stack read by
`v.nodes[0]` is not empty. -/
theorem C22_no_panic (e : Expr) (hwf : e.WellFormed = true) :
    (∀ s : List Node, ∃ v1,
      exprToNodeVisitor.Visit { nodes := s, err := none } e = .ok v1) ∧
    (∀ msg, exprToNode (some e) ≠ .panic msg) ∧
    (∀ v1, exprToNodeVisitor.Visit { nodes := [], err := none } e = .ok v1 →
      v1.err = none → v1.nodes ≠ []) := by
  have hv : ∀ s : List Node, ∃ v1,
      exprToNodeVisitor.Visit { nodes := s, err := none } e = .ok v1 ∧
      (v1.err = none → ∃ n, v1.nodes = s ++ [n]) := by
    intro s
    have h := Visit_wellFormed e hwf s
    cases hT : T e with
    | ok n => exact ⟨_, h.1 n hT, fun _ => ⟨n, rfl⟩⟩
    | error err =>
      obtain ⟨s1, hs1⟩ := h.2 err hT
      exact ⟨_, hs1, fun hne => by simp at hne⟩
  refine ⟨fun s => ?_, ?_, ?_⟩
  · obtain ⟨v1, h1, -⟩ := hv s
    exact ⟨v1, h1⟩
  · intro msg hmsg
    rw [exprToNode_wellFormed e hwf] at hmsg
    unfold TResult at hmsg
    cases hT : T e <;> simp [hT] at hmsg
  · intro v1 h1 hne
    obtain ⟨v2, h2, h3⟩ := hv []
    rw [h1] at h2
    cases h2
    obtain ⟨n, hn⟩ := h3 hne
    simp [hn]

/-- C22 on `_measurement = 'cpu' AND true`, whose translation fails: the result is an
error, not a panic. -/
theorem C22_no_panic_witness :
    (Expr.BinaryExpr .AND (some (tagEquals "_measurement" "cpu"))
      (some (.BooleanLiteral true))).WellFormed = true ∧
    ∀ msg, exprToNode (some (.BinaryExpr .AND (some (tagEquals "_measurement" "cpu"))
      (some (.BooleanLiteral true)))) ≠ .panic msg :=
  ⟨by decide, (C22_no_panic _ (by decide)).2.1⟩

/-! ## The two paths compared -/

/-- Without a positive `limit` the inner loop of the streaming path appends the whole
batch and does not leave early. -/
theorem appendSamplesLimit_unlimited {α : Type} (conv : α → Float64) (limit : Int)
    (hlimit : limit ≤ 0) (a : CursorArray α) :
    ∀ (samples : List Sample) (pointsNum : Int),
    appendSamplesLimit conv limit a samples pointsNum =
      (samples ++ a.map (fun p => Sample.mk (conv p.2) (p.1.tdiv millisecond)),
        pointsNum + a.length, false) := by
  induction a with
  | nil => intro samples pointsNum; simp [appendSamplesLimit]
  | cons x rest ih =>
    intro samples pointsNum
    obtain ⟨ts, value⟩ := x
    have hno : ¬ (limit > 0 ∧ pointsNum + 1 ≥ limit) := by omega
    simp only [appendSamplesLimit, hno, if_false, ih, List.map_cons, List.append_assoc,
      List.singleton_append, List.length_cons, Nat.cast_add, Nat.cast_one]
    refine Prod.ext rfl (Prod.ext ?_ rfl)
    simp only
    omega

/-- Without a positive `limit` the streaming path drains a cursor completely. -/
theorem drainCursorLimit_unlimited {α : Type} (conv : α → Float64) (limit : Int)
    (hlimit : limit ≤ 0) (batches : List (CursorArray α)) :
    ∀ (samples : List Sample) (pointsNum : Int),
    drainCursorLimit conv limit batches samples pointsNum =
      (samples ++ samplesOf conv batches, pointsNum + (samplesOf conv batches).length) := by
  induction batches with
  | nil => intro samples pointsNum; simp [drainCursorLimit, samplesOf_nil]
  | cons a rest ih =>
    intro samples pointsNum
    by_cases h : a.length = 0
    · simp [drainCursorLimit, h, samplesOf_cons_empty conv a rest h]
    · simp only [drainCursorLimit, h, if_false,
        appendSamplesLimit_unlimited conv limit hlimit a, ih, samplesOf_cons conv a rest h,
        List.append_assoc, List.length_append, List.length_map, Nat.cast_add]
      refine Prod.ext rfl ?_
      simp only
      omega

/-- Without a positive `limit`, from states with the same series counter and the same
series accumulated and sent, the buffered and the streaming loop end with the same error
and the same series. -/
theorem readLoop_rawLoop (ext : Ext) (stream : RawServer) (slimit limit : Int)
    (hlimit : limit ≤ 0) (rs : ResultSet) :
    ∀ (i j : Nat) (st : ReadState) (rst : RawState),
    st.seriesNum = rst.seriesNum → st.Timeseries = sentSeries rst.events →
    readResult (readLoop ext slimit limit rs i st) =
      rawResult (rawLoop ext stream slimit limit rs j rst) := by
  induction rs with
  | nil =>
    intro i j st rst h1 h2
    simp [readLoop, rawLoop, readResult, rawResult, h2]
  | cons x rest ih =>
    intro i j st rst h1 h2
    by_cases hs : slimit > 0 ∧ st.seriesNum ≥ slimit
    · rw [readLoop_reached ext slimit limit _ i st (Or.inl hs),
        rawLoop_reached ext stream slimit limit _ j rst (Or.inl (by rw [← h1]; exact hs)),
        h2]
    have hl : ∀ p : Int, ¬ (limit > 0 ∧ p ≥ limit) := fun p => by omega
    have hs1 : ¬ (slimit > 0 ∧ rst.seriesNum ≥ slimit) := by rw [← h1]; exact hs
    cases hcur : x.Cursor with
    | none =>
      simp only [readLoop, rawLoop, hs, hl, if_false, hcur]
      exact ih _ _ _ _ h1 h2
    | some cur =>
      have step : ∀ (α : Type) (conv : α → Float64) (batches : List (CursorArray α)),
          readResult (readLoop ext slimit limit rest (i + 1)
            (({ st with events := st.events ++ [.Cursor i] } : ReadState).addSeries i
              (drainCursor conv (ext.ModelTagsToLabelPairs
                (ext.RemoveInfluxSystemTags x.Tags)) batches none st.pointsNum))) =
          rawResult (rawLoop ext stream slimit limit rest (j + 1)
            (({ rst with events := rst.events ++ [.Cursor j] } : RawState).add stream
              (ext.ModelTagsToLabelPairs (ext.RemoveInfluxSystemTags x.Tags))
              (drainCursorLimit conv limit batches [] rst.pointsNum))) := by
        intro α conv batches
        rw [drainCursor_none, drainCursorLimit_unlimited conv limit hlimit]
        apply ih
        · unfold ReadState.addSeries RawState.add
          by_cases he : samplesOf conv batches = []
          · simp [he, h1]
          · have hpos : 0 < (samplesOf conv batches).length :=
              List.length_pos_iff_ne_nil.mpr he
            simp [he, hpos, h1]
        · unfold ReadState.addSeries RawState.add
          by_cases he : samplesOf conv batches = []
          · simp [he, h2, sentSeries_snoc_cursor]
          · have hpos : 0 < (samplesOf conv batches).length :=
              List.length_pos_iff_ne_nil.mpr he
            simp [he, hpos, h2, sentSeries_append, sentSeries]
      cases cur with
      | FloatArrayCursor batches =>
        simp only [readLoop, rawLoop, hs, hs1, hl, if_false, hcur]
        exact step _ id batches
      | IntegerArrayCursor batches =>
        simp only [readLoop, rawLoop, hs, hs1, hl, if_false, hcur]
        exact step _ ext.float64 batches
      | UnsignedArrayCursor b =>
        simp [readLoop, rawLoop, hs, hs1, hl, hcur, readResult, rawResult, h2,
          sentSeries_append, sentSeries]
      | BooleanArrayCursor b =>
        simp [readLoop, rawLoop, hs, hs1, hl, hcur, readResult, rawResult, h2,
          sentSeries_append, sentSeries]
      | StringArrayCursor b =>
        simp [readLoop, rawLoop, hs, hs1, hl, hcur, readResult, rawResult, h2,
          sentSeries_append, sentSeries]
      | other t =>
        simp [readLoop, rawLoop, hs, hs1, hl, hcur, readResult, rawResult, h2,
          sentSeries_append, sentSeries]

/-- C23: with `limit ≤ 0`, for every present result set, every `slimit` and every
stream, the streaming path returns an error exactly when the buffered path does (the
same error), and when the buffered path succeeds the streaming path returns without
error and the series it sent are, in order, the time series of the buffered result. -/
theorem C23_paths_agree_without_limit (ext : Ext) (stream : RawServer) (rs : ResultSet)
    (slimit limit : Int) (hlimit : limit ≤ 0) :
    (∀ e, GetReadResponse ext (some rs) slimit limit = .error e ↔
      (rawResultSet ext stream (some rs) slimit limit).2 = .error e) ∧
    (∀ resp, GetReadResponse ext (some rs) slimit limit = .ok resp →
      (rawResultSet ext stream (some rs) slimit limit).2 = .ok () ∧
      resp.Results =
        [QueryResult.mk (sentSeries (rawResultSet ext stream (some rs) slimit limit).1)]) := by
  have h := readLoop_rawLoop ext stream slimit limit hlimit rs 0 0 ReadState.init
    RawState.init rfl rfl
  obtain ⟨hsent, hret⟩ := rawResultSet_eq ext stream rs slimit limit
  rw [GetReadResponse_eq, hsent, hret, h]
  cases hr : rawResult (rawLoop ext stream slimit limit rs 0 RawState.init) with
  | mk err series =>
    cases err with
    | none =>
      refine ⟨fun e => by simp, fun resp hresp => ⟨rfl, ?_⟩⟩
      simp only [Except.ok.injEq] at hresp
      rw [← hresp]
    | some e0 =>
      refine ⟨fun e => by simp, fun resp hresp => ?_⟩
      simp at hresp

/-- C23 on the two series of 3 and 5 samples with `slimit = 1` and `limit = 0`: both
paths succeed and deliver the series of 3 samples. -/
theorem C23_paths_agree_without_limit_witness :
    (rawResultSet sampleExt okStream (some twoSeries) 1 0).2 = .ok () ∧
    GetReadResponse sampleExt (some twoSeries) 1 0 =
      .ok (ReadResponse.mk
        [QueryResult.mk (sentSeries (rawResultSet sampleExt okStream (some twoSeries) 1 0).1)]) :=
  ⟨((C23_paths_agree_without_limit sampleExt okStream twoSeries 1 0 (by decide)).2 _
      rfl).1,
    rfl⟩

/-! ## The streaming path: what one series contributes -/

/-- While no limit is reached, the streaming drain of a cursor yields the first `k` of its
samples and counts them: all of them, or as many as a positive `limit` still allows. -/
theorem drainCursorLimit_take {α : Type} (conv : α → Float64) (limit : Int)
    (batches : List (CursorArray α)) (p : Int) (h : ¬ (limit > 0 ∧ p ≥ limit)) :
    ∃ k : Nat, k ≤ (samplesOf conv batches).length ∧
      drainCursorLimit conv limit batches [] p =
        ((samplesOf conv batches).take k, p + (k : Int)) ∧
      (limit > 0 → p + (k : Int) ≤ limit) ∧
      (k = (samplesOf conv batches).length ∨ (limit > 0 ∧ p + (k : Int) = limit)) ∧
      (samplesOf conv batches ≠ [] → 0 < k) := by
  by_cases hl : limit ≤ 0
  · refine ⟨(samplesOf conv batches).length, le_refl _, ?_, fun h0 => by omega, Or.inl rfl,
      fun hne => List.length_pos_iff_ne_nil.mpr hne⟩
    rw [drainCursorLimit_unlimited conv limit hl, List.take_length, List.nil_append]
  · have hlimit : 0 < limit := by omega
    have hp : p < limit := by omega
    rw [drainCursorLimit_eq conv limit hlimit batches [] p hp, List.nil_append]
    by_cases hlen : ((samplesOf conv batches).length : Int) ≤ limit - p
    · refine ⟨(samplesOf conv batches).length, le_refl _, ?_, fun _ => by omega, Or.inl rfl,
        fun hne => List.length_pos_iff_ne_nil.mpr hne⟩
      rw [List.take_length, List.take_of_length_le (by omega), min_eq_left hlen]
    · refine ⟨(limit - p).toNat, by omega, ?_, fun _ => by omega, Or.inr ⟨hlimit, by omega⟩,
        fun _ => by omega⟩
      rw [min_eq_right (by omega)]
      refine Prod.ext rfl ?_
      simp only
      omega

/-- One iteration of the streaming loop on a float or integer series, while no limit is
reached: the first `k` samples of the series are read and, if there are any, sent with
the labels of the series. -/
theorem rawLoop_cons_drained (ext : Ext) (stream : RawServer) (slimit limit : Int)
    (s : Series) (i : Nat) (st : RawState) (cur : Cursor)
    (hc : s.Cursor = some cur) (hsup : cur.isFloatOrInteger = true)
    (hs : ¬ (slimit > 0 ∧ st.seriesNum ≥ slimit))
    (hl : ¬ (limit > 0 ∧ st.pointsNum ≥ limit)) :
    ∃ k : Nat, k ≤ (s.samples ext).length ∧
      (limit > 0 → st.pointsNum + (k : Int) ≤ limit) ∧
      (k = (s.samples ext).length ∨ (limit > 0 ∧ st.pointsNum + (k : Int) = limit)) ∧
      (s.samples ext ≠ [] → 0 < k) ∧
      ∀ rest : ResultSet, rawLoop ext stream slimit limit (s :: rest) i st =
        rawLoop ext stream slimit limit rest (i + 1)
          (({ st with events := st.events ++ [.Cursor i] } : RawState).add stream
            (s.labels ext) ((s.samples ext).take k, st.pointsNum + (k : Int))) := by
  cases cur with
  | FloatArrayCursor batches =>
    obtain ⟨k, h1, h2, h3, h4, h5⟩ := drainCursorLimit_take id limit batches st.pointsNum hl
    refine ⟨k, ?_, h3, ?_, ?_, fun rest => ?_⟩
    · simpa [Series.samples, hc] using h1
    · simpa [Series.samples, hc] using h4
    · simpa [Series.samples, hc] using h5
    · simp only [rawLoop, hc, hs, hl, if_false, h2, Series.samples, Series.labels]
  | IntegerArrayCursor batches =>
    obtain ⟨k, h1, h2, h3, h4, h5⟩ :=
      drainCursorLimit_take ext.float64 limit batches st.pointsNum hl
    refine ⟨k, ?_, h3, ?_, ?_, fun rest => ?_⟩
    · simpa [Series.samples, hc] using h1
    · simpa [Series.samples, hc] using h4
    · simpa [Series.samples, hc] using h5
    · simp only [rawLoop, hc, hs, hl, if_false, h2, Series.samples, Series.labels]
  | UnsignedArrayCursor b => simp [Cursor.isFloatOrInteger] at hsup
  | BooleanArrayCursor b => simp [Cursor.isFloatOrInteger] at hsup
  | StringArrayCursor b => simp [Cursor.isFloatOrInteger] at hsup
  | other t => simp [Cursor.isFloatOrInteger] at hsup

/-- One iteration of the streaming loop on a series whose cursor is not float or integer
valued, while no limit is reached: the call returns the error of the series and sends
nothing. -/
theorem rawLoop_cons_unsupported (ext : Ext) (stream : RawServer) (slimit limit : Int)
    (s : Series) (rest : ResultSet) (i : Nat) (st : RawState) (cur : Cursor)
    (hc : s.Cursor = some cur) (hsup : cur.isFloatOrInteger = false)
    (hs : ¬ (slimit > 0 ∧ st.seriesNum ≥ slimit))
    (hl : ¬ (limit > 0 ∧ st.pointsNum ≥ limit)) :
    (rawLoop ext stream slimit limit (s :: rest) i st).2 = s.abortError ext ∧
    (s.abortError ext).isSome = true ∧
    sentSeries (rawLoop ext stream slimit limit (s :: rest) i st).1.events =
      sentSeries st.events ∧
    (rawLoop ext stream slimit limit (s :: rest) i st).1.pointsNum = st.pointsNum ∧
    (rawLoop ext stream slimit limit (s :: rest) i st).1.seriesNum = st.seriesNum := by
  cases cur with
  | FloatArrayCursor b => simp [Cursor.isFloatOrInteger] at hsup
  | IntegerArrayCursor b => simp [Cursor.isFloatOrInteger] at hsup
  | UnsignedArrayCursor b =>
    simp [rawLoop, hc, hs, hl, Series.abortError, sentSeries_append, sentSeries]
  | BooleanArrayCursor b =>
    simp [rawLoop, hc, hs, hl, Series.abortError, sentSeries_append, sentSeries]
  | StringArrayCursor b =>
    simp [rawLoop, hc, hs, hl, Series.abortError, sentSeries_append, sentSeries]
  | other t =>
    simp [rawLoop, hc, hs, hl, Series.abortError, sentSeries_append, sentSeries]

/-- What the code at `ADD` sends for the first `k` samples of a series: one message when
`k` samples is at least one sample, none otherwise; the point counter becomes the given
one. -/
theorem RawState.add_sent (st : RawState) (stream : RawServer) (labels : List LabelPair)
    (samples : List Sample) (p : Int) :
    sentSeries (st.add stream labels (samples, p)).events =
      sentSeries st.events ++
        (if samples = [] then [] else [{ Labels := labels, Samples := samples }]) ∧
    (st.add stream labels (samples, p)).pointsNum = p ∧
    (st.add stream labels (samples, p)).seriesNum =
      st.seriesNum + (if samples = [] then 0 else 1) := by
  unfold RawState.add
  by_cases he : samples = []
  · simp [he]
  · have hpos : 0 < samples.length := List.length_pos_iff_ne_nil.mpr he
    simp [he, hpos, sentSeries_append, sentSeries]

/-- The streaming loop keeps the point counter equal to the number of samples sent, and
never lets it exceed a positive `limit`. -/
theorem rawLoop_total (ext : Ext) (stream : RawServer) (slimit limit : Int)
    (rs : ResultSet) : ∀ (i : Nat) (st : RawState),
    (totalSamples (sentSeries st.events) : Int) = st.pointsNum →
    (limit > 0 → st.pointsNum ≤ limit) →
    (totalSamples (sentSeries (rawLoop ext stream slimit limit rs i st).1.events) : Int) =
        (rawLoop ext stream slimit limit rs i st).1.pointsNum ∧
      (limit > 0 → (rawLoop ext stream slimit limit rs i st).1.pointsNum ≤ limit) := by
  induction rs with
  | nil => intro i st h1 h2; simpa [rawLoop] using ⟨h1, h2⟩
  | cons x rest ih =>
    intro i st h1 h2
    cases hcur : x.Cursor with
    | none => simp only [rawLoop, hcur]; exact ih _ _ h1 h2
    | some cur =>
      by_cases hs : slimit > 0 ∧ st.seriesNum ≥ slimit
      · simp only [rawLoop, hcur, hs, if_true, and_self, sentSeries_snoc_cursor]
        exact ⟨h1, h2⟩
      by_cases hl : limit > 0 ∧ st.pointsNum ≥ limit
      · simp only [rawLoop, hcur, hs, hl, if_true, if_false, and_self, sentSeries_snoc_cursor]
        exact ⟨h1, fun _ => h2 hl.1⟩
      cases hsup : cur.isFloatOrInteger with
      | false =>
        obtain ⟨_, _, e3, e4, _⟩ :=
          rawLoop_cons_unsupported ext stream slimit limit x rest i st cur hcur hsup hs hl
        rw [e3, e4]
        exact ⟨h1, h2⟩
      | true =>
        obtain ⟨k, hk, hle, _, _, e⟩ :=
          rawLoop_cons_drained ext stream slimit limit x i st cur hcur hsup hs hl
        rw [e rest]
        obtain ⟨a1, a2, _⟩ := RawState.add_sent
          ({ st with events := st.events ++ [.Cursor i] } : RawState) stream (x.labels ext)
          ((x.samples ext).take k) (st.pointsNum + (k : Int))
        apply ih
        · rw [a1, a2, sentSeries_snoc_cursor]
          by_cases he : (x.samples ext).take k = []
          · have hk0 : k = 0 := by
              have := congrArg List.length he
              simp only [List.length_take, List.length_nil] at this
              omega
            simp [he, hk0, h1]
          · simp only [he, if_false, totalSamples, List.map_append, List.sum_append,
              List.map_cons, List.map_nil, List.sum_cons, List.sum_nil, List.length_take,
              Nat.cast_add, add_zero]
            simp only [totalSamples] at h1
            rw [h1, min_eq_left hk]
        · rw [a2]; exact hle

/-- C24: on the streaming path with a positive `limit`, for every result set, every
`slimit` and every stream, the samples of all the series sent during the call number at
most `limit`. -/
theorem C24_stream_total_at_most_limit (ext : Ext) (stream : RawServer)
    (rs : Option ResultSet) (slimit limit : Int) (hlimit : limit > 0) :
    (totalSamples (sentSeries (rawResultSet ext stream rs slimit limit).1) : Int) ≤
      limit := by
  cases rs with
  | none => simp [rawResultSet, sentSeries, totalSamples]; omega
  | some rs =>
    obtain ⟨h1, h2⟩ := rawLoop_total ext stream slimit limit rs 0 RawState.init rfl
      (fun _ => by simp [RawState.init]; omega)
    rw [(rawResultSet_eq ext stream rs slimit limit).1]
    simp only [rawResult]
    rw [h1]
    exact h2 hlimit

/-- C24 on the two series of 3 and 5 samples with `limit = 4`: the four samples sent are
the three of the first series and the first of the second. -/
theorem C24_stream_total_at_most_limit_witness :
    (totalSamples (sentSeries (rawResultSet sampleExt okStream (some twoSeries) 0 4).1) :
      Int) ≤ 4 ∧
    (sentSeries (rawResultSet sampleExt okStream (some twoSeries) 0 4).1).map
      (fun s => s.Samples.length) = [3, 1] :=
  ⟨C24_stream_total_at_most_limit sampleExt okStream (some twoSeries) 0 4 (by decide),
    by decide⟩

/-! ## The buffered path: whole series, and cursors closed -/

/-- A time series of a series has the labels and all the samples of the series. -/
theorem Series.timeSeries_some (ext : Ext) (s : Series) (ts : TimeSeries)
    (h : s.timeSeries ext = some ts) :
    ts.Labels = s.labels ext ∧ ts.Samples = s.samples ext ∧ ts.Samples ≠ [] := by
  unfold Series.timeSeries at h
  cases hcur : s.Cursor with
  | none => simp [hcur] at h
  | some cur =>
    cases cur with
    | FloatArrayCursor batches =>
      simp only [hcur] at h
      split at h
      · cases h
      · rename_i hne
        simp only [Option.some.injEq] at h
        subst h
        simp [Series.labels, Series.samples, hcur, hne]
    | IntegerArrayCursor batches =>
      simp only [hcur] at h
      split at h
      · cases h
      · rename_i hne
        simp only [Option.some.injEq] at h
        subst h
        simp [Series.labels, Series.samples, hcur, hne]
    | UnsignedArrayCursor b => simp [hcur] at h
    | BooleanArrayCursor b => simp [hcur] at h
    | StringArrayCursor b => simp [hcur] at h
    | other t => simp [hcur] at h

/-- Once a limit is reached the buffered loop returns at once, with no further cursor
call. -/
theorem readLoop_reached_eq (ext : Ext) (slimit limit : Int) (rs : ResultSet) (i : Nat)
    (st : ReadState)
    (h : (slimit > 0 ∧ st.seriesNum ≥ slimit) ∨ (limit > 0 ∧ st.pointsNum ≥ limit)) :
    readLoop ext slimit limit rs i st = (st, none) := by
  cases rs with
  | nil => simp [readLoop]
  | cons x rest =>
    simp only [readLoop]
    rcases h with h | h
    · simp [h]
    · split
      · rfl
      · simp [h]

/-- A series without a cursor is passed over by the buffered loop. -/
theorem readLoop_cons_absent (ext : Ext) (slimit limit : Int) (s : Series)
    (rest : ResultSet) (i : Nat) (st : ReadState) (hc : s.Cursor = none)
    (hs : ¬ (slimit > 0 ∧ st.seriesNum ≥ slimit))
    (hl : ¬ (limit > 0 ∧ st.pointsNum ≥ limit)) :
    readLoop ext slimit limit (s :: rest) i st =
      readLoop ext slimit limit rest (i + 1) st := by
  simp only [readLoop, hs, hl, if_false, hc]

/-- One iteration of the buffered loop on a series whose cursor is not float or integer
valued, while no limit is reached: the call returns the error of the series, the series
accumulated are left as they are, and the cursor is closed if it is an array cursor. -/
theorem readLoop_cons_abort (ext : Ext) (slimit limit : Int) (s : Series)
    (rest : ResultSet) (i : Nat) (st : ReadState) (cur : Cursor)
    (hc : s.Cursor = some cur) (hsup : cur.isFloatOrInteger = false)
    (hs : ¬ (slimit > 0 ∧ st.seriesNum ≥ slimit))
    (hl : ¬ (limit > 0 ∧ st.pointsNum ≥ limit)) :
    (readLoop ext slimit limit (s :: rest) i st).2 = s.abortError ext ∧
    (readLoop ext slimit limit (s :: rest) i st).1.Timeseries = st.Timeseries ∧
    (readLoop ext slimit limit (s :: rest) i st).1.events =
      st.events ++ CursorEvent.Cursor i ::
        (if cur.isArrayCursor = true then [CursorEvent.Close i] else []) := by
  cases cur with
  | FloatArrayCursor b => simp [Cursor.isFloatOrInteger] at hsup
  | IntegerArrayCursor b => simp [Cursor.isFloatOrInteger] at hsup
  | UnsignedArrayCursor b =>
    simp [readLoop, hc, hs, hl, Series.abortError, Cursor.isArrayCursor]
  | BooleanArrayCursor b =>
    simp [readLoop, hc, hs, hl, Series.abortError, Cursor.isArrayCursor]
  | StringArrayCursor b =>
    simp [readLoop, hc, hs, hl, Series.abortError, Cursor.isArrayCursor]
  | other t =>
    simp [readLoop, hc, hs, hl, Series.abortError, Cursor.isArrayCursor]

/-- The series the buffered loop accumulates are the whole time series of the first `k`
series it was given, for some `k`. -/
theorem readLoop_series (ext : Ext) (slimit limit : Int) (rs : ResultSet) :
    ∀ (i : Nat) (st : ReadState), ∃ k : Nat,
    (readLoop ext slimit limit rs i st).1.Timeseries =
      st.Timeseries ++ (rs.take k).filterMap (Series.timeSeries ext) := by
  induction rs with
  | nil => intro i st; exact ⟨0, by simp [readLoop]⟩
  | cons x rest ih =>
    intro i st
    by_cases hs : slimit > 0 ∧ st.seriesNum ≥ slimit
    · exact ⟨0, by simp [readLoop_reached_eq ext slimit limit _ i st (Or.inl hs)]⟩
    by_cases hl : limit > 0 ∧ st.pointsNum ≥ limit
    · exact ⟨0, by simp [readLoop_reached_eq ext slimit limit _ i st (Or.inr hl)]⟩
    cases hcur : x.Cursor with
    | none =>
      obtain ⟨k, hk⟩ := ih (i + 1) st
      refine ⟨k + 1, ?_⟩
      rw [readLoop_cons_absent ext slimit limit x rest i st hcur hs hl, hk]
      have hx : x.timeSeries ext = none := by simp [Series.timeSeries, hcur]
      simp [List.take_succ_cons, List.filterMap_cons, hx]
    | some cur =>
      cases hsup : cur.isFloatOrInteger with
      | false =>
        exact ⟨0, by
          simp [(readLoop_cons_abort ext slimit limit x rest i st cur hcur hsup hs hl).2.1]⟩
      | true =>
        rw [readLoop_cons_drained ext slimit limit x rest i st cur hcur hsup hs hl]
        obtain ⟨k, hk⟩ := ih (i + 1)
          { Timeseries := st.Timeseries ++ (x.timeSeries ext).toList,
            seriesNum := st.seriesNum + (x.timeSeries ext).toList.length,
            pointsNum := st.pointsNum + x.sampleCount ext,
            events := st.events ++ [.Cursor i, .Close i] }
        refine ⟨k + 1, ?_⟩
        rw [hk]
        cases hx : x.timeSeries ext with
        | none => simp [List.take_succ_cons, List.filterMap_cons, hx]
        | some ts => simp [List.take_succ_cons, List.filterMap_cons, hx]

/-- A successful buffered result holds the time series of the first `k` series of the
result set, for some `k`. -/
theorem GetReadResponse_ok_take (ext : Ext) (rs : ResultSet) (slimit limit : Int)
    (resp : ReadResponse) (h : GetReadResponse ext (some rs) slimit limit = .ok resp) :
    ∃ k : Nat, resp.Results =
      [QueryResult.mk ((rs.take k).filterMap (Series.timeSeries ext))] := by
  rw [GetReadResponse_eq] at h
  obtain ⟨k, hk⟩ := readLoop_series ext slimit limit rs 0 ReadState.init
  refine ⟨k, ?_⟩
  cases hr : readResult (readLoop ext slimit limit rs 0 ReadState.init) with
  | mk err series =>
    rw [hr] at h
    have hser : series = (readLoop ext slimit limit rs 0 ReadState.init).1.Timeseries := by
      simpa [readResult] using (congrArg Prod.snd hr).symm
    cases err with
    | none =>
      simp only [Except.ok.injEq] at h
      rw [← h, hser, hk]
      simp [ReadState.init]
    | some e => simp at h

/-- Every time series of a successful buffered result is the time series of a series of
the result set. -/
theorem GetReadResponse_ok_mem (ext : Ext) (rs : ResultSet) (slimit limit : Int)
    (resp : ReadResponse) (h : GetReadResponse ext (some rs) slimit limit = .ok resp) :
    ∀ q ∈ resp.Results, ∀ ts ∈ q.Timeseries, ∃ s ∈ rs, s.timeSeries ext = some ts := by
  obtain ⟨k, hres⟩ := GetReadResponse_ok_take ext rs slimit limit resp h
  intro q hq ts hts
  rw [hres, List.mem_singleton] at hq
  subst hq
  obtain ⟨s, hs, hst⟩ := List.mem_filterMap.mp hts
  exact ⟨s, List.mem_of_mem_take hs, hst⟩

/-- C25: the buffered path never truncates a series. For every result set, `slimit` and
`limit`, the time series of a successful buffered result are the time series of the
first `k` series of the result set, for some `k`, in order; so each of them has the labels
of a series of the result set and all the samples the cursor of that series yields
before its first empty batch, in batch order, whatever `limit` is. -/
theorem C25_buffered_never_truncates (ext : Ext) (rs : ResultSet) (slimit limit : Int)
    (resp : ReadResponse) (h : GetReadResponse ext (some rs) slimit limit = .ok resp) :
    (∃ k : Nat, resp.Results =
      [QueryResult.mk ((rs.take k).filterMap (Series.timeSeries ext))]) ∧
    ∀ q ∈ resp.Results, ∀ ts ∈ q.Timeseries, ∃ s ∈ rs,
      ts.Labels = s.labels ext ∧ ts.Samples = s.samples ext := by
  refine ⟨GetReadResponse_ok_take ext rs slimit limit resp h, ?_⟩
  intro q hq ts hts
  obtain ⟨s, hs, hst⟩ := GetReadResponse_ok_mem ext rs slimit limit resp h q hq ts hts
  obtain ⟨h1, h2, _⟩ := Series.timeSeries_some ext s ts hst
  exact ⟨s, hs, h1, h2⟩

/-- C25 on the two series of 3 and 5 samples with `limit = 2`: the result is the whole
first series, whose 3 samples exceed the limit. -/
theorem C25_buffered_never_truncates_witness :
    GetReadResponse sampleExt (some twoSeries) 0 2 =
      .ok (ReadResponse.mk [QueryResult.mk
        ((twoSeries.take 1).filterMap (Series.timeSeries sampleExt))]) ∧
    (∃ k : Nat, (ReadResponse.mk [QueryResult.mk
        ((twoSeries.take 1).filterMap (Series.timeSeries sampleExt))]).Results =
      [QueryResult.mk ((twoSeries.take k).filterMap (Series.timeSeries sampleExt))]) ∧
    ((twoSeries.take 1).filterMap (Series.timeSeries sampleExt)).map
      (fun ts => ts.Samples.length) = [3] :=
  ⟨rfl, (C25_buffered_never_truncates sampleExt twoSeries 0 2 _ rfl).1, by decide⟩

/-- Over array cursors, the cursor calls of the buffered loop are "obtain, then close"
for series at increasing positions. -/
theorem readLoop_events (ext : Ext) (slimit limit : Int) (rs : ResultSet) :
    ∀ (i : Nat) (st : ReadState), ResultSet.allArrayCursors rs →
    ∃ positions : List Nat,
      (readLoop ext slimit limit rs i st).1.events =
        st.events ++ obtainedAndClosed positions ∧
      positions.Sorted (fun a b => a < b) ∧
      ∀ p ∈ positions, i ≤ p ∧ p < i + rs.length := by
  induction rs with
  | nil =>
    intro i st _
    exact ⟨[], by simp [readLoop, obtainedAndClosed], List.sorted_nil, by simp⟩
  | cons x rest ih =>
    intro i st hall
    have hrest : ResultSet.allArrayCursors rest :=
      fun s hs => hall s (List.mem_cons_of_mem _ hs)
    by_cases hs : slimit > 0 ∧ st.seriesNum ≥ slimit
    · exact ⟨[], by
        simp [readLoop_reached_eq ext slimit limit _ i st (Or.inl hs), obtainedAndClosed],
        List.sorted_nil, by simp⟩
    by_cases hl : limit > 0 ∧ st.pointsNum ≥ limit
    · exact ⟨[], by
        simp [readLoop_reached_eq ext slimit limit _ i st (Or.inr hl), obtainedAndClosed],
        List.sorted_nil, by simp⟩
    cases hcur : x.Cursor with
    | none =>
      obtain ⟨ps, h1, h2, h3⟩ := ih (i + 1) st hrest
      refine ⟨ps, ?_, h2, ?_⟩
      · rw [readLoop_cons_absent ext slimit limit x rest i st hcur hs hl, h1]
      · intro p hp
        have := h3 p hp
        simp only [List.length_cons]
        omega
    | some cur =>
      cases hsup : cur.isFloatOrInteger with
      | false =>
        have harr : cur.isArrayCursor = true := hall x (List.mem_cons_self _ _) cur hcur
        refine ⟨[i], ?_, List.sorted_singleton i, ?_⟩
        · rw [(readLoop_cons_abort ext slimit limit x rest i st cur hcur hsup hs hl).2.2]
          simp [harr, obtainedAndClosed]
        · intro p hp
          simp only [List.mem_singleton] at hp
          simp only [List.length_cons]
          omega
      | true =>
        rw [readLoop_cons_drained ext slimit limit x rest i st cur hcur hsup hs hl]
        obtain ⟨ps, h1, h2, h3⟩ := ih (i + 1)
          { Timeseries := st.Timeseries ++ (x.timeSeries ext).toList,
            seriesNum := st.seriesNum + (x.timeSeries ext).toList.length,
            pointsNum := st.pointsNum + x.sampleCount ext,
            events := st.events ++ [.Cursor i, .Close i] } hrest
        refine ⟨i :: ps, ?_, ?_, ?_⟩
        · rw [h1]
          simp [obtainedAndClosed]
        · refine List.sorted_cons.mpr ⟨fun b hb => ?_, h2⟩
          have := h3 b hb
          omega
        · intro p hp
          simp only [List.length_cons]
          rcases List.mem_cons.mp hp with hp | hp
          · omega
          · have := h3 p hp
            omega

/-- Once the series `before` use up a limit, the buffered loop obtains no cursor beyond
them. -/
theorem readLoop_no_cursor_after (ext : Ext) (slimit limit : Int) (after : ResultSet) :
    ∀ (before : ResultSet) (i : Nat) (st : ReadState),
    ((slimit > 0 ∧ st.seriesNum + (ResultSet.seriesCount ext before : Int) ≥ slimit) ∨
      (limit > 0 ∧ st.pointsNum + (ResultSet.sampleCount ext before : Int) ≥ limit)) →
    ∀ k, CursorEvent.Cursor k ∈
        (readLoop ext slimit limit (before ++ after) i st).1.events →
      CursorEvent.Cursor k ∈ st.events ∨ k < i + before.length := by
  intro before
  induction before with
  | nil =>
    intro i st h k hk
    simp only [ResultSet.seriesCount, ResultSet.sampleCount, List.filterMap_nil,
      List.length_nil, List.map_nil, List.sum_nil, Nat.cast_zero, add_zero] at h
    rw [List.nil_append, readLoop_reached_eq ext slimit limit _ i st h] at hk
    exact Or.inl hk
  | cons x rest ih =>
    intro i st h k hk
    rw [seriesCount_cons, sampleCount_cons] at h
    rw [List.cons_append] at hk
    simp only [List.length_cons]
    by_cases hs : slimit > 0 ∧ st.seriesNum ≥ slimit
    · rw [readLoop_reached_eq ext slimit limit _ i st (Or.inl hs)] at hk
      exact Or.inl hk
    by_cases hl : limit > 0 ∧ st.pointsNum ≥ limit
    · rw [readLoop_reached_eq ext slimit limit _ i st (Or.inr hl)] at hk
      exact Or.inl hk
    cases hcur : x.Cursor with
    | none =>
      have hx : x.timeSeries ext = none := by simp [Series.timeSeries, hcur]
      have hn : x.sampleCount ext = 0 := by simp [Series.sampleCount, hx]
      rw [readLoop_cons_absent ext slimit limit x _ i st hcur hs hl] at hk
      rcases ih (i + 1) st (by simpa [hx, hn] using h) k hk with h1 | h1
      · exact Or.inl h1
      · exact Or.inr (by omega)
    | some cur =>
      cases hsup : cur.isFloatOrInteger with
      | false =>
        rw [(readLoop_cons_abort ext slimit limit x _ i st cur hcur hsup hs hl).2.2] at hk
        rcases List.mem_append.mp hk with h1 | h1
        · exact Or.inl h1
        · right
          rcases List.mem_cons.mp h1 with h2 | h2
          · cases h2; omega
          · split at h2
            · simp at h2
            · simp at h2
      | true =>
        rw [readLoop_cons_drained ext slimit limit x _ i st cur hcur hsup hs hl] at hk
        rcases ih (i + 1) _ (by
          simp only [Nat.cast_add] at h ⊢
          rcases h with h | h
          · exact Or.inl ⟨h.1, by omega⟩
          · exact Or.inr ⟨h.1, by omega⟩) k hk with h1 | h1
        · rcases List.mem_append.mp h1 with h2 | h2
          · exact Or.inl h2
          · right
            simp at h2
            omega
        · exact Or.inr (by omega)

/-- C26: on the buffered path, over cursors of the five array kinds, the cursor calls of
`GetReadResponse` are, for series at strictly increasing positions of the result set,
"obtain the cursor, then close it": each cursor obtained is closed once, before the next
one is obtained and before the call returns, whether the call succeeds or an
unsupported kind aborts it. And for any result set, once the series of a front part use
up `slimit` or `limit`, no cursor of a later series is obtained. -/
theorem C26_buffered_cursors_closed (ext : Ext) (rs : ResultSet) (slimit limit : Int) :
    (ResultSet.allArrayCursors rs →
      ∃ positions : List Nat,
        (GetReadResponseRun ext (some rs) slimit limit).1 = obtainedAndClosed positions ∧
        positions.Sorted (fun a b => a < b) ∧ ∀ p ∈ positions, p < rs.length) ∧
    (∀ before after : ResultSet, rs = before ++ after →
      limitsReached ext slimit limit before →
      ∀ k, CursorEvent.Cursor k ∈ (GetReadResponseRun ext (some rs) slimit limit).1 →
        k < before.length) := by
  have hev : (GetReadResponseRun ext (some rs) slimit limit).1 =
      (readLoop ext slimit limit rs 0 ReadState.init).1.events := by
    simp only [GetReadResponseRun]
    cases hr : readLoop ext slimit limit rs 0 ReadState.init with
    | mk st e => cases e <;> rfl
  refine ⟨fun hall => ?_, fun before after hrs hreach k hk => ?_⟩
  · obtain ⟨ps, h1, h2, h3⟩ := readLoop_events ext slimit limit rs 0 ReadState.init hall
    refine ⟨ps, ?_, h2, fun p hp => ?_⟩
    · rw [hev, h1]; simp [ReadState.init]
    · have := h3 p hp
      omega
  · rw [hev, hrs] at hk
    rcases readLoop_no_cursor_after ext slimit limit after before 0 ReadState.init
      (by simpa [ReadState.init, limitsReached] using hreach) k hk with h1 | h1
    · simp [ReadState.init] at h1
    · omega

/-- C26 on a float series followed by a boolean series, without limits: the aborted call
obtained and closed both cursors, in turn; and on the two series of 3 and 5 samples with
`slimit = 1` the cursor of the second series is not obtained. -/
theorem C26_buffered_cursors_closed_witness :
    (GetReadResponseRun sampleExt (some floatThenBoolean) 0 0).1 =
      [.Cursor 0, .Close 0, .Cursor 1, .Close 1] ∧
    (∃ positions : List Nat,
      (GetReadResponseRun sampleExt (some floatThenBoolean) 0 0).1 =
        obtainedAndClosed positions ∧
      positions.Sorted (fun a b => a < b) ∧
      ∀ p ∈ positions, p < floatThenBoolean.length) ∧
    (∀ k, CursorEvent.Cursor k ∈ (GetReadResponseRun sampleExt (some twoSeries) 1 0).1 →
      k < (twoSeries.take 1).length) :=
  ⟨by decide,
    (C26_buffered_cursors_closed sampleExt floatThenBoolean 0 0).1
      (by simp [ResultSet.allArrayCursors, floatThenBoolean, floatSeries, booleanSeries,
        Cursor.isArrayCursor]),
    (C26_buffered_cursors_closed sampleExt twoSeries 1 0).2 (twoSeries.take 1)
      (twoSeries.drop 1) rfl (Or.inl ⟨by decide, by decide⟩)⟩

/-! ## Series without a cursor -/

/-- A series without a cursor does not change what the buffered loop returns. -/
theorem readLoop_skip_absent (ext : Ext) (slimit limit : Int) (s0 : Series)
    (h0 : s0.Cursor = none) (rest : ResultSet) (i j : Nat) (st st1 : ReadState)
    (h : st.data = st1.data) :
    readResult (readLoop ext slimit limit (s0 :: rest) i st) =
      readResult (readLoop ext slimit limit rest j st1) := by
  have h' := h
  simp only [ReadState.data, Prod.mk.injEq] at h'
  obtain ⟨h1, h2, h3⟩ := h'
  by_cases hr : (slimit > 0 ∧ st.seriesNum ≥ slimit) ∨ (limit > 0 ∧ st.pointsNum ≥ limit)
  · rw [readLoop_reached ext slimit limit _ i st hr,
      readLoop_reached ext slimit limit _ j st1 (by rw [← h2, ← h3]; exact hr), h1]
  · rw [readLoop_cons_absent ext slimit limit s0 rest i st h0 (fun hs => hr (Or.inl hs))
      (fun hl => hr (Or.inr hl))]
    exact readLoop_data ext slimit limit rest _ _ st st1 h

/-- A series without a cursor does not change what the streaming loop sends and
returns. -/
theorem rawLoop_skip_absent (ext : Ext) (stream : RawServer) (slimit limit : Int)
    (s0 : Series) (h0 : s0.Cursor = none) (rest : ResultSet) (i j : Nat)
    (st st1 : RawState) (h : st.data = st1.data) :
    rawResult (rawLoop ext stream slimit limit (s0 :: rest) i st) =
      rawResult (rawLoop ext stream slimit limit rest j st1) := by
  have e : rawLoop ext stream slimit limit (s0 :: rest) i st =
      rawLoop ext stream slimit limit rest (i + 1) st := by
    simp only [rawLoop, h0]
  rw [e]
  exact rawLoop_data ext stream stream slimit limit rest _ _ st st1 h

/-- The buffered loop returns the same on a result set and on its series that have a
cursor. -/
theorem readLoop_filter (ext : Ext) (slimit limit : Int) (rs : ResultSet) :
    ∀ (i j : Nat) (st st1 : ReadState), st.data = st1.data →
    readResult (readLoop ext slimit limit rs i st) =
      readResult (readLoop ext slimit limit (rs.filter Series.hasCursor) j st1) := by
  induction rs with
  | nil => intro i j st st1 h; exact readLoop_data ext slimit limit [] i j st st1 h
  | cons x rest ih =>
    intro i j st st1 h
    cases hcur : x.Cursor with
    | none =>
      have hx : x.hasCursor = false := by simp [Series.hasCursor, hcur]
      rw [List.filter_cons_of_neg (by simp [hx])]
      rw [readLoop_skip_absent ext slimit limit x hcur rest i (i + 1) st st rfl]
      exact ih _ _ st st1 h
    | some cur =>
      have hx : x.hasCursor = true := by simp [Series.hasCursor, hcur]
      rw [List.filter_cons_of_pos hx]
      exact readLoop_congr_cons ext slimit limit _ _ ih x i j st st1 h

/-- The streaming loop sends and returns the same on a result set and on its series that
have a cursor. -/
theorem rawLoop_filter (ext : Ext) (stream : RawServer) (slimit limit : Int)
    (rs : ResultSet) : ∀ (i j : Nat) (st st1 : RawState), st.data = st1.data →
    rawResult (rawLoop ext stream slimit limit rs i st) =
      rawResult (rawLoop ext stream slimit limit (rs.filter Series.hasCursor) j st1) := by
  induction rs with
  | nil => intro i j st st1 h; exact rawLoop_data ext stream stream slimit limit [] i j st st1 h
  | cons x rest ih =>
    intro i j st st1 h
    cases hcur : x.Cursor with
    | none =>
      have hx : x.hasCursor = false := by simp [Series.hasCursor, hcur]
      rw [List.filter_cons_of_neg (by simp [hx])]
      rw [rawLoop_skip_absent ext stream slimit limit x hcur rest i (i + 1) st st rfl]
      exact ih _ _ st st1 h
    | some cur =>
      have hx : x.hasCursor = true := by simp [Series.hasCursor, hcur]
      rw [List.filter_cons_of_pos hx]
      exact rawLoop_congr_cons ext stream stream slimit limit _ _ ih x i j st st1 h

/-- C27: series without a cursor do not affect the outcome. Two result sets that have
the same series with a cursor, in the same order (so that one is obtained from the other
by inserting and removing entries without a cursor, anywhere), give, for every `slimit`,
`limit` and stream, the same buffered result (response or error), the same sequence of
series sent on the stream and the same return value of the streaming path. -/
theorem C27_absent_cursors_ignored (ext : Ext) (stream : RawServer) (rs1 rs2 : ResultSet)
    (slimit limit : Int)
    (h : rs1.filter Series.hasCursor = rs2.filter Series.hasCursor) :
    GetReadResponse ext (some rs1) slimit limit =
      GetReadResponse ext (some rs2) slimit limit ∧
    sentSeries (rawResultSet ext stream (some rs1) slimit limit).1 =
      sentSeries (rawResultSet ext stream (some rs2) slimit limit).1 ∧
    (rawResultSet ext stream (some rs1) slimit limit).2 =
      (rawResultSet ext stream (some rs2) slimit limit).2 := by
  have hread : readResult (readLoop ext slimit limit rs1 0 ReadState.init) =
      readResult (readLoop ext slimit limit rs2 0 ReadState.init) := by
    rw [readLoop_filter ext slimit limit rs1 0 0 ReadState.init ReadState.init rfl,
      readLoop_filter ext slimit limit rs2 0 0 ReadState.init ReadState.init rfl, h]
  have hraw : rawResult (rawLoop ext stream slimit limit rs1 0 RawState.init) =
      rawResult (rawLoop ext stream slimit limit rs2 0 RawState.init) := by
    rw [rawLoop_filter ext stream slimit limit rs1 0 0 RawState.init RawState.init rfl,
      rawLoop_filter ext stream slimit limit rs2 0 0 RawState.init RawState.init rfl, h]
  obtain ⟨a1, a2⟩ := rawResultSet_eq ext stream rs1 slimit limit
  obtain ⟨b1, b2⟩ := rawResultSet_eq ext stream rs2 slimit limit
  refine ⟨?_, ?_, ?_⟩
  · rw [GetReadResponse_eq, GetReadResponse_eq, hread]
  · rw [a1, b1, hraw]
  · rw [a2, b2, hraw]

/-- C27 on the two series of 3 and 5 samples with three series without a cursor put
around them, with `limit = 4`: the buffered result and the series sent are those of the
two series alone. -/
theorem C27_absent_cursors_ignored_witness :
    twoSeriesWithAbsent.length = 5 ∧
    GetReadResponse sampleExt (some twoSeriesWithAbsent) 0 4 =
      GetReadResponse sampleExt (some twoSeries) 0 4 ∧
    sentSeries (rawResultSet sampleExt okStream (some twoSeriesWithAbsent) 0 4).1 =
      sentSeries (rawResultSet sampleExt okStream (some twoSeries) 0 4).1 :=
  ⟨rfl,
    (C27_absent_cursors_ignored sampleExt okStream twoSeriesWithAbsent twoSeries 0 4
      (by decide)).1,
    (C27_absent_cursors_ignored sampleExt okStream twoSeriesWithAbsent twoSeries 0 4
      (by decide)).2.1⟩

/-! ## Timestamps -/

/-- The millisecond timestamps of the samples of a cursor are its nanosecond timestamps,
each divided by `millisecond` with truncation toward zero. -/
theorem samplesOf_timestamps {α : Type} (conv : α → Float64)
    (batches : List (CursorArray α)) :
    (samplesOf conv batches).map (fun x => x.TimestampMs) =
      (timestampsOf batches).map (fun t => t.tdiv millisecond) := by
  simp [samplesOf, timestampsOf, List.map_map, Function.comp_def]

/-- The same for the samples of a series. -/
theorem Series.samples_timestamps (ext : Ext) (s : Series) :
    (s.samples ext).map (fun x => x.TimestampMs) =
      s.timestamps.map (fun t => t.tdiv millisecond) := by
  unfold Series.samples Series.timestamps
  cases hcur : s.Cursor with
  | none => rfl
  | some cur =>
    cases cur with
    | FloatArrayCursor batches => exact samplesOf_timestamps id batches
    | IntegerArrayCursor batches => exact samplesOf_timestamps ext.float64 batches
    | UnsignedArrayCursor b => rfl
    | BooleanArrayCursor b => rfl
    | StringArrayCursor b => rfl
    | other t => rfl

/-- A property that holds for every series already sent and for every prefix of the
samples of every series of the result set, under its labels, holds for every series the
streaming loop has sent when it ends. -/
theorem rawLoop_sent_all (ext : Ext) (stream : RawServer) (slimit limit : Int)
    (Q : TimeSeries → Prop) (rs : ResultSet) :
    (∀ s ∈ rs, ∀ k : Nat, Q { Labels := s.labels ext, Samples := (s.samples ext).take k }) →
    ∀ (i : Nat) (st : RawState), (∀ ts ∈ sentSeries st.events, Q ts) →
    ∀ ts ∈ sentSeries (rawLoop ext stream slimit limit rs i st).1.events, Q ts := by
  induction rs with
  | nil => intro _ i st h; simpa [rawLoop] using h
  | cons x rest ih =>
    intro hQ i st h
    have hrest : ∀ s ∈ rest, ∀ k : Nat,
        Q { Labels := s.labels ext, Samples := (s.samples ext).take k } :=
      fun s hs => hQ s (List.mem_cons_of_mem _ hs)
    cases hcur : x.Cursor with
    | none => simp only [rawLoop, hcur]; exact ih hrest _ _ h
    | some cur =>
      by_cases hs : slimit > 0 ∧ st.seriesNum ≥ slimit
      · simp only [rawLoop, hcur, hs, if_true, and_self, sentSeries_snoc_cursor]
        exact h
      by_cases hl : limit > 0 ∧ st.pointsNum ≥ limit
      · simp only [rawLoop, hcur, hs, hl, if_true, if_false, and_self,
          sentSeries_snoc_cursor]
        exact h
      cases hsup : cur.isFloatOrInteger with
      | false =>
        rw [(rawLoop_cons_unsupported ext stream slimit limit x rest i st cur hcur hsup hs
          hl).2.2.1]
        exact h
      | true =>
        obtain ⟨k, _, _, _, _, e⟩ :=
          rawLoop_cons_drained ext stream slimit limit x i st cur hcur hsup hs hl
        rw [e rest]
        apply ih hrest
        intro ts hts
        rw [(RawState.add_sent _ stream (x.labels ext) ((x.samples ext).take k)
          (st.pointsNum + (k : Int))).1, sentSeries_snoc_cursor] at hts
        rcases List.mem_append.mp hts with h1 | h1
        · exact h ts h1
        · split at h1
          · simp at h1
          · simp only [List.mem_singleton] at h1
            rw [h1]
            exact hQ x (List.mem_cons_self _ _) k

/-- Every series the streaming path sends has the labels of a series of the result set
and the first `k` of its samples, for some `k`. -/
theorem rawResultSet_sent_mem (ext : Ext) (stream : RawServer) (rs : ResultSet)
    (slimit limit : Int) :
    ∀ ts ∈ sentSeries (rawResultSet ext stream (some rs) slimit limit).1,
      ∃ s ∈ rs, ∃ k : Nat, ts.Labels = s.labels ext ∧
        ts.Samples = (s.samples ext).take k := by
  rw [(rawResultSet_eq ext stream rs slimit limit).1]
  exact rawLoop_sent_all ext stream slimit limit
    (fun ts => ∃ s ∈ rs, ∃ k : Nat, ts.Labels = s.labels ext ∧
      ts.Samples = (s.samples ext).take k) rs
    (fun s hs k => ⟨s, hs, k, rfl, rfl⟩) 0 RawState.init
    (fun ts hts => by simp [RawState.init, sentSeries] at hts)

/-- Division by `millisecond` with truncation toward zero keeps the order. -/
theorem tdiv_millisecond_mono (a b : Int) (h : a ≤ b) :
    a.tdiv millisecond ≤ b.tdiv millisecond := by
  have key : ∀ x : Int, (0 ≤ x → x.tdiv 1000000 = x / 1000000) ∧
      (x < 0 → x.tdiv 1000000 = -((-x) / 1000000)) := by
    intro x
    refine ⟨fun hx => Int.tdiv_eq_ediv hx (by decide), fun hx => ?_⟩
    have h1 : (-x).tdiv 1000000 = (-x) / 1000000 := Int.tdiv_eq_ediv (by omega) (by decide)
    have h2 : (-x).tdiv 1000000 = -(x.tdiv 1000000) := Int.neg_tdiv _ _
    omega
  unfold millisecond
  rcases lt_or_le a 0 with ha | ha <;> rcases lt_or_le b 0 with hb | hb
  · rw [(key a).2 ha, (key b).2 hb]; omega
  · rw [(key a).2 ha, (key b).1 hb]; omega
  · omega
  · rw [(key a).1 ha, (key b).1 hb]; omega

/-- The first `k` samples of a series whose source timestamps ascend are sorted by
millisecond timestamp. -/
theorem Series.samples_sorted (ext : Ext) (s : Series) (k : Nat)
    (h : s.timestamps.Sorted (fun a b => a ≤ b)) :
    (((s.samples ext).take k).map (fun x => x.TimestampMs)).Sorted (fun a b => a ≤ b) := by
  have h1 : (s.timestamps.map (fun t => t.tdiv millisecond)).Sorted (fun a b => a ≤ b) :=
    List.Pairwise.map _ (fun a b hab => tdiv_millisecond_mono a b hab) h
  rw [← Series.samples_timestamps ext s] at h1
  rw [List.map_take]
  exact List.Pairwise.sublist (List.take_sublist _ _) h1

/-- C28: timestamp conversion. On the buffered path the millisecond timestamps of every
time series of a successful result are, in order, the nanosecond timestamps of a series
of the result set (batches concatenated up to the first empty one), each divided by
1,000,000 with truncation toward zero; on the streaming path those of every series sent
are, in order, the first `k` of them so converted; and this division gives 0 for -1 and
for 999,999, and -1 for -1,000,001. -/
theorem C28_timestamp_conversion (ext : Ext) (stream : RawServer) (rs : ResultSet)
    (slimit limit : Int) :
    (∀ resp, GetReadResponse ext (some rs) slimit limit = .ok resp →
      ∀ q ∈ resp.Results, ∀ ts ∈ q.Timeseries, ∃ s ∈ rs,
        ts.Labels = s.labels ext ∧
        ts.Samples.map (fun x => x.TimestampMs) =
          s.timestamps.map (fun t => t.tdiv 1000000)) ∧
    (∀ ts ∈ sentSeries (rawResultSet ext stream (some rs) slimit limit).1,
      ∃ s ∈ rs, ∃ k : Nat, ts.Labels = s.labels ext ∧
        ts.Samples.map (fun x => x.TimestampMs) =
          (s.timestamps.take k).map (fun t => t.tdiv 1000000)) ∧
    millisecond = 1000000 ∧
    Int.tdiv (-1) millisecond = 0 ∧ Int.tdiv 999999 millisecond = 0 ∧
    Int.tdiv (-1000001) millisecond = -1 := by
  refine ⟨?_, ?_, rfl, by decide, by decide, by decide⟩
  · intro resp h q hq ts hts
    obtain ⟨s, hs, hst⟩ := GetReadResponse_ok_mem ext rs slimit limit resp h q hq ts hts
    obtain ⟨h1, h2, _⟩ := Series.timeSeries_some ext s ts hst
    exact ⟨s, hs, h1, by rw [h2]; exact Series.samples_timestamps ext s⟩
  · intro ts hts
    obtain ⟨s, hs, k, h1, h2⟩ := rawResultSet_sent_mem ext stream rs slimit limit ts hts
    refine ⟨s, hs, k, h1, ?_⟩
    rw [h2, List.map_take, List.map_take]
    exact congrArg (List.take k) (Series.samples_timestamps ext s)

/-- C28 on a float series with the timestamps -1,000,001, -1, 999,999 and 1,000,000 ns:
both paths emit the timestamps -1, 0, 0 and 1 ms. -/
theorem C28_timestamp_conversion_witness :
    GetReadResponse sampleExt (some [negativeSeries]) 0 0 =
      .ok (ReadResponse.mk [QueryResult.mk
        [TimeSeries.mk [LabelPair.mk "host" "n"]
          [Sample.mk ⟨0⟩ (-1), Sample.mk ⟨0⟩ 0, Sample.mk ⟨0⟩ 0, Sample.mk ⟨0⟩ 1]]]) ∧
    (∀ q ∈ (ReadResponse.mk [QueryResult.mk
        [TimeSeries.mk [LabelPair.mk "host" "n"]
          [Sample.mk ⟨0⟩ (-1), Sample.mk ⟨0⟩ 0, Sample.mk ⟨0⟩ 0, Sample.mk ⟨0⟩ 1]]]).Results,
      ∀ ts ∈ q.Timeseries, ∃ s ∈ [negativeSeries],
        ts.Labels = s.labels sampleExt ∧
        ts.Samples.map (fun x => x.TimestampMs) =
          s.timestamps.map (fun t => t.tdiv 1000000)) ∧
    (sentSeries (rawResultSet sampleExt okStream (some [negativeSeries]) 0 0).1).map
      (fun ts => ts.Samples.map (fun x => x.TimestampMs)) = [[-1, 0, 0, 1]] :=
  ⟨rfl,
    (C28_timestamp_conversion sampleExt okStream [negativeSeries] 0 0).1 _ rfl,
    by decide⟩

/-- C29: sorted samples. On the buffered path every time series of a successful result
has the labels and the samples of a series of the result set, and on the streaming path
every series sent has the labels and the first `k` samples of one; and whenever the
cursor of that series yields its nanosecond timestamps in ascending order across its
batches (negative ones included), the samples emitted are sorted ascending by
millisecond timestamp, each timestamp at most the next. -/
theorem C29_samples_sorted (ext : Ext) (stream : RawServer) (rs : ResultSet)
    (slimit limit : Int) :
    (∀ resp, GetReadResponse ext (some rs) slimit limit = .ok resp →
      ∀ q ∈ resp.Results, ∀ ts ∈ q.Timeseries, ∃ s ∈ rs,
        ts.Labels = s.labels ext ∧ ts.Samples = s.samples ext ∧
        (s.timestamps.Sorted (fun a b => a ≤ b) →
          (ts.Samples.map (fun x => x.TimestampMs)).Sorted (fun a b => a ≤ b))) ∧
    (∀ ts ∈ sentSeries (rawResultSet ext stream (some rs) slimit limit).1,
      ∃ s ∈ rs, ∃ k : Nat, ts.Labels = s.labels ext ∧
        ts.Samples = (s.samples ext).take k ∧
        (s.timestamps.Sorted (fun a b => a ≤ b) →
          (ts.Samples.map (fun x => x.TimestampMs)).Sorted (fun a b => a ≤ b))) := by
  refine ⟨?_, ?_⟩
  · intro resp h q hq ts hts
    obtain ⟨s, hs, hst⟩ := GetReadResponse_ok_mem ext rs slimit limit resp h q hq ts hts
    obtain ⟨h1, h2, _⟩ := Series.timeSeries_some ext s ts hst
    refine ⟨s, hs, h1, h2, fun hsorted => ?_⟩
    have := Series.samples_sorted ext s (s.samples ext).length hsorted
    rw [List.take_length] at this
    rw [h2]
    exact this
  · intro ts hts
    obtain ⟨s, hs, k, h1, h2⟩ := rawResultSet_sent_mem ext stream rs slimit limit ts hts
    refine ⟨s, hs, k, h1, h2, fun hsorted => ?_⟩
    rw [h2]
    exact Series.samples_sorted ext s k hsorted

/-- C29 on the float series with the ascending timestamps -1,000,001, -1, 999,999 and
1,000,000 ns and `limit = 3`: the series sent has the timestamps -1, 0 and 0 ms. -/
theorem C29_samples_sorted_witness :
    negativeSeries.timestamps = [-1000001, -1, 999999, 1000000] ∧
    (∀ ts ∈ sentSeries (rawResultSet sampleExt okStream (some [negativeSeries]) 0 3).1,
      ∃ s ∈ [negativeSeries], ∃ k : Nat, ts.Labels = s.labels sampleExt ∧
        ts.Samples = (s.samples sampleExt).take k ∧
        (s.timestamps.Sorted (fun a b => a ≤ b) →
          (ts.Samples.map (fun x => x.TimestampMs)).Sorted (fun a b => a ≤ b))) ∧
    (sentSeries (rawResultSet sampleExt okStream (some [negativeSeries]) 0 3).1).map
      (fun ts => ts.Samples.map (fun x => x.TimestampMs)) = [[-1, 0, 0]] :=
  ⟨by decide, (C29_samples_sorted sampleExt okStream [negativeSeries] 0 3).2, by decide⟩

/-! ## The streaming path: abort on an unsupported cursor -/

/-- The streaming loop keeps the series counter equal to the number of series sent. -/
theorem rawLoop_series_count (ext : Ext) (stream : RawServer) (slimit limit : Int)
    (rs : ResultSet) : ∀ (i : Nat) (st : RawState),
    ((sentSeries st.events).length : Int) = st.seriesNum →
    ((sentSeries (rawLoop ext stream slimit limit rs i st).1.events).length : Int) =
      (rawLoop ext stream slimit limit rs i st).1.seriesNum := by
  induction rs with
  | nil => intro i st h; simpa [rawLoop] using h
  | cons x rest ih =>
    intro i st h
    cases hcur : x.Cursor with
    | none => simp only [rawLoop, hcur]; exact ih _ _ h
    | some cur =>
      by_cases hs : slimit > 0 ∧ st.seriesNum ≥ slimit
      · simp only [rawLoop, hcur, hs, if_true, and_self, sentSeries_snoc_cursor]
        exact h
      by_cases hl : limit > 0 ∧ st.pointsNum ≥ limit
      · simp only [rawLoop, hcur, hs, hl, if_true, if_false, and_self,
          sentSeries_snoc_cursor]
        exact h
      cases hsup : cur.isFloatOrInteger with
      | false =>
        obtain ⟨_, _, e3, _, e5⟩ :=
          rawLoop_cons_unsupported ext stream slimit limit x rest i st cur hcur hsup hs hl
        rw [e3, e5]
        exact h
      | true =>
        obtain ⟨k, _, _, _, _, e⟩ :=
          rawLoop_cons_drained ext stream slimit limit x i st cur hcur hsup hs hl
        rw [e rest]
        obtain ⟨a1, _, a3⟩ := RawState.add_sent
          ({ st with events := st.events ++ [.Cursor i] } : RawState) stream (x.labels ext)
          ((x.samples ext).take k) (st.pointsNum + (k : Int))
        apply ih
        rw [a1, a3, sentSeries_snoc_cursor]
        by_cases he : (x.samples ext).take k = []
        · simp [he, h]
        · simp [he, h]

/-- When the streaming loop passes over the series `before` without error and without
using up a limit, and the next series has a cursor that is not float or integer valued,
the loop returns the error of that series and has sent what it sends on `before`. -/
theorem rawLoop_append_abort (ext : Ext) (stream : RawServer) (slimit limit : Int)
    (b : Series) (cur : Cursor) (after : ResultSet) (hb : b.Cursor = some cur)
    (hsup : cur.isFloatOrInteger = false) :
    ∀ (before : ResultSet) (i : Nat) (st : RawState),
    (rawLoop ext stream slimit limit before i st).2 = none →
    ¬ (slimit > 0 ∧ (rawLoop ext stream slimit limit before i st).1.seriesNum ≥ slimit) →
    ¬ (limit > 0 ∧ (rawLoop ext stream slimit limit before i st).1.pointsNum ≥ limit) →
    (rawLoop ext stream slimit limit (before ++ b :: after) i st).2 = b.abortError ext ∧
    sentSeries (rawLoop ext stream slimit limit (before ++ b :: after) i st).1.events =
      sentSeries (rawLoop ext stream slimit limit before i st).1.events := by
  intro before
  induction before with
  | nil =>
    intro i st _ hs hl
    simp only [rawLoop] at hs hl
    obtain ⟨e1, _, e3, _⟩ :=
      rawLoop_cons_unsupported ext stream slimit limit b after i st cur hb hsup hs hl
    exact ⟨e1, by simpa [rawLoop] using e3⟩
  | cons x rest ih =>
    intro i st hnone hs hl
    rw [List.cons_append]
    cases hcur : x.Cursor with
    | none =>
      have e : ∀ tail : ResultSet, rawLoop ext stream slimit limit (x :: tail) i st =
          rawLoop ext stream slimit limit tail (i + 1) st := by
        intro tail; simp only [rawLoop, hcur]
      rw [e] at hnone hs hl ⊢
      rw [e]
      exact ih _ _ hnone hs hl
    | some c =>
      by_cases hs0 : slimit > 0 ∧ st.seriesNum ≥ slimit
      · exact absurd (by simp [rawLoop, hcur, hs0]) hs
      by_cases hl0 : limit > 0 ∧ st.pointsNum ≥ limit
      · exact absurd (by simp [rawLoop, hcur, hs0, hl0]) hl
      cases hc : c.isFloatOrInteger with
      | false =>
        obtain ⟨e1, e2, _⟩ :=
          rawLoop_cons_unsupported ext stream slimit limit x rest i st c hcur hc hs0 hl0
        rw [e1] at hnone
        rw [hnone] at e2
        cases e2
      | true =>
        obtain ⟨k, _, _, _, _, e⟩ :=
          rawLoop_cons_drained ext stream slimit limit x i st c hcur hc hs0 hl0
        rw [e] at hnone hs hl ⊢
        rw [e]
        exact ih _ _ hnone hs hl

/-- When the streaming loop returns an error, it stopped at the first series whose
cursor is not float or integer valued, with the error of that series, and has sent what
it sends on the series before it. -/
theorem rawLoop_abort (ext : Ext) (stream : RawServer) (slimit limit : Int)
    (rs : ResultSet) : ∀ (i : Nat) (st : RawState) (e : Err),
    (rawLoop ext stream slimit limit rs i st).2 = some e →
    ∃ (before : ResultSet) (b : Series) (after : ResultSet) (cur : Cursor),
      rs = before ++ b :: after ∧ b.Cursor = some cur ∧ cur.isFloatOrInteger = false ∧
      b.abortError ext = some e ∧
      (∀ s ∈ before, ∀ c, s.Cursor = some c → c.isFloatOrInteger = true) ∧
      (rawLoop ext stream slimit limit before i st).2 = none ∧
      sentSeries (rawLoop ext stream slimit limit rs i st).1.events =
        sentSeries (rawLoop ext stream slimit limit before i st).1.events := by
  induction rs with
  | nil => intro i st e h; simp [rawLoop] at h
  | cons x rest ih =>
    intro i st e h
    cases hcur : x.Cursor with
    | none =>
      have e0 : ∀ tail : ResultSet, rawLoop ext stream slimit limit (x :: tail) i st =
          rawLoop ext stream slimit limit tail (i + 1) st := by
        intro tail; simp only [rawLoop, hcur]
      rw [e0] at h ⊢
      obtain ⟨before, b, after, cur, h1, h2, h3, h4, h5, h6, h7⟩ := ih _ _ e h
      refine ⟨x :: before, b, after, cur, by rw [h1]; rfl, h2, h3, h4, ?_, ?_, ?_⟩
      · intro s hs c hc
        rcases List.mem_cons.mp hs with hs | hs
        · rw [hs, hcur] at hc; cases hc
        · exact h5 s hs c hc
      · rw [e0]; exact h6
      · rw [e0]; exact h7
    | some c =>
      by_cases hs0 : slimit > 0 ∧ st.seriesNum ≥ slimit
      · simp [rawLoop, hcur, hs0] at h
      by_cases hl0 : limit > 0 ∧ st.pointsNum ≥ limit
      · simp [rawLoop, hcur, hs0, hl0] at h
      cases hc : c.isFloatOrInteger with
      | false =>
        obtain ⟨e1, _, e3, _⟩ :=
          rawLoop_cons_unsupported ext stream slimit limit x rest i st c hcur hc hs0 hl0
        refine ⟨[], x, rest, c, rfl, hcur, hc, by rw [← e1]; exact h, by simp, by
          simp [rawLoop], by simpa [rawLoop] using e3⟩
      | true =>
        obtain ⟨k, _, _, _, _, e0⟩ :=
          rawLoop_cons_drained ext stream slimit limit x i st c hcur hc hs0 hl0
        rw [e0] at h ⊢
        obtain ⟨before, b, after, cur, h1, h2, h3, h4, h5, h6, h7⟩ := ih _ _ e h
        refine ⟨x :: before, b, after, cur, by rw [h1]; rfl, h2, h3, h4, ?_, ?_, ?_⟩
        · intro s hs c1 hc1
          rcases List.mem_cons.mp hs with hs | hs
          · rw [hs, hcur] at hc1
            simp only [Option.some.injEq] at hc1
            rw [← hc1]; exact hc
          · exact h5 s hs c1 hc1
        · rw [e0]; exact h6
        · rw [e0]; exact h7

/-- C30: streaming abort keeps what was delivered. When the series before a series
whose cursor is not float or integer valued (unsigned, boolean, string, or of an unknown
type) pass without error and without using up `slimit` or `limit`, the call returns the
error of that series, and the series sent are exactly those the call sends on the part
of the result set before it: nothing is sent for the offending series or a later one.
Conversely, whenever the call returns an error, it is the error of the first such series
of the result set, the call on the part before it returns without error, and the series
sent are exactly those of that part. -/
theorem C30_stream_abort_keeps_delivered (ext : Ext) (stream : RawServer)
    (slimit limit : Int) :
    (∀ (before : ResultSet) (b : Series) (after : ResultSet) (cur : Cursor),
      b.Cursor = some cur → cur.isFloatOrInteger = false →
      (rawResultSet ext stream (some before) slimit limit).2 = .ok () →
      ¬ (slimit > 0 ∧
        ((sentSeries (rawResultSet ext stream (some before) slimit limit).1).length : Int) ≥
          slimit) →
      ¬ (limit > 0 ∧
        (totalSamples (sentSeries (rawResultSet ext stream (some before) slimit limit).1) :
          Int) ≥ limit) →
      ∃ e, b.abortError ext = some e ∧
        (rawResultSet ext stream (some (before ++ b :: after)) slimit limit).2 = .error e ∧
        sentSeries (rawResultSet ext stream (some (before ++ b :: after)) slimit limit).1 =
          sentSeries (rawResultSet ext stream (some before) slimit limit).1) ∧
    (∀ (rs : ResultSet) (e : Err),
      (rawResultSet ext stream (some rs) slimit limit).2 = .error e →
      ∃ (before : ResultSet) (b : Series) (after : ResultSet) (cur : Cursor),
        rs = before ++ b :: after ∧ b.Cursor = some cur ∧ cur.isFloatOrInteger = false ∧
        b.abortError ext = some e ∧
        (∀ s ∈ before, ∀ c, s.Cursor = some c → c.isFloatOrInteger = true) ∧
        (rawResultSet ext stream (some before) slimit limit).2 = .ok () ∧
        sentSeries (rawResultSet ext stream (some rs) slimit limit).1 =
          sentSeries (rawResultSet ext stream (some before) slimit limit).1) := by
  refine ⟨?_, ?_⟩
  · intro before b after cur hb hsup hok hs hl
    obtain ⟨a1, a2⟩ := rawResultSet_eq ext stream before slimit limit
    obtain ⟨b1, b2⟩ := rawResultSet_eq ext stream (before ++ b :: after) slimit limit
    simp only [rawResult] at a1 a2 b1 b2
    have hnone : (rawLoop ext stream slimit limit before 0 RawState.init).2 = none := by
      cases hr : (rawLoop ext stream slimit limit before 0 RawState.init).2 with
      | none => rfl
      | some e0 => rw [a2, hr] at hok; cases hok
    have hcount := rawLoop_series_count ext stream slimit limit before 0 RawState.init rfl
    have htotal := (rawLoop_total ext stream slimit limit before 0 RawState.init rfl
      (fun _ => by simp [RawState.init]; omega)).1
    rw [a1, hcount] at hs
    rw [a1, htotal] at hl
    obtain ⟨c1, c2⟩ := rawLoop_append_abort ext stream slimit limit b cur after hb hsup
      before 0 RawState.init hnone hs hl
    have hsome : (b.abortError ext).isSome = true := by
      cases cur with
      | FloatArrayCursor x => simp [Cursor.isFloatOrInteger] at hsup
      | IntegerArrayCursor x => simp [Cursor.isFloatOrInteger] at hsup
      | UnsignedArrayCursor x => simp [Series.abortError, hb]
      | BooleanArrayCursor x => simp [Series.abortError, hb]
      | StringArrayCursor x => simp [Series.abortError, hb]
      | other t => simp [Series.abortError, hb]
    obtain ⟨e, he⟩ := Option.isSome_iff_exists.mp hsome
    refine ⟨e, he, ?_, ?_⟩
    · rw [b2, c1, he]
    · rw [b1, c2, a1]
  · intro rs e h
    obtain ⟨a1, a2⟩ := rawResultSet_eq ext stream rs slimit limit
    simp only [rawResult] at a1 a2
    have hsome : (rawLoop ext stream slimit limit rs 0 RawState.init).2 = some e := by
      cases hr : (rawLoop ext stream slimit limit rs 0 RawState.init).2 with
      | none => rw [a2, hr] at h; cases h
      | some e0 =>
        rw [a2, hr] at h
        simp only [Outcome.error.injEq] at h
        rw [h]
    obtain ⟨before, b, after, cur, h1, h2, h3, h4, h5, h6, h7⟩ :=
      rawLoop_abort ext stream slimit limit rs 0 RawState.init e hsome
    obtain ⟨b1, b2⟩ := rawResultSet_eq ext stream before slimit limit
    simp only [rawResult] at b1 b2
    refine ⟨before, b, after, cur, h1, h2, h3, h4, h5, ?_, ?_⟩
    · rw [b2, h6]
    · rw [a1, h7, b1]

/-- C30 on a float series of 3 samples followed by a boolean series and one more float
series, without limits: the call returns the error of the boolean series after having
sent the first series only. -/
theorem C30_stream_abort_keeps_delivered_witness :
    (rawResultSet sampleExt okStream (some [floatSeries]) 0 0).2 = .ok () ∧
    (∃ e, booleanSeries.abortError sampleExt = some e ∧
      (rawResultSet sampleExt okStream
        (some ([floatSeries] ++ booleanSeries :: [tenSampleSeries])) 0 0).2 = .error e ∧
      sentSeries (rawResultSet sampleExt okStream
        (some ([floatSeries] ++ booleanSeries :: [tenSampleSeries])) 0 0).1 =
        sentSeries (rawResultSet sampleExt okStream (some [floatSeries]) 0 0).1) ∧
    (rawResultSet sampleExt okStream
      (some ([floatSeries] ++ booleanSeries :: [tenSampleSeries])) 0 0).2 =
      .error (.cantReadCursor "bool" [("host", "b")]) ∧
    (sentSeries (rawResultSet sampleExt okStream
      (some ([floatSeries] ++ booleanSeries :: [tenSampleSeries])) 0 0).1).map
      (fun ts => ts.Samples.length) = [3] :=
  ⟨rfl,
    (C30_stream_abort_keeps_delivered sampleExt okStream 0 0).1 [floatSeries]
      booleanSeries [tenSampleSeries] _ rfl rfl rfl (by decide) (by decide),
    rfl, by decide⟩

/-! ## The buffered path: bounded overshoot -/

theorem totalSamples_append (a b : List TimeSeries) :
    totalSamples (a ++ b) = totalSamples a + totalSamples b := by
  simp [totalSamples]

/-- The time series of a series holds as many samples as the drain counts for it. -/
theorem Series.sampleCount_toList (ext : Ext) (s : Series) :
    totalSamples (s.timeSeries ext).toList = s.sampleCount ext := by
  unfold Series.sampleCount
  cases h : s.timeSeries ext with
  | none => simp [totalSamples]
  | some ts => simp [totalSamples]

/-- With a positive `limit`, the buffered loop keeps the point counter equal to the
number of samples accumulated, and the series accumulated before the last one hold fewer
than `limit` samples. -/
theorem readLoop_overshoot (ext : Ext) (slimit limit : Int) (hlimit : limit > 0)
    (rs : ResultSet) : ∀ (i : Nat) (st : ReadState),
    (totalSamples st.Timeseries : Int) = st.pointsNum →
    (totalSamples st.Timeseries.dropLast : Int) < limit →
    (totalSamples (readLoop ext slimit limit rs i st).1.Timeseries : Int) =
        (readLoop ext slimit limit rs i st).1.pointsNum ∧
      (totalSamples (readLoop ext slimit limit rs i st).1.Timeseries.dropLast : Int) <
        limit := by
  induction rs with
  | nil => intro i st h1 h2; simpa [readLoop] using ⟨h1, h2⟩
  | cons x rest ih =>
    intro i st h1 h2
    by_cases hs : slimit > 0 ∧ st.seriesNum ≥ slimit
    · rw [readLoop_reached_eq ext slimit limit _ i st (Or.inl hs)]
      exact ⟨h1, h2⟩
    by_cases hl : limit > 0 ∧ st.pointsNum ≥ limit
    · rw [readLoop_reached_eq ext slimit limit _ i st (Or.inr hl)]
      exact ⟨h1, h2⟩
    cases hcur : x.Cursor with
    | none =>
      rw [readLoop_cons_absent ext slimit limit x rest i st hcur hs hl]
      exact ih _ _ h1 h2
    | some cur =>
      cases hsup : cur.isFloatOrInteger with
      | false =>
        have hT := (readLoop_cons_abort ext slimit limit x rest i st cur hcur hsup hs hl).2.1
        have hp : (readLoop ext slimit limit (x :: rest) i st).1.pointsNum = st.pointsNum := by
          cases cur with
          | FloatArrayCursor b => simp [Cursor.isFloatOrInteger] at hsup
          | IntegerArrayCursor b => simp [Cursor.isFloatOrInteger] at hsup
          | UnsignedArrayCursor b => simp [readLoop, hcur, hs, hl]
          | BooleanArrayCursor b => simp [readLoop, hcur, hs, hl]
          | StringArrayCursor b => simp [readLoop, hcur, hs, hl]
          | other t => simp [readLoop, hcur, hs, hl]
        rw [hT, hp]
        exact ⟨h1, h2⟩
      | true =>
        rw [readLoop_cons_drained ext slimit limit x rest i st cur hcur hsup hs hl]
        apply ih
        · simp only [totalSamples_append, Nat.cast_add, Series.sampleCount_toList, h1]
        · simp only
          cases hx : x.timeSeries ext with
          | none => simpa using h2
          | some ts =>
            simp only [Option.toList_some, List.dropLast_concat]
            omega

/-- C31: bounded overshoot on the buffered path. For every positive `limit`, every
`slimit` and every result set (the `nil` one included), in a successful buffered result
the samples of all the time series except the last one number fewer than `limit`; so
the whole result holds at most `limit - 1` samples more than its last series does. -/
theorem C31_bounded_overshoot (ext : Ext) (rs : Option ResultSet) (slimit limit : Int)
    (hlimit : limit > 0) (resp : ReadResponse)
    (h : GetReadResponse ext rs slimit limit = .ok resp) :
    ∀ q ∈ resp.Results,
      (totalSamples q.Timeseries.dropLast : Int) < limit ∧
      ∀ last ∈ q.Timeseries.getLast?,
        (totalSamples q.Timeseries : Int) ≤ limit - 1 + (last.Samples.length : Int) := by
  have key : ∀ series : List TimeSeries, (totalSamples series.dropLast : Int) < limit →
      (totalSamples series.dropLast : Int) < limit ∧
      ∀ last ∈ series.getLast?,
        (totalSamples series : Int) ≤ limit - 1 + (last.Samples.length : Int) := by
    intro series hd
    refine ⟨hd, fun last hlast => ?_⟩
    have hsplit := List.dropLast_append_getLast? last hlast
    have ht : totalSamples series =
        totalSamples series.dropLast + last.Samples.length := by
      conv_lhs => rw [← hsplit]
      simp [totalSamples]
    rw [ht]
    push_cast
    omega
  cases rs with
  | none =>
    simp only [GetReadResponse, GetReadResponseRun, Except.ok.injEq] at h
    subst h
    intro q hq
    simp only [List.mem_singleton] at hq
    subst hq
    exact key [] (by simp [totalSamples]; omega)
  | some rs =>
    rw [GetReadResponse_eq] at h
    obtain ⟨_, h2⟩ := readLoop_overshoot ext slimit limit hlimit rs 0 ReadState.init rfl
      (by simp [ReadState.init, totalSamples]; omega)
    cases hr : readResult (readLoop ext slimit limit rs 0 ReadState.init) with
    | mk err series =>
      rw [hr] at h
      have hser : series = (readLoop ext slimit limit rs 0 ReadState.init).1.Timeseries := by
        simpa [readResult] using (congrArg Prod.snd hr).symm
      cases err with
      | some e => simp at h
      | none =>
        simp only [Except.ok.injEq] at h
        subst h
        intro q hq
        simp only [List.mem_singleton] at hq
        subst hq
        simp only
        rw [hser]
        exact key _ h2

/-- C31 on the two series of 3 and 5 samples with `limit = 4`: both series are returned,
8 samples in all, and the first one alone holds 3 samples, fewer than 4. -/
theorem C31_bounded_overshoot_witness :
    GetReadResponse sampleExt (some twoSeries) 0 4 =
      .ok (ReadResponse.mk [QueryResult.mk
        (twoSeries.filterMap (Series.timeSeries sampleExt))]) ∧
    (∀ q ∈ (ReadResponse.mk [QueryResult.mk
        (twoSeries.filterMap (Series.timeSeries sampleExt))]).Results,
      (totalSamples q.Timeseries.dropLast : Int) < 4 ∧
      ∀ last ∈ q.Timeseries.getLast?,
        (totalSamples q.Timeseries : Int) ≤ 4 - 1 + (last.Samples.length : Int)) ∧
    (twoSeries.filterMap (Series.timeSeries sampleExt)).map
      (fun ts => ts.Samples.length) = [3, 5] :=
  ⟨rfl, C31_bounded_overshoot sampleExt (some twoSeries) 0 4 (by decide) _ rfl, by decide⟩

/-! ## The streaming path: only the last message can be cut short -/

/-- The messages of `messagesCutLast`, split into all but the last and the last. -/
theorem messagesCutLast_eq (ext : Ext) (k : Nat) : ∀ srcs : List Series,
    (messagesCutLast ext srcs k).dropLast =
      srcs.dropLast.map (fun s => { Labels := s.labels ext, Samples := s.samples ext }) ∧
    (messagesCutLast ext srcs k).getLast? =
      srcs.getLast?.map
        (fun s => { Labels := s.labels ext, Samples := (s.samples ext).take k }) := by
  intro srcs
  induction srcs with
  | nil => simp [messagesCutLast]
  | cons s rest ih =>
    cases rest with
    | nil => simp [messagesCutLast]
    | cons t rest1 =>
      obtain ⟨ih1, ih2⟩ := ih
      have hne : messagesCutLast ext (t :: rest1) k ≠ [] := by
        cases rest1 <;> simp [messagesCutLast]
      obtain ⟨m, ms, hm⟩ := List.exists_cons_of_ne_nil hne
      refine ⟨?_, ?_⟩
      · simp only [messagesCutLast, List.dropLast_cons₂, List.map_cons]
        rw [hm, List.dropLast_cons₂, ← hm, ih1]
      · simp only [messagesCutLast]
        rw [hm, List.getLast?_cons_cons, ← hm, ih2, List.getLast?_cons_cons]

/-- Over float and integer cursors, the series the streaming loop sends are those of some
of the series it was given, in order, each with all of its samples except the last one,
which has a non-empty prefix of them. -/
theorem rawLoop_cut_last (ext : Ext) (stream : RawServer) (slimit limit : Int)
    (rs : ResultSet) : ResultSet.allFloatOrInteger rs → ∀ (i : Nat) (st : RawState),
    ∃ (srcs : List Series) (k : Nat), srcs.Sublist rs ∧
      (∀ s ∈ srcs, s.samples ext ≠ []) ∧
      sentSeries (rawLoop ext stream slimit limit rs i st).1.events =
        sentSeries st.events ++ messagesCutLast ext srcs k ∧
      ∀ s ∈ srcs.getLast?, 0 < k ∧ k ≤ (s.samples ext).length := by
  induction rs with
  | nil =>
    intro _ i st
    exact ⟨[], 0, List.Sublist.refl _, by simp, by simp [rawLoop, messagesCutLast], by simp⟩
  | cons x rest ih =>
    intro hall i st
    have hrest : ResultSet.allFloatOrInteger rest :=
      fun s hs => hall s (List.mem_cons_of_mem _ hs)
    have stop : ∀ st1 : RawState,
        sentSeries (rawLoop ext stream slimit limit (x :: rest) i st).1.events =
          sentSeries st1.events → sentSeries st1.events = sentSeries st.events →
        ∃ (srcs : List Series) (k : Nat), srcs.Sublist (x :: rest) ∧
          (∀ s ∈ srcs, s.samples ext ≠ []) ∧
          sentSeries (rawLoop ext stream slimit limit (x :: rest) i st).1.events =
            sentSeries st.events ++ messagesCutLast ext srcs k ∧
          ∀ s ∈ srcs.getLast?, 0 < k ∧ k ≤ (s.samples ext).length := by
      intro st1 e1 e2
      exact ⟨[], 0, List.nil_sublist _, by simp, by simp [e1, e2, messagesCutLast], by simp⟩
    cases hcur : x.Cursor with
    | none =>
      obtain ⟨srcs, k, h1, h2, h3, h4⟩ := ih hrest (i + 1) st
      refine ⟨srcs, k, List.Sublist.cons _ h1, h2, ?_, h4⟩
      simp only [rawLoop, hcur]
      exact h3
    | some cur =>
      by_cases hs : slimit > 0 ∧ st.seriesNum ≥ slimit
      · exact stop st (by simp [rawLoop, hcur, hs, sentSeries_snoc_cursor]) rfl
      by_cases hl : limit > 0 ∧ st.pointsNum ≥ limit
      · exact stop st (by simp [rawLoop, hcur, hs, hl, sentSeries_snoc_cursor]) rfl
      have hsup : cur.isFloatOrInteger = true := hall x (List.mem_cons_self _ _) cur hcur
      obtain ⟨k0, hk0, _, hfull, hpos, e⟩ :=
        rawLoop_cons_drained ext stream slimit limit x i st cur hcur hsup hs hl
      obtain ⟨a1, a2, _⟩ := RawState.add_sent
        ({ st with events := st.events ++ [.Cursor i] } : RawState) stream (x.labels ext)
        ((x.samples ext).take k0) (st.pointsNum + (k0 : Int))
      rw [sentSeries_snoc_cursor] at a1
      by_cases hemp : x.samples ext = []
      · obtain ⟨srcs, k, h1, h2, h3, h4⟩ := ih hrest (i + 1)
          (({ st with events := st.events ++ [.Cursor i] } : RawState).add stream
            (x.labels ext) ((x.samples ext).take k0, st.pointsNum + (k0 : Int)))
        refine ⟨srcs, k, List.Sublist.cons _ h1, h2, ?_, h4⟩
        rw [e rest, h3, a1]
        simp [hemp]
      · have hk0pos : 0 < k0 := hpos hemp
        have hne : (x.samples ext).take k0 ≠ [] := by
          intro hnil
          have := congrArg List.length hnil
          simp only [List.length_take, List.length_nil] at this
          have hlen : 0 < (x.samples ext).length := List.length_pos_iff_ne_nil.mpr hemp
          omega
        simp only [hne, if_false] at a1
        by_cases hk : k0 = (x.samples ext).length
        · have htake : (x.samples ext).take k0 = x.samples ext := by
            rw [hk, List.take_length]
          obtain ⟨srcs, k, h1, h2, h3, h4⟩ := ih hrest (i + 1)
            (({ st with events := st.events ++ [.Cursor i] } : RawState).add stream
              (x.labels ext) ((x.samples ext).take k0, st.pointsNum + (k0 : Int)))
          cases srcs with
          | nil =>
            refine ⟨[x], k0, ?_, ?_, ?_, ?_⟩
            · exact List.Sublist.cons₂ _ (List.nil_sublist _)
            · intro s hs1
              simp only [List.mem_singleton] at hs1
              rw [hs1]; exact hemp
            · rw [e rest, h3, a1]
              simp [messagesCutLast]
            · intro s hs1
              simp only [List.getLast?_singleton, Option.mem_def, Option.some.injEq] at hs1
              rw [← hs1]
              exact ⟨hk0pos, hk0⟩
          | cons t srcs1 =>
            refine ⟨x :: t :: srcs1, k, List.Sublist.cons₂ _ h1, ?_, ?_, ?_⟩
            · intro s hs1
              rcases List.mem_cons.mp hs1 with hs1 | hs1
              · rw [hs1]; exact hemp
              · exact h2 s hs1
            · rw [e rest, h3, a1, htake]
              simp [messagesCutLast]
            · intro s hs1
              rw [List.getLast?_cons_cons] at hs1
              exact h4 s hs1
        · have hreach : limit > 0 ∧ st.pointsNum + (k0 : Int) = limit := by
            rcases hfull with h | h
            · exact absurd h hk
            · exact h
          have hsent := congrArg Prod.snd (rawLoop_reached ext stream slimit limit rest (i + 1)
            (({ st with events := st.events ++ [.Cursor i] } : RawState).add stream
              (x.labels ext) ((x.samples ext).take k0, st.pointsNum + (k0 : Int)))
            (Or.inr ⟨hreach.1, by rw [a2]; omega⟩))
          simp only [rawResult] at hsent
          refine ⟨[x], k0, ?_, ?_, ?_, ?_⟩
          · exact List.Sublist.cons₂ _ (List.nil_sublist _)
          · intro s hs1
            simp only [List.mem_singleton] at hs1
            rw [hs1]; exact hemp
          · rw [e rest, hsent, a1]
            simp [messagesCutLast]
          · intro s hs1
            simp only [List.getLast?_singleton, Option.mem_def, Option.some.injEq] at hs1
            rw [← hs1]
            exact ⟨hk0pos, hk0⟩

/-- C32: on the streaming path only the last message can be cut short. For every
positive `limit`, every `slimit`, every stream and every result set of float and integer
cursors, the series sent are those of some series of the result set that have samples,
taken in result-set order: every message except the last one has the labels and all the
samples of its series, and the last one has the labels and the first `k` samples of its
series, with `k` at least one; in all, at most `limit` samples are sent. -/
theorem C32_only_last_truncated (ext : Ext) (stream : RawServer) (rs : ResultSet)
    (slimit limit : Int) (hlimit : limit > 0) (hall : ResultSet.allFloatOrInteger rs) :
    ∃ (srcs : List Series) (k : Nat), srcs.Sublist rs ∧
      (∀ s ∈ srcs, s.samples ext ≠ []) ∧
      (sentSeries (rawResultSet ext stream (some rs) slimit limit).1).dropLast =
        srcs.dropLast.map
          (fun s => { Labels := s.labels ext, Samples := s.samples ext }) ∧
      (sentSeries (rawResultSet ext stream (some rs) slimit limit).1).getLast? =
        srcs.getLast?.map
          (fun s => { Labels := s.labels ext, Samples := (s.samples ext).take k }) ∧
      (∀ s ∈ srcs.getLast?, 0 < k ∧ k ≤ (s.samples ext).length) ∧
      (totalSamples (sentSeries (rawResultSet ext stream (some rs) slimit limit).1) : Int) ≤
        limit := by
  obtain ⟨srcs, k, h1, h2, h3, h4⟩ :=
    rawLoop_cut_last ext stream slimit limit rs hall 0 RawState.init
  obtain ⟨t1, t2⟩ := rawLoop_total ext stream slimit limit rs 0 RawState.init rfl
    (fun _ => by simp [RawState.init]; omega)
  have hsent : sentSeries (rawResultSet ext stream (some rs) slimit limit).1 =
      messagesCutLast ext srcs k := by
    rw [(rawResultSet_eq ext stream rs slimit limit).1]
    simp only [rawResult]
    rw [h3]
    simp [RawState.init, sentSeries]
  refine ⟨srcs, k, h1, h2, ?_, ?_, h4, ?_⟩
  · rw [hsent]; exact (messagesCutLast_eq ext k srcs).1
  · rw [hsent]; exact (messagesCutLast_eq ext k srcs).2
  · rw [(rawResultSet_eq ext stream rs slimit limit).1]
    simp only [rawResult]
    rw [t1]
    exact t2 hlimit

/-- C32 on the two series of 3 and 5 samples with `limit = 4`: the first message has the 3
samples of the first series, the last one the first sample of the second series. -/
theorem C32_only_last_truncated_witness :
    ResultSet.allFloatOrInteger twoSeries ∧
    (∃ (srcs : List Series) (k : Nat), srcs.Sublist twoSeries ∧
      (∀ s ∈ srcs, s.samples sampleExt ≠ []) ∧
      (sentSeries (rawResultSet sampleExt okStream (some twoSeries) 0 4).1).dropLast =
        srcs.dropLast.map
          (fun s => { Labels := s.labels sampleExt, Samples := s.samples sampleExt }) ∧
      (sentSeries (rawResultSet sampleExt okStream (some twoSeries) 0 4).1).getLast? =
        srcs.getLast?.map
          (fun s => { Labels := s.labels sampleExt,
                      Samples := (s.samples sampleExt).take k }) ∧
      (∀ s ∈ srcs.getLast?, 0 < k ∧ k ≤ (s.samples sampleExt).length) ∧
      (totalSamples (sentSeries (rawResultSet sampleExt okStream (some twoSeries) 0 4).1) :
        Int) ≤ 4) ∧
    (sentSeries (rawResultSet sampleExt okStream (some twoSeries) 0 4).1).map
      (fun ts => ts.Samples.length) = [3, 1] ∧
    twoSeries.map (fun s => (s.samples sampleExt).length) = [3, 5] :=
  ⟨by simp [ResultSet.allFloatOrInteger, twoSeries, Cursor.isFloatOrInteger],
    C32_only_last_truncated sampleExt okStream twoSeries 0 4 (by decide)
      (by simp [ResultSet.allFloatOrInteger, twoSeries, Cursor.isFloatOrInteger]),
    by decide, by decide⟩

end Httpd
